import Mathlib

/-!
# Committee health manager (consensus/tbft/types/health.go)

A shallow embedding of the validator health manager of the tbft consensus
package, and theorems about it.

Modelling conventions.

* Go pointers to `Health` records are addresses (`Ptr`) into a memory
  `mem : Ptr → Health` carried by the manager state; a pointer that may be nil
  is an `Option Ptr`.  Two roster slots holding the same address alias the same
  record, as in the source.
* `int32` fields are `Int`; the only arithmetic on them, `atomic.AddInt32`,
  wraps (`wrapInt32`).  `uint64` fields are `Nat` reduced modulo `2^64`,
  `uint32` flags are `Int` reduced modulo `2^32`.
* The Go map `Work` is an association list with distinct keys; ranging over the
  map visits the entries in list order (Go leaves the order unspecified, and
  theorems quantify over every such list).
* A nil dereference (a Go panic) makes the function return `none`.
* `go h.Switch(sv)` sends `sv` on the outbound channel; the functions of the
  tick loop return the list of proposals sent, in program order.
* Logging is omitted.
* The epoch arithmetic of core/types/impawnUtil.go (`GetEpochFromID`,
  `MinCalcRedeemHeight`) is embedded as well; its `uint64` operations are
  `add64`, `sub64`, `mul64`, and the variables of package params it reads are the
  fields of `EpochParams`.
-/

namespace Tbft

/-- Address of a heap-allocated `Health` record (a non-nil `*Health`). -/
abbrev Ptr := Nat

/-- HealthOut peer time out. -/
def HealthOut : Int := 180

/-- MixValidator min committee count. -/
def MixValidator : Int := 2

def BlackDoorCount : Int := 4

def SwitchPartWork : Int := 0

def SwitchPartBack : Int := 1

def SwitchPartSeed : Int := 2

def EnableHealthMgr : Bool := true

/-- Modelled from the spec: the flag constants `ctypes.State*Flag` are declared in
core/types outside the files at hand; the wire description gives
`Unused=0`, `Used=1`, `Switching=2`, `Append=3`, `Removed=4`. -/
def StateUnusedFlag : Int := 0

/-- Modelled from the spec: see `StateUnusedFlag`. -/
def StateUsedFlag : Int := 1

/-- Modelled from the spec: see `StateUnusedFlag`. -/
def StateSwitchingFlag : Int := 2

/-- Modelled from the spec: see `StateUnusedFlag`. -/
def StateAppendFlag : Int := 3

/-- Modelled from the spec: see `StateUnusedFlag`. -/
def StateRemovedFlag : Int := 4

/-- Modelled from the spec: the role constants `ctypes.TypeWorked`, `ctypes.TypeBack`
and `ctypes.TypeFixed` are declared in core/types outside the files at hand; the
data model gives `role` as one of Working, Backup, Fixed, without encodings. -/
inductive MemberType where
  | TypeWorked
  | TypeBack
  | TypeFixed
deriving DecidableEq, Repr

export MemberType (TypeWorked TypeBack TypeFixed)

/-- The part of `*Validator` the manager reads: public key bytes and address
bytes. -/
structure Validator where
  PubKey : List Nat
  Address : List Nat
deriving DecidableEq, Repr

/-- Health struct. -/
structure Health where
  ID : String
  IP : String
  Port : Nat
  Tick : Int
  State : Int
  HType : MemberType
  Val : Validator
  Self : Bool
deriving DecidableEq, Repr

/-- NewHealth new. -/
def NewHealth (id : String) (t : MemberType) (state : Int) (val : Validator) (Self : Bool) :
    Health :=
  { ID := id, IP := "", Port := 0, State := state, HType := t, Val := val, Tick := 0,
    Self := Self }

/-- Modelled from the spec: `ctypes.SwitchEnter` is declared in core/types outside the
files at hand; a membership entry is `{public_key bytes, u32 flag}`. -/
structure SwitchEnter where
  Pk : List Nat
  Flag : Int
deriving DecidableEq, Repr

/-- Modelled from the spec: `ctypes.SwitchInfos` is declared in core/types outside the
files at hand; an ordered list of membership entries plus the `u64` committee id. -/
structure SwitchInfos where
  CID : Nat
  Vals : List SwitchEnter
deriving DecidableEq, Repr

/-- Modelled from the spec: `(*SwitchInfos).Equal` is defined in core/types outside the
files at hand; two member infos are equal when both are nil or both carry the same
committee id and the same entries. -/
def SwitchInfos.Equal (s other : Option SwitchInfos) : Bool :=
  decide (s = other)

/-- SwitchValidator struct.  `From`: 0 add, 1 restore. -/
structure SwitchValidator where
  Remove : Option Ptr
  Add : Option Ptr
  Infos : Option SwitchInfos
  Resion : String
  From : Int
  DoorCount : Int
  Round : Int
  ID : Nat
deriving DecidableEq, Repr

/-- HealthMgr struct, together with the memory its `*Health` pointers point into. -/
structure HealthMgr where
  mem : Ptr → Health
  Work : List (String × Ptr)
  Back : List Ptr
  seed : List Ptr
  curSwitch : List SwitchValidator
  switchBuffer : List SwitchValidator
  cid : Nat
  uid : Nat

/-- Conversion of an integer to `int32` (two's complement wrap-around). -/
def wrapInt32 (x : Int) : Int :=
  (x + 2 ^ 31) % 2 ^ 32 - 2 ^ 31

/-- Conversion `uint32(x)` of an `int32`. -/
def toUint32 (x : Int) : Int :=
  x % 2 ^ 32

/-- Equal return true they are same id or both nil otherwise return false. -/
def Health.Equal (mem : Ptr → Health) (h other : Option Ptr) : Bool :=
  match h, other with
  | none, none => true
  | none, some _ => false
  | some _, none => false
  | some p, some q => (mem p).ID == (mem q).ID && (mem p).Val.PubKey == (mem q).Val.PubKey

/-- Equal return true they are same id or both nil otherwise return false.
The receivers are non-nil here. -/
def SwitchValidator.Equal (mem : Ptr → Health) (s other : SwitchValidator) : Bool :=
  s.ID == other.ID && Health.Equal mem s.Remove other.Remove &&
    Health.Equal mem s.Add other.Add && SwitchInfos.Equal s.Infos other.Infos

/-- EqualWithoutID. -/
def SwitchValidator.EqualWithoutID (mem : Ptr → Health) (s other : SwitchValidator) : Bool :=
  Health.Equal mem s.Remove other.Remove && Health.Equal mem s.Add other.Add &&
    SwitchInfos.Equal s.Infos other.Infos

/-- EqualWithRemove. -/
def SwitchValidator.EqualWithRemove (mem : Ptr → Health) (s other : SwitchValidator) : Bool :=
  Health.Equal mem s.Remove other.Remove

/-- NewHealthMgr func.  The memory holds the records the callers allocate. -/
def NewHealthMgr (mem : Ptr → Health) (cid : Nat) : HealthMgr :=
  let hi := (cid <<< 32) % 2 ^ 64
  let lo := 100
  { mem := mem, Work := [], Back := [], seed := [], curSwitch := [], switchBuffer := [],
    cid := cid, uid := hi ||| lo }

namespace HealthMgr

/-- The store `atomic.StoreInt32(&v.Tick, t)`. -/
def storeTick (h : HealthMgr) (v : Ptr) (t : Int) : HealthMgr :=
  { h with mem := Function.update h.mem v { h.mem v with Tick := t } }

/-- The store `atomic.StoreInt32(&v.State, s)`. -/
def storeState (h : HealthMgr) (v : Ptr) (s : Int) : HealthMgr :=
  { h with mem := Function.update h.mem v { h.mem v with State := s } }

/-- Sum invoke in the testing, after mgr start. -/
def Sum (h : HealthMgr) : Nat :=
  h.Work.length + h.Back.length + h.seed.length

/-- The map assignment `m[k] = p`. -/
def mapStore (m : List (String × Ptr)) (k : String) (p : Ptr) : List (String × Ptr) :=
  match m with
  | [] => [(k, p)]
  | (k', p') :: rest => if k' = k then (k, p) :: rest else (k', p') :: mapStore rest k p

/-- PutWorkHealth add a *health to work. -/
def PutWorkHealth (h : HealthMgr) (he : Ptr) : HealthMgr :=
  { h with Work := mapStore h.Work (h.mem he).ID he }

/-- PutBackHealth add a *health to back. -/
def PutBackHealth (h : HealthMgr) (he : Option Ptr) : HealthMgr :=
  match he with
  | some p =>
    if (h.mem p).HType = TypeFixed then { h with seed := h.seed ++ [p] }
    else { h with Back := h.Back ++ [p] }
  | none => h

def getCurSV (h : HealthMgr) : Option SwitchValidator :=
  if h.curSwitch.length > 0 then h.curSwitch.head? else none

def setCurSV (h : HealthMgr) (sv : Option SwitchValidator) : HealthMgr :=
  match sv with
  | some s => if h.curSwitch.length = 0 then { h with curSwitch := h.curSwitch ++ [s] } else h
  | none => h

def removeCurSV (h : HealthMgr) : HealthMgr :=
  if h.curSwitch.length > 0 then { h with curSwitch := h.curSwitch.drop 1 } else h

/-- The scan of one roster part in `getHealthFromPart`. -/
def scanPk (mem : Ptr → Health) (pk : List Nat) : List Ptr → Option Ptr
  | [] => none
  | v :: vs => if pk = (mem v).Val.PubKey then some v else scanPk mem pk vs

def getHealthFromPart (h : HealthMgr) (pk : List Nat) (part : Int) : Option Ptr :=
  if part = SwitchPartBack then scanPk h.mem pk h.Back
  else if part = SwitchPartWork then scanPk h.mem pk (h.Work.map Prod.snd)
  else if part = SwitchPartSeed then scanPk h.mem pk h.seed
  else none

/-- GetHealth get a Health for mgr. -/
def GetHealth (h : HealthMgr) (pk : List Nat) : Option Ptr :=
  let enter := h.getHealthFromPart pk SwitchPartWork
  let enter := if enter = none then h.getHealthFromPart pk SwitchPartBack else enter
  let enter := if enter = none then h.getHealthFromPart pk SwitchPartSeed else enter
  enter

/-- UpdataHealthInfo update one health. -/
def UpdataHealthInfo (h : HealthMgr) (id : String) (ip : String) (port : Nat) (pk : List Nat) :
    HealthMgr :=
  match h.GetHealth pk with
  | some enter =>
    if (h.mem enter).ID ≠ "" then
      { h with
        mem := Function.update h.mem enter { h.mem enter with ID := id, IP := ip, Port := port } }
    else h
  | none => h

/-- One loop of compare-and-swap `Unused → Switching` in `pickUnuseValidator`. -/
def pickLoop (h : HealthMgr) : List Ptr → Option (Ptr × HealthMgr)
  | [] => none
  | v :: vs =>
    if (h.mem v).State = StateUnusedFlag then some (v, h.storeState v StateSwitchingFlag)
    else pickLoop h vs

/-- The function pickUnuseValidator get a back committee. -/
def pickUnuseValidator (h : HealthMgr) : Option Ptr × HealthMgr :=
  match pickLoop h h.Back with
  | some (v, h') => (some v, h')
  | none =>
    match pickLoop h h.seed with
    | some (v, h') => (some v, h')
    | none => (none, h)

/-- The entries appended by the loop over `Work` in `makeSwitchValidators`. -/
def workEntries (mem : Ptr → Health) (remove : Option Ptr) : List Ptr → List SwitchEnter
  | [] => []
  | v :: vs =>
    if !Health.Equal mem (some v) remove && (mem v).State == StateUsedFlag then
      { Pk := (mem v).Val.PubKey, Flag := toUint32 (mem v).State } :: workEntries mem remove vs
    else workEntries mem remove vs

/-- The entries appended by the loops over `Back` and `seed` in
`makeSwitchValidators`. -/
def backEntries (mem : Ptr → Health) (remove add : Option Ptr) : List Ptr → List SwitchEnter
  | [] => []
  | v :: vs =>
    if !Health.Equal mem (some v) remove && !Health.Equal mem (some v) add
        && (mem v).State == StateUsedFlag then
      { Pk := (mem v).Val.PubKey, Flag := toUint32 (mem v).State } ::
        backEntries mem remove add vs
    else backEntries mem remove add vs

/-- The function makeSwitchValidators; a nil `remove` is dereferenced (panic). -/
def makeSwitchValidators (h : HealthMgr) (remove add : Option Ptr) (resion : String)
    (frm : Int) : Option (SwitchValidator × HealthMgr) :=
  match remove with
  | none => none
  | some r =>
    let vals : List SwitchEnter :=
      match add with
      | some a => [({ Pk := (h.mem a).Val.PubKey, Flag := StateAppendFlag } : SwitchEnter)]
      | none => []
    let vals := vals ++ [({ Pk := (h.mem r).Val.PubKey, Flag := StateRemovedFlag } : SwitchEnter)]
    let vals := vals ++ workEntries h.mem remove (h.Work.map Prod.snd)
    let vals := vals ++ backEntries h.mem remove add h.Back
    let vals := vals ++ backEntries h.mem remove add h.seed
    let infos : SwitchInfos := { CID := h.cid, Vals := vals }
    let uid := h.uid
    some ({ Infos := some infos, Resion := resion, From := frm, DoorCount := 0,
            Remove := remove, Add := add, Round := -1, ID := uid },
          { h with uid := (h.uid + 1) % 2 ^ 64 })

/-- Number of records of a roster part whose state is `Used`. -/
def countUsed (mem : Ptr → Health) : List Ptr → Int
  | [] => 0
  | v :: vs => (if (mem v).State = StateUsedFlag then 1 else 0) + countUsed mem vs

def isShiftSV (h : HealthMgr) : Bool × Int :=
  let cnt := countUsed h.mem (h.Work.map Prod.snd) + countUsed h.mem h.Back
    + countUsed h.mem h.seed
  (decide (cnt > MixValidator), cnt)

/-- The function checkSwitchValidator, one record of the tick loop.  Returns the new state and
the proposals sent by `go h.Switch(..)`. -/
def checkSwitchValidator (h : HealthMgr) (v : Ptr) (sshift : Bool) :
    Option (HealthMgr × List SwitchValidator) :=
  if (h.mem v).State = StateUsedFlag ∧ (h.mem v).HType ≠ TypeFixed ∧ (h.mem v).Self = false then
    let val := wrapInt32 ((h.mem v).Tick + 1)
    let h1 := h.storeTick v val
    let r1 : Option (HealthMgr × List SwitchValidator) :=
      if sshift = true ∧ val > HealthOut ∧ (h1.mem v).State = StateUsedFlag
          ∧ (h1.mem v).Self = false then
        match h1.getCurSV with
        | none =>
          let (back, h2) := h1.pickUnuseValidator
          match h2.makeSwitchValidators (some v) back "Switch" 0 with
          | none => none
          | some (cur, h3) =>
            let h4 := h3.storeState v StateSwitchingFlag
            let h5 := h4.setCurSV (some cur)
            some (h5, [cur])
        | some _ => some (h1, [])
      else some (h1, [])
    match r1 with
    | none => none
    | some (h6, out) =>
      match h6.getCurSV with
      | some sv0 =>
        match sv0.Remove with
        | none => none
        | some r =>
          let val0 := (h6.mem r).Tick
          if val0 < HealthOut ∧ sv0.From = 0 then
            let sv1 := { sv0 with From := 1 }
            some (h6, out ++ [sv1])
          else some (h6, out)
      | none => some (h6, out)
  else some (h, [])

/-- One `for _, v := range ..` loop of `work`. -/
def workLoop (sshift : Bool) : HealthMgr → List Ptr → Option (HealthMgr × List SwitchValidator)
  | h, [] => some (h, [])
  | h, v :: vs =>
    match h.checkSwitchValidator v sshift with
    | none => none
    | some (h1, out1) =>
      match workLoop sshift h1 vs with
      | none => none
      | some (h2, out2) => some (h2, out1 ++ out2)

def work (h : HealthMgr) (sshift : Bool) : Option (HealthMgr × List SwitchValidator) :=
  if !EnableHealthMgr then some (h, [])
  else
    match workLoop sshift h (h.Work.map Prod.snd) with
    | none => none
    | some (h1, out1) =>
      match workLoop sshift h1 h1.Back with
      | none => none
      | some (h2, out2) => some (h2, out1 ++ out2)

/-- The branch `case <-h.healthTick.C` of `healthGoroutine`: one tick step. -/
def healthTick (h : HealthMgr) : Option (HealthMgr × List SwitchValidator) :=
  let (sshift, _) := h.isShiftSV
  h.work sshift

/-- The function switchResult handle the sv after consensus and the result removed from self.
A nil `res.Infos` is dereferenced when `res.From = 0` (panic). -/
def switchResult (h : HealthMgr) (res : SwitchValidator) : Option HealthMgr :=
  if !EnableHealthMgr then some h
  else
    let h1 :=
      match h.getCurSV with
      | some cur =>
        if (res.From == 1 && cur.Equal h.mem res) || cur.EqualWithoutID h.mem res
            || cur.EqualWithRemove h.mem res then h.removeCurSV
        else h
      | none => h
    if res.From = 0 then
      match res.Infos with
      | none => none
      | some infos =>
        if infos.Vals.length > 2 then
          match infos.Vals with
          | enter1 :: enter2 :: _ =>
            let add : Option Ptr :=
              if enter1.Flag = StateAppendFlag then h1.GetHealth enter1.Pk else none
            let remove : Option Ptr :=
              if enter1.Flag = StateAppendFlag then
                if enter2.Flag = StateRemovedFlag then h1.GetHealth enter2.Pk else none
              else if enter1.Flag = StateRemovedFlag then h1.GetHealth enter1.Pk
              else none
            let h2 :=
              match remove with
              | some r => (h1.storeState r StateRemovedFlag).storeTick r 0
              | none => h1
            let h3 :=
              match add with
              | some a => (h2.storeState a StateUsedFlag).storeTick a 0
              | none => h2
            some h3
          | _ => some h1
        else some h1
    else some h1

/-- The loop over `Back` in `Update`. -/
def updateBack (h : HealthMgr) (id : String) : List Ptr → HealthMgr
  | [] => h
  | v :: vs =>
    if (h.mem v).ID = id then
      if (h.mem v).HType ≠ TypeFixed then h.storeTick v 0 else h
    else updateBack h id vs

/-- Update tick. -/
def Update (h : HealthMgr) (id : String) : HealthMgr :=
  match h.Work.lookup id with
  | some v =>
    if (h.mem v).HType ≠ TypeFixed then h.storeTick v 0
    else updateBack h id h.Back
  | none => updateBack h id h.Back

end HealthMgr

/-- The errors `VerifySwitch` builds (their text is not modelled). -/
inductive VerifyError where
  | notEnable
  | notFoundRemove
  | wrongState
deriving DecidableEq, Repr

namespace HealthMgr

/-- The function verifySwitchEnter.  The result is the Go `error`: `none` is the nil error. -/
def verifySwitchEnter (h : HealthMgr) (remove add : Option Ptr) : Option VerifyError :=
  match remove with
  | none => some VerifyError.notFoundRemove
  | some r =>
    let rTick := (h.mem r).Tick
    let rState := (h.mem r).State
    let rRes : Bool :=
      decide (rState ≥ StateUsedFlag ∧ rState ≤ StateSwitchingFlag ∧ rTick ≥ HealthOut)
    let aRes : Bool :=
      match add with
      | some a =>
        let aState := (h.mem a).State
        decide (aState ≠ StateRemovedFlag ∧ aState ≠ StateUsedFlag)
      | none => true
    if rRes && aRes then none
    else some VerifyError.wrongState

/-- VerifySwitch verify remove and add switchEnter.  The result is the Go `error`: `none` is
the nil error. -/
def VerifySwitch (h : HealthMgr) (sv : SwitchValidator) : Option VerifyError :=
  if !EnableHealthMgr then some VerifyError.notEnable
  else
    match h.getCurSV with
    | some sv0 =>
      if sv0.Equal h.mem sv then none
      else h.verifySwitchEnter sv.Remove sv.Add
    | none => h.verifySwitchEnter sv.Remove sv.Add

end HealthMgr

/-- Modelled from the spec: `ctypes.CommitteeMember` is declared in core/types outside the
files at hand; a delivered membership entry is `{public_key, flag, role}`. -/
structure CommitteeMember where
  Publickey : List Nat
  Flag : Int
  MType : MemberType
deriving DecidableEq, Repr

namespace HealthMgr

/-- The inner loops of `UpdateFromCommittee`: store `flag` into the first record of the part
whose address is `addr`, then `break`. -/
def storeFirst (h : HealthMgr) (addr : List Nat) (flag : Int) : List Ptr → HealthMgr
  | [] => h
  | v :: vs =>
    if addr = (h.mem v).Val.Address then h.storeState v flag
    else storeFirst h addr flag vs

/-- The scan of the delivered members in `checkSaveSwitchValidator`, giving `(rOK, aOk)`. -/
def checkSaveScan (address : List Nat → List Nat) (mem : Ptr → Health) (remove : Ptr)
    (add : Option Ptr) : List CommitteeMember → Bool × Bool → Bool × Bool
  | [], acc => acc
  | v :: vs, (rOK, aOk) =>
    let pk := address v.Publickey
    let rOK := if pk = (mem remove).Val.Address ∧ v.Flag = StateUsedFlag then true else rOK
    let aOk :=
      match add with
      | none => true
      | some a => if pk = (mem a).Val.Address ∧ v.Flag = StateUnusedFlag then true else aOk
    checkSaveScan address mem remove add vs (rOK, aOk)

/-- The loop `for i := len(h.curSwitch) - 1; i >= 0; i--` of `checkSaveSwitchValidator`;
the first argument is `i + 1`. -/
def checkSaveLoop (address : List Nat → List Nat) (mem : Ptr → Health)
    (members : List CommitteeMember) : Nat → List SwitchValidator → List SwitchValidator
  | 0, cur => cur
  | i + 1, cur =>
    match cur.get? i with
    | none => checkSaveLoop address mem members i cur
    | some sv =>
      match sv.Remove with
      | none => checkSaveLoop address mem members i cur
      | some remove =>
        let (rOK, aOk) := checkSaveScan address mem remove sv.Add members (false, false)
        if !(rOK && aOk) then checkSaveLoop address mem members i (cur.eraseIdx i)
        else checkSaveLoop address mem members i cur

def checkSaveSwitchValidator (address : List Nat → List Nat) (h : HealthMgr)
    (members : List CommitteeMember) : HealthMgr :=
  { h with curSwitch := checkSaveLoop address h.mem members h.curSwitch.length h.curSwitch }

/-- UpdateFromCommittee agent put member and back, update flag.  `address` is the
derivation `crypto.PubKeyTrue(pk).Address()` of the crypto package. -/
def UpdateFromCommittee (address : List Nat → List Nat) (h : HealthMgr)
    (member backMember : List CommitteeMember) : HealthMgr :=
  let h1 := member.foldl
    (fun g v => storeFirst g (address v.Publickey) v.Flag (g.Work.map Prod.snd)) h
  let h2 := backMember.foldl
    (fun g v =>
      if v.MType = TypeBack then storeFirst g (address v.Publickey) v.Flag g.Back
      else if v.MType = TypeFixed then storeFirst g (address v.Publickey) v.Flag g.seed
      else g) h1
  checkSaveSwitchValidator address h2 (member ++ backMember)

end HealthMgr

/-- The calls a client of the manager can make, and the tick of the manager's own loop. -/
inductive Op where
  | tick
  | result (res : SwitchValidator)
  | updateFromCommittee (member backMember : List CommitteeMember)
  | update (id : String)
  | verifySwitch (sv : SwitchValidator)
  | putWorkHealth (he : Ptr)
  | putBackHealth (he : Option Ptr)
  | updataHealthInfo (id : String) (ip : String) (port : Nat) (pk : List Nat)

/-- Effect of one call on the manager, with the proposals sent on the outbound channel. -/
def step (address : List Nat → List Nat) (h : HealthMgr) :
    Op → Option (HealthMgr × List SwitchValidator)
  | Op.tick => h.healthTick
  | Op.result res => (h.switchResult res).map (fun g => (g, []))
  | Op.updateFromCommittee member backMember =>
    some (h.UpdateFromCommittee address member backMember, [])
  | Op.update id => some (h.Update id, [])
  | Op.verifySwitch _ => some (h, [])
  | Op.putWorkHealth he => some (h.PutWorkHealth he, [])
  | Op.putBackHealth he => some (h.PutBackHealth he, [])
  | Op.updataHealthInfo id ip port pk => some (h.UpdataHealthInfo id ip port pk, [])

/-- A sequence of calls, with all proposals sent, in order. -/
def run (address : List Nat → List Nat) :
    HealthMgr → List Op → Option (HealthMgr × List SwitchValidator)
  | h, [] => some (h, [])
  | h, op :: ops =>
    match step address h op with
    | none => none
    | some (h1, out1) =>
      match run address h1 ops with
      | none => none
      | some (h2, out2) => some (h2, out1 ++ out2)

/-- States reached from a freshly created manager. -/
def Reachable (h : HealthMgr) : Prop :=
  ∃ address mem cid ops out, run address (NewHealthMgr mem cid) ops = some (h, out)

/-! ## Concrete rosters used as examples -/

/-- Memory of Scenario 1: A, B, C, D (addresses 0..3) are working and `Used`, E (address 4) is a
backup and `Unused`; `tA` is the tick of A, the other ticks are 0. -/
def scenario1Mem (tA : Int) : Ptr → Health
  | 0 => { NewHealth "A" TypeWorked StateUsedFlag ⟨[10], [20]⟩ false with Tick := tA }
  | 1 => NewHealth "B" TypeWorked StateUsedFlag ⟨[11], [21]⟩ false
  | 2 => NewHealth "C" TypeWorked StateUsedFlag ⟨[12], [22]⟩ false
  | 3 => NewHealth "D" TypeWorked StateUsedFlag ⟨[13], [23]⟩ false
  | 4 => NewHealth "E" TypeBack StateUnusedFlag ⟨[14], [24]⟩ false
  | _ => NewHealth "" TypeWorked StateUnusedFlag ⟨[], []⟩ false

/-- Manager of Scenario 1 (committee id 7), built through the bootstrap calls. -/
def scenario1 (tA : Int) : HealthMgr :=
  (((((NewHealthMgr (scenario1Mem tA) 7).PutWorkHealth 0).PutWorkHealth 1).PutWorkHealth
    2).PutWorkHealth 3).PutBackHealth (some 4)

/-- A proposal naming A as `remove` and E as `add`. -/
def proposalAE : SwitchValidator :=
  { Remove := some 0, Add := some 4, Infos := none, Resion := "Switch", From := 0,
    DoorCount := 0, Round := -1, ID := 1 }

/-- The result the consensus layer returns for Scenario 1: E appended, A removed. -/
def scenario1Result : SwitchValidator :=
  { Remove := some 0, Add := some 4,
    Infos := some { CID := 7, Vals := [⟨[14], 3⟩, ⟨[10], 4⟩, ⟨[11], 1⟩, ⟨[12], 1⟩, ⟨[13], 1⟩] },
    Resion := "Switch", From := 0, DoorCount := 0, Round := -1, ID := 30064771172 }

/-! ## Auxiliary functions used in the statements and proofs -/

namespace HealthMgr

/-- The state left by `switchResult` once the pending proposal has been handled. -/
def afterPending (h : HealthMgr) (res : SwitchValidator) : HealthMgr :=
  match h.getCurSV with
  | some cur =>
    if (res.From == 1 && cur.Equal h.mem res) || cur.EqualWithoutID h.mem res
        || cur.EqualWithRemove h.mem res then h.removeCurSV
    else h
  | none => h

/-- The stores of `switchResult` for the resolved `remove` and `add`. -/
def applyResult (h1 : HealthMgr) (remove add : Option Ptr) : HealthMgr :=
  let h2 :=
    match remove with
    | some r => (h1.storeState r StateRemovedFlag).storeTick r 0
    | none => h1
  match add with
  | some a => (h2.storeState a StateUsedFlag).storeTick a 0
  | none => h2

/-- The leading entries of a proposal: `add` (flag Append) when present, then `remove` (flag
Removed). -/
def leadMembers (h : HealthMgr) (remove : Ptr) (add : Option Ptr) : List SwitchEnter :=
  match add with
  | some a => [⟨(h.mem a).Val.PubKey, StateAppendFlag⟩, ⟨(h.mem remove).Val.PubKey, StateRemovedFlag⟩]
  | none => [⟨(h.mem remove).Val.PubKey, StateRemovedFlag⟩]

/-- The members list as the construction rule words it: the leading entries, then the records of
working, backup and seed, in that order, whose state is `Used` and that are neither `remove` nor
`add` (records compared with `Health.Equal`), each with flag `Used`. -/
def statedMembers (h : HealthMgr) (remove : Ptr) (add : Option Ptr) : List SwitchEnter :=
  leadMembers h remove add ++
    ((h.Work.map Prod.snd ++ h.Back ++ h.seed).filter
      (fun v => decide ((h.mem v).State = StateUsedFlag)
        && !Health.Equal h.mem (some v) (some remove) && !Health.Equal h.mem (some v) add)).map
      (fun v => ⟨(h.mem v).Val.PubKey, StateUsedFlag⟩)

/-- The members list with the exclusions the three loops make: a working record is left out
when it equals `remove`; a backup or seed record when it equals `remove` or `add`. -/
def listedMembers (h : HealthMgr) (remove : Ptr) (add : Option Ptr) : List SwitchEnter :=
  leadMembers h remove add ++
    ((h.Work.map Prod.snd).filter
      (fun v => decide ((h.mem v).State = StateUsedFlag)
        && !Health.Equal h.mem (some v) (some remove))).map
      (fun v => ⟨(h.mem v).Val.PubKey, StateUsedFlag⟩) ++
    ((h.Back ++ h.seed).filter
      (fun v => decide ((h.mem v).State = StateUsedFlag)
        && !Health.Equal h.mem (some v) (some remove) && !Health.Equal h.mem (some v) add)).map
      (fun v => ⟨(h.mem v).Val.PubKey, StateUsedFlag⟩)

/-- The condition under which `checkSwitchValidator` counts a silent tick for `v`. -/
def ticking (h : HealthMgr) (v : Ptr) : Prop :=
  (h.mem v).State = StateUsedFlag ∧ (h.mem v).HType ≠ TypeFixed ∧ (h.mem v).Self = false

instance (h : HealthMgr) (v : Ptr) : Decidable (h.ticking v) := by
  unfold ticking; infer_instance

/-- The state after `atomic.AddInt32(&v.Tick, 1)`. -/
def bumped (h : HealthMgr) (v : Ptr) : HealthMgr :=
  h.storeTick v (wrapInt32 ((h.mem v).Tick + 1))

/-- The restore path of `checkSwitchValidator`: what it sends in state `h`. -/
def restoreOut (h : HealthMgr) : Option (List SwitchValidator) :=
  match h.getCurSV with
  | some sv0 =>
    match sv0.Remove with
    | none => none
    | some r =>
      if (h.mem r).Tick < HealthOut ∧ sv0.From = 0 then some [{ sv0 with From := 1 }]
      else some []
  | none => some []

/-- The proposal the switch path of `checkSwitchValidator` builds for `v`. -/
def switchProposal (h : HealthMgr) (v : Ptr) : SwitchValidator :=
  { Infos := some { CID := h.cid,
                    Vals := listedMembers (h.bumped v).pickUnuseValidator.2 v
                      (h.bumped v).pickUnuseValidator.1 },
    Resion := "Switch", From := 0, DoorCount := 0, Remove := some v,
    Add := (h.bumped v).pickUnuseValidator.1, Round := -1, ID := h.uid }

/-- The state the switch path of `checkSwitchValidator` leaves for `v`. -/
def switchState (h : HealthMgr) (v : Ptr) : HealthMgr :=
  { ((h.bumped v).pickUnuseValidator.2.storeState v StateSwitchingFlag) with
    uid := (h.uid + 1) % 2 ^ 64, curSwitch := [h.switchProposal v] }

end HealthMgr
/-- The roster and the identity of every record are the same in `h` and `g`. -/
structure SameRoster (h g : HealthMgr) : Prop where
  work : g.Work = h.Work
  back : g.Back = h.Back
  seed : g.seed = h.seed
  cid : g.cid = h.cid
  htype : ∀ q, (g.mem q).HType = (h.mem q).HType
  self : ∀ q, (g.mem q).Self = (h.mem q).Self
  id : ∀ q, (g.mem q).ID = (h.mem q).ID
  val : ∀ q, (g.mem q).Val = (h.mem q).Val

/-- Only ticks differ between `h` and `g`. -/
structure SameButTicks (h g : HealthMgr) : Prop where
  roster : SameRoster h g
  curSwitch : g.curSwitch = h.curSwitch
  uid : g.uid = h.uid
  state : ∀ q, (g.mem q).State = (h.mem q).State

/-- Every pending proposal names a `remove` record that is neither the local node nor fixed. -/
def PendingOK (h : HealthMgr) : Prop :=
  ∀ p ∈ h.curSwitch, ∃ r, p.Remove = some r ∧ (h.mem r).Self = false ∧ (h.mem r).HType ≠ TypeFixed

/-- The direction-0 proposals among those sent. -/
def built (out : List SwitchValidator) : List SwitchValidator :=
  out.filter (fun p => decide (p.From = 0))

/-- The identifier counter after `n` proposals were built from counter value `u`. -/
def uidAfter : Nat → Nat → Nat
  | 0, u => u
  | n + 1, u => uidAfter n ((u + 1) % 2 ^ 64)

/-- Bookkeeping of the identifier counter between `h` and `g` when `out` was sent: the
direction-0 proposals carry the successive counter values. -/
def UidRel (h g : HealthMgr) (out : List SwitchValidator) : Prop :=
  (built out).map (fun p => p.ID) = (List.range (built out).length).map (fun k => uidAfter k h.uid)
    ∧ g.uid = uidAfter (built out).length h.uid
/-- What every pass of the tick loop from `h` to `g` sending `out` guarantees: the roster is
kept, fixed records keep their tick, a direction-0 proposal names a counted record as `remove`,
and the pending list stays well formed and of length at most one. -/
structure TickRel (h g : HealthMgr) (out : List SwitchValidator) : Prop where
  roster : SameRoster h g
  fixedTick : ∀ q, (h.mem q).HType = TypeFixed → (g.mem q).Tick = (h.mem q).Tick
  request : ∀ p ∈ out, p.From = 0 →
    ∃ r, p.Remove = some r ∧ (h.mem r).HType ≠ TypeFixed ∧ (h.mem r).Self = false
  pending : PendingOK h → PendingOK g ∧
    ∀ p ∈ out, ∃ r, p.Remove = some r ∧ (h.mem r).Self = false ∧ (h.mem r).HType ≠ TypeFixed
  atMostOne : h.curSwitch.length ≤ 1 → g.curSwitch.length ≤ 1

/-- What every call other than a tick step guarantees from `h` to `g`: no record changes its
role or its self flag, a tick is kept or zeroed, no proposal is added to the pending list and the
identifier counter is kept. -/
structure CallRel (h g : HealthMgr) : Prop where
  htype : ∀ q, (g.mem q).HType = (h.mem q).HType
  self : ∀ q, (g.mem q).Self = (h.mem q).Self
  tick : ∀ q, (g.mem q).Tick = (h.mem q).Tick ∨ (g.mem q).Tick = 0
  pending : g.curSwitch.Sublist h.curSwitch
  uid : g.uid = h.uid
  cid : g.cid = h.cid

/-- The invariant of the pending list. -/
def PendingInv (h : HealthMgr) : Prop :=
  PendingOK h ∧ h.curSwitch.length ≤ 1

namespace HealthMgr

/-- The state after one tick step (the state itself if the step panics). -/
def tickState (h : HealthMgr) : HealthMgr :=
  match h.healthTick with
  | some (g, _) => g
  | none => h

/-- The proposals one tick step sends. -/
def tickSent (h : HealthMgr) : List SwitchValidator :=
  match h.healthTick with
  | some (_, out) => out
  | none => []

end HealthMgr

/-- The calls that build Scenario 1 with A at tick 180, followed by one tick step. -/
def scenario1Ops : List Op :=
  [Op.putWorkHealth 0, Op.putWorkHealth 1, Op.putWorkHealth 2, Op.putWorkHealth 3,
    Op.putBackHealth (some 4), Op.tick]

/-- Scenario 1 after the tick step that proposes the switch of A for E. -/
def scenario1Switched : HealthMgr :=
  (scenario1 180).tickState

/-- Memory of Scenario 3: A and B working and `Used`, both at tick 1000; E a backup, `Unused`. -/
def scenario3Mem : Ptr → Health
  | 0 => { NewHealth "A" TypeWorked StateUsedFlag ⟨[10], [20]⟩ false with Tick := 1000 }
  | 1 => { NewHealth "B" TypeWorked StateUsedFlag ⟨[11], [21]⟩ false with Tick := 1000 }
  | 4 => NewHealth "E" TypeBack StateUnusedFlag ⟨[14], [24]⟩ false
  | _ => NewHealth "" TypeWorked StateUnusedFlag ⟨[], []⟩ false

/-- Manager of Scenario 3 (minimum committee). -/
def scenario3 : HealthMgr :=
  (((NewHealthMgr scenario3Mem 7).PutWorkHealth 0).PutWorkHealth 1).PutBackHealth (some 4)

/-- The calls the claims about fixed records range over: tick steps and `Update`. -/
def Op.isTickOrUpdate : Op → Bool
  | Op.tick => true
  | Op.update _ => true
  | _ => false

/-- What every sequence of calls from `h` to `g` sending `out` guarantees. -/
structure RunRel (h g : HealthMgr) (out : List SwitchValidator) : Prop where
  htype : ∀ q, (g.mem q).HType = (h.mem q).HType
  self : ∀ q, (g.mem q).Self = (h.mem q).Self
  fixedTick : ∀ q, (h.mem q).HType = TypeFixed →
    (g.mem q).Tick = (h.mem q).Tick ∨ (g.mem q).Tick = 0
  request : ∀ p ∈ out, p.From = 0 →
    ∃ r, p.Remove = some r ∧ (h.mem r).HType ≠ TypeFixed ∧ (h.mem r).Self = false
  pending : PendingInv h → PendingInv g ∧
    ∀ p ∈ out, ∃ r, p.Remove = some r ∧ (h.mem r).Self = false ∧ (h.mem r).HType ≠ TypeFixed
/-- The state after a sequence of calls (the start state if a call panics). -/
def runState (address : List Nat → List Nat) (h : HealthMgr) (ops : List Op) : HealthMgr :=
  match run address h ops with
  | some (g, _) => g
  | none => h

/-- The proposals sent over a sequence of calls. -/
def runSent (address : List Nat → List Nat) (h : HealthMgr) (ops : List Op) :
    List SwitchValidator :=
  match run address h ops with
  | some (_, out) => out
  | none => []

/-- Memory of Scenario 4: A, B working and `Used`; F working, `Used` and fixed; E a backup. -/
def scenario4Mem : Ptr → Health
  | 0 => { NewHealth "A" TypeWorked StateUsedFlag ⟨[10], [20]⟩ false with Tick := 200 }
  | 1 => NewHealth "B" TypeWorked StateUsedFlag ⟨[11], [21]⟩ false
  | 2 => NewHealth "F" TypeFixed StateUsedFlag ⟨[12], [22]⟩ false
  | 4 => NewHealth "E" TypeBack StateUnusedFlag ⟨[14], [24]⟩ false
  | _ => NewHealth "" TypeWorked StateUnusedFlag ⟨[], []⟩ false

/-- Manager of Scenario 4 (a fixed record in the working set). -/
def scenario4 : HealthMgr :=
  ((((NewHealthMgr scenario4Mem 7).PutWorkHealth 0).PutWorkHealth 1).PutWorkHealth
    2).PutBackHealth (some 4)

/-- A short sequence of tick steps and `Update` calls. -/
def scenario4Ops : List Op :=
  [Op.tick, Op.update "F", Op.tick, Op.update "B", Op.tick]

/-- The roster of Scenario 1 seen from the silent record `a` (stored under key `ka`) with tick
`t`: at least three working records, pairwise distinct, all `Used`, neither fixed nor the local
node; one backup `e`, `Unused`; no seed; nothing pending. -/
structure Scenario1Shape (h : HealthMgr) (a e : Ptr) (ka : String) (t : Int) : Prop where
  nodup : (h.Work.map Prod.snd).Nodup
  size : 3 ≤ h.Work.length
  amem : a ∈ h.Work.map Prod.snd
  akey : ∀ id, h.Work.lookup id = some a → id = ka
  working : ∀ v ∈ h.Work.map Prod.snd, h.ticking v
  back : h.Back = [e]
  seed : h.seed = []
  enotin : e ∉ h.Work.map Prod.snd
  eunused : (h.mem e).State = StateUnusedFlag
  nopending : h.curSwitch = []
  atick : (h.mem a).Tick = t

/-- The working records other than `a` are below the threshold (their ticks are `int32`
values). -/
def OthersBelow (h : HealthMgr) (a : Ptr) : Prop :=
  ∀ v ∈ h.Work.map Prod.snd, v ≠ a → -2 ^ 31 ≤ (h.mem v).Tick ∧ (h.mem v).Tick < HealthOut

/-- Number of tick steps in a sequence of calls. -/
def tickCount : List Op → Nat
  | [] => 0
  | Op.tick :: ops => tickCount ops + 1
  | _ :: ops => tickCount ops

/-- A tick step, or an `Update` of a peer id other than `ka`. -/
def Op.isTickOrUpdateOther (ka : String) : Op → Bool
  | Op.tick => true
  | Op.update id => decide (id ≠ ka)
  | _ => false

/-- The condition under which the restore path sends nothing however the counted records tick:
nothing is pending, or the pending proposal's `remove` is at or above the threshold and not
`Used`. -/
def RestoreIdle (h : HealthMgr) : Prop :=
  h.curSwitch = [] ∨
    ∃ sv0 r, h.curSwitch.head? = some sv0 ∧ sv0.Remove = some r ∧ HealthOut ≤ (h.mem r).Tick ∧
      (h.mem r).State ≠ StateUsedFlag

instance (h : HealthMgr) (a : Ptr) : Decidable (OthersBelow h a) := by
  unfold OthersBelow; infer_instance

/-- Calls before the tick step at which A, starting at tick 178, crosses the threshold. -/
def scenario1Pre : List Op :=
  [Op.tick, Op.update "B", Op.tick]

namespace HealthMgr

/-- The record whose tick `Update(id)` resets, as the update rule words it: the working record
stored under `id` when it is not fixed; otherwise the first backup record whose peer id is `id`,
when it is not fixed. -/
def updateTarget (h : HealthMgr) (id : String) : Option Ptr :=
  match (h.Work.lookup id).filter (fun v => decide ((h.mem v).HType ≠ TypeFixed)) with
  | some v => some v
  | none =>
    (h.Back.find? (fun v => decide ((h.mem v).ID = id))).filter
      (fun v => decide ((h.mem v).HType ≠ TypeFixed))

end HealthMgr

/-- The proposal the tick loop builds in Scenario 1: remove A, add E. -/
def scenario1Proposal : SwitchValidator :=
  { Remove := some 0, Add := some 4,
    Infos := some { CID := 7, Vals := [⟨[14], 3⟩, ⟨[10], 4⟩, ⟨[11], 1⟩, ⟨[12], 1⟩, ⟨[13], 1⟩] },
    Resion := "Switch", From := 0, DoorCount := 0, Round := -1, ID := 30064771172 }

/-- Scenario 2: Scenario 1, then A revives (`Update`) and the next tick step runs. -/
def scenario2Ops : List Op :=
  scenario1Ops ++ [Op.update "A", Op.tick]

/-- The restore copy of the Scenario 1 proposal. -/
def scenario2Restore : SwitchValidator :=
  { scenario1Proposal with From := 1 }

/-- Scenario 2 just after A revived: the switch of A for E is pending and A's tick is 0. -/
def scenario2Revived : HealthMgr :=
  runState id (NewHealthMgr (scenario1Mem 180) 7) (scenario1Ops ++ [Op.update "A"])
/-- Memory of a committee whose only other members are the local node and a fixed seed: A
(address 0) is silent at tick 180, S (address 1) is the local node, F (address 2) is fixed, all
working and `Used`; E (address 4) is an `Unused` backup. -/
def scenario5Mem : Ptr → Health
  | 0 => { NewHealth "A" TypeWorked StateUsedFlag ⟨[10], [20]⟩ false with Tick := 180 }
  | 1 => NewHealth "S" TypeWorked StateUsedFlag ⟨[11], [21]⟩ true
  | 2 => NewHealth "F" TypeFixed StateUsedFlag ⟨[12], [22]⟩ false
  | 4 => NewHealth "E" TypeBack StateUnusedFlag ⟨[14], [24]⟩ false
  | _ => NewHealth "" TypeWorked StateUnusedFlag ⟨[], []⟩ false

/-- The calls that build that committee, let A cross the threshold (the switch of A for E is
proposed) and then revive A. -/
def scenario5Ops : List Op :=
  [Op.putWorkHealth 0, Op.putWorkHealth 1, Op.putWorkHealth 2, Op.putBackHealth (some 4),
    Op.tick, Op.update "A"]

/-- The state reached: the switch of A is pending with direction 0 and A's tick is 0. -/
def scenario5 : HealthMgr :=
  runState id (NewHealthMgr scenario5Mem 7) scenario5Ops

/-- The committee of `scenario5` when the pending `remove` A is itself counted again (state
`Used`) and one tick below the threshold. -/
def scenario5Counted : HealthMgr :=
  (scenario5.storeState 0 StateUsedFlag).storeTick 0 179
/-- Memory with one record A (address 0), `Used`, at tick 50. -/
def aliasMem : Ptr → Health
  | 0 => { NewHealth "A" TypeWorked StateUsedFlag ⟨[10], [20]⟩ false with Tick := 50 }
  | _ => NewHealth "" TypeWorked StateUnusedFlag ⟨[], []⟩ false

/-- A roster in which the record A was put both into working and into backup. -/
def aliasRoster : HealthMgr :=
  ((NewHealthMgr aliasMem 7).PutWorkHealth 0).PutBackHealth (some 0)

namespace HealthMgr

/-- The decision of `checkSaveSwitchValidator` for one pending proposal: it is kept when its
`remove` is nil (`continue`) or when both `rOK` and `aOk` hold. -/
def keepPending (address : List Nat → List Nat) (mem : Ptr → Health)
    (members : List CommitteeMember) (sv : SwitchValidator) : Bool :=
  match sv.Remove with
  | none => true
  | some remove =>
    (checkSaveScan address mem remove sv.Add members (false, false)).1
      && (checkSaveScan address mem remove sv.Add members (false, false)).2

end HealthMgr

/-- The address derivation used in the examples: every key byte plus 10. -/
def scenarioAddress (pk : List Nat) : List Nat :=
  pk.map (fun b => b + 10)

/-- Scenario 6: the committee delivered after the switch of A for E was proposed, declaring A
`Removed` and the others `Used`. -/
def scenario6Members : List CommitteeMember :=
  [⟨[10], StateRemovedFlag, TypeWorked⟩, ⟨[11], StateUsedFlag, TypeWorked⟩,
    ⟨[12], StateUsedFlag, TypeWorked⟩, ⟨[13], StateUsedFlag, TypeWorked⟩]

/-- Scenario 6: the delivered backup members, declaring E `Used`. -/
def scenario6BackMembers : List CommitteeMember :=
  [⟨[14], StateUsedFlag, TypeBack⟩]

/-- Only record states differ between `h` and `g`. -/
structure SameButStates (h g : HealthMgr) : Prop where
  roster : SameRoster h g
  curSwitch : g.curSwitch = h.curSwitch
  uid : g.uid = h.uid
  tick : ∀ q, (g.mem q).Tick = (h.mem q).Tick

namespace HealthMgr

/-- The first record of a roster part whose address is `addr`. -/
def matchIn (h : HealthMgr) (addr : List Nat) (l : List Ptr) : Option Ptr :=
  l.find? (fun v => decide (addr = (h.mem v).Val.Address))

/-- The record a delivered member of `member` stores its flag into, with that flag. -/
def memberTarget (address : List Nat → List Nat) (h : HealthMgr) (v : CommitteeMember) :
    Option (Ptr × Int) :=
  (matchIn h (address v.Publickey) (h.Work.map Prod.snd)).map (fun q => (q, v.Flag))

/-- The record a delivered member of `backMember` stores its flag into, with that flag. -/
def backTarget (address : List Nat → List Nat) (h : HealthMgr) (v : CommitteeMember) :
    Option (Ptr × Int) :=
  if v.MType = TypeBack then
    (matchIn h (address v.Publickey) h.Back).map (fun q => (q, v.Flag))
  else if v.MType = TypeFixed then
    (matchIn h (address v.Publickey) h.seed).map (fun q => (q, v.Flag))
  else none

/-- The state after the two store loops of `UpdateFromCommittee`, before the pending list is
reconciled. -/
def committeeStores (address : List Nat → List Nat) (h : HealthMgr)
    (member backMember : List CommitteeMember) : HealthMgr :=
  backMember.foldl
    (fun g v =>
      if v.MType = TypeBack then storeFirst g (address v.Publickey) v.Flag g.Back
      else if v.MType = TypeFixed then storeFirst g (address v.Publickey) v.Flag g.seed
      else g)
    (member.foldl
      (fun g v => storeFirst g (address v.Publickey) v.Flag (g.Work.map Prod.snd)) h)

end HealthMgr

/-- Scenario 1 after the result of the switch came back from the consensus layer. -/
def scenario1Applied : HealthMgr :=
  match scenario1Switched.switchResult scenario1Result with
  | some g => g
  | none => scenario1Switched

namespace HealthMgr

/-- The records of working, backup and seed, in the order `GetHealth` scans them. -/
def roster (h : HealthMgr) : List Ptr :=
  h.Work.map Prod.snd ++ h.Back ++ h.seed

/-- A delivered committee echoes the current states: every entry carries the state of every
roster record that has its address. -/
def echoes (address : List Nat → List Nat) (h : HealthMgr) (members : List CommitteeMember) :
    Prop :=
  ∀ v ∈ members, ∀ q ∈ h.roster, address v.Publickey = (h.mem q).Val.Address →
    v.Flag = (h.mem q).State

instance (address : List Nat → List Nat) (h : HealthMgr) (members : List CommitteeMember) :
    Decidable (h.echoes address members) := by
  unfold echoes; infer_instance

end HealthMgr

/-- Scenario 6 delivered after the result was applied: the backup member E with flag `Used`. -/
def scenario1Echo : HealthMgr :=
  scenario1Applied.UpdateFromCommittee scenarioAddress scenario6Members scenario6BackMembers

/-- Memory with one record (address 0) whose peer id is empty. -/
def blankMem : Ptr → Health
  | 0 => NewHealth "" TypeWorked StateUsedFlag ⟨[10], [20]⟩ false
  | _ => NewHealth "" TypeWorked StateUnusedFlag ⟨[], []⟩ false

/-- A roster whose only working record has an empty peer id. -/
def blankRoster : HealthMgr :=
  (NewHealthMgr blankMem 7).PutWorkHealth 0

/-! ## Epochs (core/types/impawnUtil.go) -/

/-- Modelled from the spec: the variables `DposForkPoint`, `NewEpochLength`, `FirstNewEpochID` and
`MaxRedeemHeight` of package params are declared outside the files at hand; they are `uint64`
values, here the fields of a parameter record. -/
structure EpochParams where
  DposForkPoint : Nat
  NewEpochLength : Nat
  FirstNewEpochID : Nat
  MaxRedeemHeight : Nat
deriving DecidableEq, Repr

/-- Addition of `uint64` values. -/
def add64 (a b : Nat) : Nat :=
  (a + b) % 2 ^ 64

/-- Subtraction of `uint64` values. -/
def sub64 (a b : Nat) : Nat :=
  (a + 2 ^ 64 - b % 2 ^ 64) % 2 ^ 64

/-- Multiplication of `uint64` values. -/
def mul64 (a b : Nat) : Nat :=
  (a * b) % 2 ^ 64

structure EpochIDInfo where
  EpochID : Nat
  BeginHeight : Nat
  EndHeight : Nat
deriving DecidableEq, Repr

def GetFirstEpoch (p : EpochParams) : EpochIDInfo :=
  { EpochID := p.FirstNewEpochID,
    BeginHeight := add64 p.DposForkPoint 1,
    EndHeight := add64 p.DposForkPoint p.NewEpochLength }

def GetPreFirstEpoch (p : EpochParams) : EpochIDInfo :=
  { EpochID := sub64 p.FirstNewEpochID 1,
    BeginHeight := 0,
    EndHeight := p.DposForkPoint }

def GetEpochFromID (p : EpochParams) (eid : Nat) : EpochIDInfo :=
  let preFirst := GetPreFirstEpoch p
  if preFirst.EpochID = eid then preFirst
  else
    let first := GetFirstEpoch p
    if first.EpochID ≥ eid then first
    else
      { EpochID := eid,
        BeginHeight :=
          add64 (add64 first.EndHeight
            (mul64 (sub64 (sub64 eid first.EpochID) 1) p.NewEpochLength)) 1,
        EndHeight :=
          add64 first.EndHeight (mul64 (sub64 eid first.EpochID) p.NewEpochLength) }

def MinCalcRedeemHeight (p : EpochParams) (eid : Nat) : Nat :=
  let e := GetEpochFromID p (add64 eid 1)
  add64 (add64 e.BeginHeight p.MaxRedeemHeight) 1

/-- Modelled from the spec: the parameter values of the test run whose output stake_test.go
records (`DposForkPoint` 0, `NewEpochLength` 2000, `FirstNewEpochID` 1); `MaxRedeemHeight` is a
parameter `m`. -/
def testParams (m : Nat) : EpochParams :=
  { DposForkPoint := 0, NewEpochLength := 2000, FirstNewEpochID := 1, MaxRedeemHeight := m }

/-- Bookkeeping of the identifiers in use between `h` and `g` when `out` was sent: every
proposal sent and every proposal left pending carries the ID of a direction-0 proposal built on
the way or of a proposal that was pending in `h`. -/
def IdRel (h g : HealthMgr) (out : List SwitchValidator) : Prop :=
  (∀ p ∈ out, (∃ q ∈ built out, q.ID = p.ID) ∨ ∃ q ∈ h.curSwitch, q.ID = p.ID)
  ∧ ∀ p ∈ g.curSwitch, (∃ q ∈ built out, q.ID = p.ID) ∨ ∃ q ∈ h.curSwitch, q.ID = p.ID

/-- The proposals sent by Scenario 1 run on a manager created with committee id `cid`. -/
def scenario1Sent (cid : Nat) : List SwitchValidator :=
  runSent id (NewHealthMgr (scenario1Mem 180) cid) scenario1Ops

/-- Only ticks differ between `h` and `g`, and only ticks of records whose state is `Used`. -/
structure Quiet (h g : HealthMgr) : Prop where
  same : SameButTicks h g
  idle : ∀ q, (h.mem q).State ≠ StateUsedFlag → (g.mem q).Tick = (h.mem q).Tick

/-- The shape of a pass of the tick loop from `h` to `g` sending `out`: with a proposal pending
it changes ticks only; with nothing pending it either changes ticks only, or changes ticks up to
a state `h0`, takes the switch path for one record `v` there, and changes ticks only from then
on. -/
def PassShape (s : Bool) (h g : HealthMgr) (out : List SwitchValidator) : Prop :=
  (h.curSwitch ≠ [] → built out = [] ∧ Quiet h g)
  ∧ (h.curSwitch = [] →
      (built out = [] ∧ Quiet h g) ∨
      (s = true ∧ ∃ h0 v, Quiet h h0 ∧ h0.curSwitch = [] ∧ h0.ticking v
        ∧ wrapInt32 ((h0.mem v).Tick + 1) > HealthOut ∧ built out = [h0.switchProposal v]
        ∧ Quiet (h0.switchState v) g))

namespace HealthMgr

/-- The records of `p` are as the switch path leaves them in state `g`: `remove` is Switching
with a tick above the threshold, `add` is nil or Switching. -/
def holdsSwitch (g : HealthMgr) (p : SwitchValidator) : Prop :=
  ∃ r, p.Remove = some r ∧ (g.mem r).State = StateSwitchingFlag ∧ (g.mem r).Tick > HealthOut
    ∧ (p.Add = none ∨ ∃ a, p.Add = some a ∧ (g.mem a).State = StateSwitchingFlag)

end HealthMgr

namespace HealthMgr

/-- The identity `Health.Equal` compares: peer id and public key. -/
def identity (h : HealthMgr) (q : Ptr) : String × List Nat :=
  ((h.mem q).ID, (h.mem q).Val.PubKey)

/-- The number of `Used` records of working, backup and seed, as `isShiftSV` counts them. -/
def usedCount (h : HealthMgr) : Nat :=
  (h.roster.filter (fun v => decide ((h.mem v).State = StateUsedFlag))).length

end HealthMgr

/-- A sequence of calls in which every call passes the check `ok` in the state it is made
in. -/
def guardedRun (ok : HealthMgr → Op → Bool) (address : List Nat → List Nat) :
    HealthMgr → List Op → Bool
  | _, [] => true
  | h, op :: ops =>
    ok h op &&
      match step address h op with
      | some (h1, _) => guardedRun ok address h1 ops
      | none => true

namespace HealthMgr

/-- The public keys of the roster records, in roster order. -/
def rosterKeys (h : HealthMgr) : List (List Nat) :=
  h.roster.map (fun q => (h.mem q).Val.PubKey)

/-- The check on a bootstrap call: the record put has a public key that no roster record
has. -/
def freshPut (h : HealthMgr) : Op → Bool
  | Op.putWorkHealth he => decide ((h.mem he).Val.PubKey ∉ h.rosterKeys)
  | Op.putBackHealth (some he) => decide ((h.mem he).Val.PubKey ∉ h.rosterKeys)
  | _ => true

/-- The check on a call of `UpdataHealthInfo`: it does not give a working record a peer id
other than the one it has (the record found has an empty peer id and is left alone, or is given
its own peer id, or is not a working record). -/
def keepsId (h : HealthMgr) : Op → Bool
  | Op.updataHealthInfo id _ _ pk =>
    match h.GetHealth pk with
    | some e => decide ((h.mem e).ID = "" ∨ id = (h.mem e).ID ∨ e ∉ h.Work.map Prod.snd)
    | none => true
  | _ => true

/-- Every entry of the working map is stored under its record's current peer id (and the keys
of the map are distinct). -/
def WorkKeyed (h : HealthMgr) : Prop :=
  (∀ e ∈ h.Work, e.1 = (h.mem e.2).ID) ∧ (h.Work.map Prod.fst).Nodup

end HealthMgr

/-- The calls that build Scenario 1 and then hand the peer id "Z" to the record with A's public
key. -/
def scenario1RenameOps : List Op :=
  [Op.putWorkHealth 0, Op.putWorkHealth 1, Op.putWorkHealth 2, Op.putWorkHealth 3,
    Op.putBackHealth (some 4), Op.updataHealthInfo "Z" "10.0.0.9" 30303 [10]]

/-- Scenario 1 with A at tick 50, after `UpdataHealthInfo` gave A the peer id "Z". -/
def scenario1Renamed : HealthMgr :=
  (scenario1 50).UpdataHealthInfo "Z" "10.0.0.9" 30303 [10]

/-- The bootstrap calls of `aliasRoster`: the record A is put into working and into backup. -/
def aliasOps : List Op :=
  [Op.putWorkHealth 0, Op.putBackHealth (some 0)]

/-- A roster in which the record A was put into backup twice; working is empty. -/
def dupBackRoster : HealthMgr :=
  ((NewHealthMgr aliasMem 7).PutBackHealth (some 0)).PutBackHealth (some 0)

/-- Memory with one Fixed record F (address 0) at tick 5. -/
def fixedMem : Ptr → Health
  | 0 => { NewHealth "F" TypeFixed StateUsedFlag ⟨[10], [20]⟩ false with Tick := 5 }
  | _ => NewHealth "" TypeWorked StateUnusedFlag ⟨[], []⟩ false

/-- A roster whose only working record is the Fixed record F. -/
def fixedWorkRoster : HealthMgr :=
  (NewHealthMgr fixedMem 7).PutWorkHealth 0

/-- The number of restore copies the tick loop sends over the records `vs` while a direction-0
proposal with `remove = r` is pending: every counted record `v` first adds one to its own tick
(which moves the tick `t` of `r` when `v` is `r` itself) and then sends one copy when the tick of
`r` is below the threshold at that moment. -/
def restoreCount (counted : Ptr → Bool) (r : Ptr) : Int → List Ptr → Nat
  | _, [] => 0
  | t, v :: vs =>
    if counted v then
      (if (if v = r then wrapInt32 (t + 1) else t) < HealthOut then 1 else 0)
        + restoreCount counted r (if v = r then wrapInt32 (t + 1) else t) vs
    else restoreCount counted r t vs

/-- The committee of `scenario5` after a membership delivery that declares A `Used` and E
`Unused` again: the switch of A for E stays pending and A, at tick 0, is counted again. -/
def scenario5Recounted : HealthMgr :=
  scenario5.UpdateFromCommittee scenarioAddress [⟨[10], StateUsedFlag, TypeWorked⟩]
    [⟨[14], StateUnusedFlag, TypeBack⟩]

/-- The proposal pending in `scenario5`: remove A, add E. -/
def scenario5Proposal : SwitchValidator :=
  { Remove := some 0, Add := some 4,
    Infos := some { CID := 7, Vals := [⟨[14], 3⟩, ⟨[10], 4⟩, ⟨[11], 1⟩, ⟨[12], 1⟩] },
    Resion := "Switch", From := 0, DoorCount := 0, Round := -1, ID := 30064771172 }

/-- Scenario 1 with A at tick 180, the working records put in the order A, C, B, D. -/
def scenario1Shuffled : HealthMgr :=
  (((((NewHealthMgr (scenario1Mem 180) 7).PutWorkHealth 0).PutWorkHealth 2).PutWorkHealth
    1).PutWorkHealth 3).PutBackHealth (some 4)

/-- Memory of a committee in which a working record (address 3) carries the peer id and public
key of the backup record E (address 4): A (address 0, tick 180), B, C and that record are
working and `Used`; E is an `Unused` backup. -/
def scenarioTwinMem : Ptr → Health
  | 0 => { NewHealth "A" TypeWorked StateUsedFlag ⟨[10], [20]⟩ false with Tick := 180 }
  | 1 => NewHealth "B" TypeWorked StateUsedFlag ⟨[11], [21]⟩ false
  | 2 => NewHealth "C" TypeWorked StateUsedFlag ⟨[12], [22]⟩ false
  | 3 => NewHealth "E" TypeWorked StateUsedFlag ⟨[14], [24]⟩ false
  | 4 => NewHealth "E" TypeBack StateUnusedFlag ⟨[14], [24]⟩ false
  | _ => NewHealth "" TypeWorked StateUnusedFlag ⟨[], []⟩ false

/-- That committee, built through the bootstrap calls. -/
def scenarioTwin : HealthMgr :=
  (((((NewHealthMgr scenarioTwinMem 7).PutWorkHealth 0).PutWorkHealth 1).PutWorkHealth
    2).PutWorkHealth 3).PutBackHealth (some 4)

namespace HealthMgr

/-- The manager `h` with the entries of its working map iterated in the order `W`. -/
def reordered (h : HealthMgr) (W : List (String × Ptr)) : HealthMgr :=
  { h with Work := W }

end HealthMgr

/-! # Theorems -/

/-! ## Stores into a record -/

namespace HealthMgr

@[simp] theorem storeTick_Work (h : HealthMgr) (v : Ptr) (t : Int) : (h.storeTick v t).Work = h.Work := rfl
@[simp] theorem storeTick_Back (h : HealthMgr) (v : Ptr) (t : Int) : (h.storeTick v t).Back = h.Back := rfl
@[simp] theorem storeTick_seed (h : HealthMgr) (v : Ptr) (t : Int) : (h.storeTick v t).seed = h.seed := rfl
@[simp] theorem storeTick_curSwitch (h : HealthMgr) (v : Ptr) (t : Int) :
    (h.storeTick v t).curSwitch = h.curSwitch := rfl
@[simp] theorem storeTick_uid (h : HealthMgr) (v : Ptr) (t : Int) : (h.storeTick v t).uid = h.uid := rfl
@[simp] theorem storeTick_cid (h : HealthMgr) (v : Ptr) (t : Int) : (h.storeTick v t).cid = h.cid := rfl
@[simp] theorem storeState_Work (h : HealthMgr) (v : Ptr) (t : Int) : (h.storeState v t).Work = h.Work := rfl
@[simp] theorem storeState_Back (h : HealthMgr) (v : Ptr) (t : Int) : (h.storeState v t).Back = h.Back := rfl
@[simp] theorem storeState_seed (h : HealthMgr) (v : Ptr) (t : Int) : (h.storeState v t).seed = h.seed := rfl
@[simp] theorem storeState_curSwitch (h : HealthMgr) (v : Ptr) (t : Int) :
    (h.storeState v t).curSwitch = h.curSwitch := rfl
@[simp] theorem storeState_uid (h : HealthMgr) (v : Ptr) (t : Int) : (h.storeState v t).uid = h.uid := rfl
@[simp] theorem storeState_cid (h : HealthMgr) (v : Ptr) (t : Int) : (h.storeState v t).cid = h.cid := rfl

theorem storeTick_mem (h : HealthMgr) (v : Ptr) (t : Int) (q : Ptr) :
    (h.storeTick v t).mem q = if q = v then { h.mem v with Tick := t } else h.mem q := by
  unfold storeTick
  by_cases hq : q = v
  · subst hq; simp
  · simp [Function.update_noteq hq, hq]

theorem storeState_mem (h : HealthMgr) (v : Ptr) (s : Int) (q : Ptr) :
    (h.storeState v s).mem q = if q = v then { h.mem v with State := s } else h.mem q := by
  unfold storeState
  by_cases hq : q = v
  · subst hq; simp
  · simp [Function.update_noteq hq, hq]

@[simp] theorem storeTick_State (h : HealthMgr) (v : Ptr) (t : Int) (q : Ptr) :
    ((h.storeTick v t).mem q).State = (h.mem q).State := by
  rw [storeTick_mem]; split <;> simp_all
@[simp] theorem storeTick_HType (h : HealthMgr) (v : Ptr) (t : Int) (q : Ptr) :
    ((h.storeTick v t).mem q).HType = (h.mem q).HType := by
  rw [storeTick_mem]; split <;> simp_all
@[simp] theorem storeTick_Self (h : HealthMgr) (v : Ptr) (t : Int) (q : Ptr) :
    ((h.storeTick v t).mem q).Self = (h.mem q).Self := by
  rw [storeTick_mem]; split <;> simp_all
@[simp] theorem storeTick_ID (h : HealthMgr) (v : Ptr) (t : Int) (q : Ptr) :
    ((h.storeTick v t).mem q).ID = (h.mem q).ID := by
  rw [storeTick_mem]; split <;> simp_all
@[simp] theorem storeTick_Val (h : HealthMgr) (v : Ptr) (t : Int) (q : Ptr) :
    ((h.storeTick v t).mem q).Val = (h.mem q).Val := by
  rw [storeTick_mem]; split <;> simp_all
theorem storeTick_Tick (h : HealthMgr) (v : Ptr) (t : Int) (q : Ptr) :
    ((h.storeTick v t).mem q).Tick = if q = v then t else (h.mem q).Tick := by
  rw [storeTick_mem]; split <;> simp_all
@[simp] theorem storeTick_Tick_self (h : HealthMgr) (v : Ptr) (t : Int) :
    ((h.storeTick v t).mem v).Tick = t := by
  simp [storeTick_Tick]

@[simp] theorem storeState_Tick (h : HealthMgr) (v : Ptr) (s : Int) (q : Ptr) :
    ((h.storeState v s).mem q).Tick = (h.mem q).Tick := by
  rw [storeState_mem]; split <;> simp_all
@[simp] theorem storeState_HType (h : HealthMgr) (v : Ptr) (s : Int) (q : Ptr) :
    ((h.storeState v s).mem q).HType = (h.mem q).HType := by
  rw [storeState_mem]; split <;> simp_all
@[simp] theorem storeState_Self (h : HealthMgr) (v : Ptr) (s : Int) (q : Ptr) :
    ((h.storeState v s).mem q).Self = (h.mem q).Self := by
  rw [storeState_mem]; split <;> simp_all
@[simp] theorem storeState_ID (h : HealthMgr) (v : Ptr) (s : Int) (q : Ptr) :
    ((h.storeState v s).mem q).ID = (h.mem q).ID := by
  rw [storeState_mem]; split <;> simp_all
@[simp] theorem storeState_Val (h : HealthMgr) (v : Ptr) (s : Int) (q : Ptr) :
    ((h.storeState v s).mem q).Val = (h.mem q).Val := by
  rw [storeState_mem]; split <;> simp_all
theorem storeState_State (h : HealthMgr) (v : Ptr) (s : Int) (q : Ptr) :
    ((h.storeState v s).mem q).State = if q = v then s else (h.mem q).State := by
  rw [storeState_mem]; split <;> simp_all
@[simp] theorem storeState_State_self (h : HealthMgr) (v : Ptr) (s : Int) :
    ((h.storeState v s).mem v).State = s := by
  simp [storeState_State]

end HealthMgr

/-! ## Verification predicate -/

/-- C1: for a proposal with a non-nil `remove` that is not fully equal to the pending proposal
(or when nothing is pending), `VerifySwitch` returns the nil error iff `remove.state` is Used (1)
or Switching (2), `remove.tick >= 180`, and `add` is nil or its state is neither Used (1) nor
Removed (4); in every other case it returns a non-nil error. -/
theorem verifySwitch_accepts_iff (h : HealthMgr) (sv : SwitchValidator) (r : Ptr)
    (hr : sv.Remove = some r)
    (hne : ∀ sv0, h.getCurSV = some sv0 → sv0.Equal h.mem sv = false) :
    (h.VerifySwitch sv = none ↔
      (((h.mem r).State = 1 ∨ (h.mem r).State = 2) ∧ (h.mem r).Tick ≥ 180 ∧
        (sv.Add = none ∨ ∃ a, sv.Add = some a ∧ (h.mem a).State ≠ 1 ∧ (h.mem a).State ≠ 4)))
    ∧ (¬ (((h.mem r).State = 1 ∨ (h.mem r).State = 2) ∧ (h.mem r).Tick ≥ 180 ∧
        (sv.Add = none ∨ ∃ a, sv.Add = some a ∧ (h.mem a).State ≠ 1 ∧ (h.mem a).State ≠ 4))
      → ∃ e, h.VerifySwitch sv = some e) := by
  have key : h.VerifySwitch sv = h.verifySwitchEnter sv.Remove sv.Add := by
    unfold HealthMgr.VerifySwitch
    cases hc : h.getCurSV with
    | none => simp [EnableHealthMgr]
    | some sv0 => simp [EnableHealthMgr, hne sv0 hc]
  have iff1 : h.VerifySwitch sv = none ↔
      (((h.mem r).State = 1 ∨ (h.mem r).State = 2) ∧ (h.mem r).Tick ≥ 180 ∧
        (sv.Add = none ∨ ∃ a, sv.Add = some a ∧ (h.mem a).State ≠ 1 ∧ (h.mem a).State ≠ 4)) := by
    rw [key, hr]
    unfold HealthMgr.verifySwitchEnter
    cases ha : sv.Add with
    | none =>
      simp [StateUsedFlag, StateSwitchingFlag, HealthOut]
      omega
    | some a =>
      simp [StateUsedFlag, StateSwitchingFlag, HealthOut, StateRemovedFlag]
      omega
  refine ⟨iff1, fun hn => ?_⟩
  cases hv : h.VerifySwitch sv with
  | none => exact absurd (iff1.mp hv) hn
  | some e => exact ⟨e, rfl⟩

theorem verifySwitch_accepts_iff_witness :
    (scenario1 180).VerifySwitch proposalAE = none ↔
      ((((scenario1 180).mem 0).State = 1 ∨ ((scenario1 180).mem 0).State = 2) ∧
        ((scenario1 180).mem 0).Tick ≥ 180 ∧
        (proposalAE.Add = none ∨ ∃ a, proposalAE.Add = some a ∧
          ((scenario1 180).mem a).State ≠ 1 ∧ ((scenario1 180).mem a).State ≠ 4)) :=
  (verifySwitch_accepts_iff (scenario1 180) proposalAE 0 rfl
    (fun sv0 h0 => by
      have hn : (scenario1 180).getCurSV = none := by decide
      rw [hn] at h0
      cases h0)).1

/-! ## Result handling -/

namespace HealthMgr

@[simp] theorem removeCurSV_mem (h : HealthMgr) : h.removeCurSV.mem = h.mem := by
  unfold removeCurSV; split <;> rfl
@[simp] theorem removeCurSV_Work (h : HealthMgr) : h.removeCurSV.Work = h.Work := by
  unfold removeCurSV; split <;> rfl
@[simp] theorem removeCurSV_Back (h : HealthMgr) : h.removeCurSV.Back = h.Back := by
  unfold removeCurSV; split <;> rfl
@[simp] theorem removeCurSV_seed (h : HealthMgr) : h.removeCurSV.seed = h.seed := by
  unfold removeCurSV; split <;> rfl
@[simp] theorem removeCurSV_uid (h : HealthMgr) : h.removeCurSV.uid = h.uid := by
  unfold removeCurSV; split <;> rfl
@[simp] theorem removeCurSV_cid (h : HealthMgr) : h.removeCurSV.cid = h.cid := by
  unfold removeCurSV; split <;> rfl

/-- `GetHealth` reads only the public keys and the three roster parts. -/
theorem GetHealth_congr (h g : HealthMgr) (pk : List Nat)
    (hm : ∀ q, (g.mem q).Val = (h.mem q).Val) (hw : g.Work = h.Work) (hb : g.Back = h.Back)
    (hs : g.seed = h.seed) : g.GetHealth pk = h.GetHealth pk := by
  have sc : ∀ l, scanPk g.mem pk l = scanPk h.mem pk l := by
    intro l
    induction l with
    | nil => rfl
    | cons v vs ih => simp [scanPk, hm, ih]
  simp [GetHealth, getHealthFromPart, sc, hw, hb, hs]

@[simp] theorem afterPending_mem (h : HealthMgr) (res : SwitchValidator) :
    (afterPending h res).mem = h.mem := by
  unfold afterPending; split <;> [split; skip] <;> simp
@[simp] theorem afterPending_Work (h : HealthMgr) (res : SwitchValidator) :
    (afterPending h res).Work = h.Work := by
  unfold afterPending; split <;> [split; skip] <;> simp
@[simp] theorem afterPending_Back (h : HealthMgr) (res : SwitchValidator) :
    (afterPending h res).Back = h.Back := by
  unfold afterPending; split <;> [split; skip] <;> simp
@[simp] theorem afterPending_seed (h : HealthMgr) (res : SwitchValidator) :
    (afterPending h res).seed = h.seed := by
  unfold afterPending; split <;> [split; skip] <;> simp

theorem afterPending_GetHealth (h : HealthMgr) (res : SwitchValidator) (pk : List Nat) :
    (afterPending h res).GetHealth pk = h.GetHealth pk :=
  GetHealth_congr h _ pk (by simp) (by simp) (by simp) (by simp)

/-- The function `switchResult`, with its two phases named. -/
theorem switchResult_eq (h : HealthMgr) (res : SwitchValidator) :
    h.switchResult res =
      if res.From = 0 then
        match res.Infos with
        | none => none
        | some infos =>
          if infos.Vals.length > 2 then
            match infos.Vals with
            | enter1 :: enter2 :: _ =>
              some (applyResult (afterPending h res)
                (if enter1.Flag = StateAppendFlag then
                  if enter2.Flag = StateRemovedFlag then (afterPending h res).GetHealth enter2.Pk
                  else none
                else if enter1.Flag = StateRemovedFlag then
                  (afterPending h res).GetHealth enter1.Pk
                else none)
                (if enter1.Flag = StateAppendFlag then (afterPending h res).GetHealth enter1.Pk
                  else none))
            | _ => some (afterPending h res)
          else some (afterPending h res)
      else some (afterPending h res) := by
  rfl

end HealthMgr

/-- C2: for a direction-0 result with more than 2 member entries whose first entry is
`(pkA, Append)` and second entry `(pkR, Removed)`, where `GetHealth` resolves `pkA` and `pkR` to
two distinct records `add` and `remove`: `switchResult` returns, and afterwards
`remove.state = Removed`, `remove.tick = 0`, `add.state = Used`, `add.tick = 0`, and no other
record's state or tick has changed. -/
theorem switchResult_applies_remove_and_add (h : HealthMgr) (res : SwitchValidator)
    (infos : SwitchInfos) (enter1 enter2 : SwitchEnter) (rest : List SwitchEnter)
    (add remove : Ptr)
    (hfrom : res.From = 0) (hinfos : res.Infos = some infos)
    (hvals : infos.Vals = enter1 :: enter2 :: rest) (hlen : infos.Vals.length > 2)
    (hf1 : enter1.Flag = StateAppendFlag) (hf2 : enter2.Flag = StateRemovedFlag)
    (hadd : h.GetHealth enter1.Pk = some add) (hrem : h.GetHealth enter2.Pk = some remove)
    (hne : add ≠ remove) :
    ∃ h', h.switchResult res = some h' ∧
      (h'.mem remove).State = StateRemovedFlag ∧ (h'.mem remove).Tick = 0 ∧
      (h'.mem add).State = StateUsedFlag ∧ (h'.mem add).Tick = 0 ∧
      ∀ q, q ≠ remove → q ≠ add →
        (h'.mem q).State = (h.mem q).State ∧ (h'.mem q).Tick = (h.mem q).Tick := by
  refine ⟨(((HealthMgr.afterPending h res).storeState remove StateRemovedFlag).storeTick
      remove 0).storeState add StateUsedFlag |>.storeTick add 0, ?_, ?_, ?_, ?_, ?_, ?_⟩
  · rw [HealthMgr.switchResult_eq]
    simp only [hfrom, if_true, hinfos, hlen]
    rw [hvals]
    simp only [hf1, hf2, if_true, HealthMgr.afterPending_GetHealth, hadd, hrem,
      HealthMgr.applyResult]
  · simp [HealthMgr.storeState_State, Ne.symm hne]
  · simp [HealthMgr.storeTick_Tick, Ne.symm hne]
  · simp
  · simp
  · intro q hq1 hq2
    simp [HealthMgr.storeState_State, HealthMgr.storeTick_Tick, hq1, hq2]

theorem switchResult_applies_remove_and_add_witness :
    ∃ h', (scenario1 181).switchResult scenario1Result = some h' ∧
      (h'.mem 0).State = StateRemovedFlag ∧ (h'.mem 0).Tick = 0 ∧
      (h'.mem 4).State = StateUsedFlag ∧ (h'.mem 4).Tick = 0 ∧
      ∀ q, q ≠ 0 → q ≠ 4 →
        (h'.mem q).State = ((scenario1 181).mem q).State ∧
        (h'.mem q).Tick = ((scenario1 181).mem q).Tick :=
  switchResult_applies_remove_and_add (scenario1 181) scenario1Result
    { CID := 7, Vals := [⟨[14], 3⟩, ⟨[10], 4⟩, ⟨[11], 1⟩, ⟨[12], 1⟩, ⟨[13], 1⟩] }
    ⟨[14], 3⟩ ⟨[10], 4⟩ [⟨[11], 1⟩, ⟨[12], 1⟩, ⟨[13], 1⟩] 4 0
    rfl rfl rfl (by decide) rfl rfl (by decide) (by decide) (by decide)

/-! ## Proposal construction -/

namespace HealthMgr

theorem workEntries_eq (mem : Ptr → Health) (remove : Option Ptr) (l : List Ptr) :
    workEntries mem remove l =
      (l.filter (fun v => decide ((mem v).State = StateUsedFlag)
        && !Health.Equal mem (some v) remove)).map
        (fun v => ⟨(mem v).Val.PubKey, StateUsedFlag⟩) := by
  induction l with
  | nil => rfl
  | cons v vs ih =>
    by_cases h1 : (mem v).State = StateUsedFlag
    · by_cases h2 : Health.Equal mem (some v) remove = true
      · simp [workEntries, List.filter, h1, h2, ih]
      · simp [workEntries, List.filter, h1, h2, ih, toUint32, StateUsedFlag]
    · simp [workEntries, List.filter, h1, ih]

theorem backEntries_eq (mem : Ptr → Health) (remove add : Option Ptr) (l : List Ptr) :
    backEntries mem remove add l =
      (l.filter (fun v => decide ((mem v).State = StateUsedFlag)
        && !Health.Equal mem (some v) remove && !Health.Equal mem (some v) add)).map
        (fun v => ⟨(mem v).Val.PubKey, StateUsedFlag⟩) := by
  induction l with
  | nil => rfl
  | cons v vs ih =>
    by_cases h1 : (mem v).State = StateUsedFlag
    · by_cases h2 : Health.Equal mem (some v) remove = true
      · simp [backEntries, List.filter, h1, h2, ih]
      · by_cases h3 : Health.Equal mem (some v) add = true
        · simp [backEntries, List.filter, h1, h2, h3, ih]
        · simp [backEntries, List.filter, h1, h2, h3, ih, toUint32, StateUsedFlag]
    · simp [backEntries, List.filter, h1, ih]

/-- The proposal `makeSwitchValidators` returns and the state it leaves. -/
theorem makeSwitchValidators_eq (h : HealthMgr) (r : Ptr) (add : Option Ptr) (resion : String)
    (frm : Int) :
    h.makeSwitchValidators (some r) add resion frm =
      some ({ Infos := some { CID := h.cid, Vals := listedMembers h r add }, Resion := resion,
              From := frm, DoorCount := 0, Remove := some r, Add := add, Round := -1,
              ID := h.uid },
            { h with uid := (h.uid + 1) % 2 ^ 64 }) := by
  unfold makeSwitchValidators listedMembers leadMembers
  simp only [workEntries_eq, backEntries_eq, List.filter_append, List.map_append]
  cases add <;> simp

end HealthMgr

/-! ## Promotion selection -/

namespace HealthMgr

theorem pickLoop_eq (h : HealthMgr) (l : List Ptr) :
    pickLoop h l =
      (l.find? (fun v => decide ((h.mem v).State = StateUnusedFlag))).map
        (fun v => (v, h.storeState v StateSwitchingFlag)) := by
  induction l with
  | nil => rfl
  | cons v vs ih =>
    by_cases hv : (h.mem v).State = StateUnusedFlag
    · simp [pickLoop, hv, List.find?]
    · simp [pickLoop, hv, List.find?, ih]

/-- The record `pickUnuseValidator` answers, as a search of `Back` then `seed`. -/
theorem pickUnuseValidator_fst (h : HealthMgr) :
    h.pickUnuseValidator.1 =
      match h.Back.find? (fun v => decide ((h.mem v).State = StateUnusedFlag)) with
      | some v => some v
      | none => h.seed.find? (fun v => decide ((h.mem v).State = StateUnusedFlag)) := by
  unfold pickUnuseValidator
  rw [pickLoop_eq, pickLoop_eq]
  cases h.Back.find? (fun v => decide ((h.mem v).State = StateUnusedFlag)) with
  | some v => rfl
  | none =>
    cases h.seed.find? (fun v => decide ((h.mem v).State = StateUnusedFlag)) with
    | some v => rfl
    | none => rfl

/-- The state `pickUnuseValidator` leaves. -/
theorem pickUnuseValidator_snd (h : HealthMgr) :
    h.pickUnuseValidator.2 =
      match h.pickUnuseValidator.1 with
      | some v => h.storeState v StateSwitchingFlag
      | none => h := by
  unfold pickUnuseValidator
  rw [pickLoop_eq, pickLoop_eq]
  cases h.Back.find? (fun v => decide ((h.mem v).State = StateUnusedFlag)) with
  | some v => rfl
  | none =>
    cases h.seed.find? (fun v => decide ((h.mem v).State = StateUnusedFlag)) with
    | some v => rfl
    | none => rfl

/-- A record answered by `pickUnuseValidator` was `Unused`. -/
theorem pickUnuseValidator_unused (h : HealthMgr) (v : Ptr)
    (hv : h.pickUnuseValidator.1 = some v) : (h.mem v).State = StateUnusedFlag := by
  rw [pickUnuseValidator_fst] at hv
  cases hb : h.Back.find? (fun v => decide ((h.mem v).State = StateUnusedFlag)) with
  | some w =>
    rw [hb] at hv
    cases hv
    simpa using List.find?_some hb
  | none =>
    rw [hb] at hv
    simpa using List.find?_some hv

end HealthMgr

/-- C10: `pickUnuseValidator` returns the first record of `Back` (in list order) whose state is
Unused, otherwise the first such record of `seed`, otherwise nil; the returned record's state
becomes Switching and no other record changes (nothing changes when nil is returned); two
successive calls never return the same record. -/
theorem pickUnuseValidator_first_unused (h : HealthMgr) :
    (h.pickUnuseValidator.1 =
      match h.Back.find? (fun v => decide ((h.mem v).State = StateUnusedFlag)) with
      | some v => some v
      | none => h.seed.find? (fun v => decide ((h.mem v).State = StateUnusedFlag)))
    ∧ (h.pickUnuseValidator.1 = none → h.pickUnuseValidator.2 = h)
    ∧ (∀ v, h.pickUnuseValidator.1 = some v →
        h.pickUnuseValidator.2 = h.storeState v StateSwitchingFlag ∧
        (h.pickUnuseValidator.2.mem v).State = StateSwitchingFlag ∧
        ∀ q, q ≠ v → h.pickUnuseValidator.2.mem q = h.mem q)
    ∧ (∀ v, h.pickUnuseValidator.1 = some v →
        h.pickUnuseValidator.2.pickUnuseValidator.1 ≠ some v) := by
  refine ⟨HealthMgr.pickUnuseValidator_fst h, ?_, ?_, ?_⟩
  · intro hn
    rw [HealthMgr.pickUnuseValidator_snd, hn]
  · intro v hv
    have h2 : h.pickUnuseValidator.2 = h.storeState v StateSwitchingFlag := by
      rw [HealthMgr.pickUnuseValidator_snd, hv]
    refine ⟨h2, ?_, ?_⟩
    · rw [h2]; simp
    · intro q hq
      rw [h2, HealthMgr.storeState_mem]
      simp [hq]
  · intro v hv hv2
    have h2 : h.pickUnuseValidator.2 = h.storeState v StateSwitchingFlag := by
      rw [HealthMgr.pickUnuseValidator_snd, hv]
    have hu := HealthMgr.pickUnuseValidator_unused _ v hv2
    rw [h2] at hu
    simp [StateSwitchingFlag, StateUnusedFlag] at hu

theorem pickUnuseValidator_first_unused_witness :
    (scenario1 0).pickUnuseValidator.1 = some 4 ∧
      ((scenario1 0).pickUnuseValidator.2.mem 4).State = StateSwitchingFlag ∧
      (scenario1 0).pickUnuseValidator.2.pickUnuseValidator.1 ≠ some 4 :=
  have hpick : (scenario1 0).pickUnuseValidator.1 = some 4 := by decide
  ⟨hpick, ((pickUnuseValidator_first_unused (scenario1 0)).2.2.1 4 hpick).2.1,
    (pickUnuseValidator_first_unused (scenario1 0)).2.2.2 4 hpick⟩

/-! ## One record of the tick loop -/

namespace HealthMgr

theorem getCurSV_eq (h : HealthMgr) : h.getCurSV = h.curSwitch.head? := by
  unfold getCurSV
  cases h.curSwitch <;> simp

theorem getCurSV_eq_none (h : HealthMgr) : h.getCurSV = none ↔ h.curSwitch = [] := by
  rw [getCurSV_eq]
  cases h.curSwitch <;> simp

@[simp] theorem pickUnuseValidator_Work (h : HealthMgr) : h.pickUnuseValidator.2.Work = h.Work := by
  rw [pickUnuseValidator_snd]; split <;> simp
@[simp] theorem pickUnuseValidator_Back (h : HealthMgr) : h.pickUnuseValidator.2.Back = h.Back := by
  rw [pickUnuseValidator_snd]; split <;> simp
@[simp] theorem pickUnuseValidator_seed (h : HealthMgr) : h.pickUnuseValidator.2.seed = h.seed := by
  rw [pickUnuseValidator_snd]; split <;> simp
@[simp] theorem pickUnuseValidator_curSwitch (h : HealthMgr) :
    h.pickUnuseValidator.2.curSwitch = h.curSwitch := by
  rw [pickUnuseValidator_snd]; split <;> simp
@[simp] theorem pickUnuseValidator_uid (h : HealthMgr) : h.pickUnuseValidator.2.uid = h.uid := by
  rw [pickUnuseValidator_snd]; split <;> simp
@[simp] theorem pickUnuseValidator_cid (h : HealthMgr) : h.pickUnuseValidator.2.cid = h.cid := by
  rw [pickUnuseValidator_snd]; split <;> simp
@[simp] theorem pickUnuseValidator_Tick (h : HealthMgr) (q : Ptr) :
    (h.pickUnuseValidator.2.mem q).Tick = (h.mem q).Tick := by
  rw [pickUnuseValidator_snd]; split <;> simp
@[simp] theorem pickUnuseValidator_HType (h : HealthMgr) (q : Ptr) :
    (h.pickUnuseValidator.2.mem q).HType = (h.mem q).HType := by
  rw [pickUnuseValidator_snd]; split <;> simp
@[simp] theorem pickUnuseValidator_Self (h : HealthMgr) (q : Ptr) :
    (h.pickUnuseValidator.2.mem q).Self = (h.mem q).Self := by
  rw [pickUnuseValidator_snd]; split <;> simp
@[simp] theorem pickUnuseValidator_ID (h : HealthMgr) (q : Ptr) :
    (h.pickUnuseValidator.2.mem q).ID = (h.mem q).ID := by
  rw [pickUnuseValidator_snd]; split <;> simp
@[simp] theorem pickUnuseValidator_Val (h : HealthMgr) (q : Ptr) :
    (h.pickUnuseValidator.2.mem q).Val = (h.mem q).Val := by
  rw [pickUnuseValidator_snd]; split <;> simp

/-- A record that is not counted is skipped. -/
theorem checkSwitchValidator_skip (h : HealthMgr) (v : Ptr) (s : Bool) (hg : ¬ h.ticking v) :
    h.checkSwitchValidator v s = some (h, []) := by
  unfold ticking at hg
  unfold checkSwitchValidator
  rw [if_neg hg]

/-- A counted record that does not take the switch path. -/
theorem checkSwitchValidator_noswitch (h : HealthMgr) (v : Ptr) (s : Bool) (hg : h.ticking v)
    (hn : s = false ∨ wrapInt32 ((h.mem v).Tick + 1) ≤ HealthOut ∨ h.curSwitch ≠ []) :
    h.checkSwitchValidator v s = (h.bumped v).restoreOut.map (fun o => (h.bumped v, o)) := by
  have hg' := hg
  unfold ticking at hg'
  unfold checkSwitchValidator
  rw [if_pos hg']
  have hr1 : (if s = true ∧ wrapInt32 ((h.mem v).Tick + 1) > HealthOut ∧
        ((h.storeTick v (wrapInt32 ((h.mem v).Tick + 1))).mem v).State = StateUsedFlag ∧
        ((h.storeTick v (wrapInt32 ((h.mem v).Tick + 1))).mem v).Self = false then
        match (h.storeTick v (wrapInt32 ((h.mem v).Tick + 1))).getCurSV with
        | none =>
          match (h.storeTick v (wrapInt32 ((h.mem v).Tick + 1))).pickUnuseValidator with
          | (back, h2) =>
            match h2.makeSwitchValidators (some v) back "Switch" 0 with
            | none => none
            | some (cur, h3) =>
              some ((h3.storeState v StateSwitchingFlag).setCurSV (some cur), [cur])
        | some _ => some (h.storeTick v (wrapInt32 ((h.mem v).Tick + 1)), [])
      else some (h.storeTick v (wrapInt32 ((h.mem v).Tick + 1)), [])) =
      some (h.bumped v, ([] : List SwitchValidator)) := by
    rcases hn with hs | hv | hc
    · subst hs; simp [bumped]
    · rw [if_neg (by intro hh; exact absurd hh.2.1 (not_lt.mpr hv))]; rfl
    · split
      · have : (h.storeTick v (wrapInt32 ((h.mem v).Tick + 1))).getCurSV ≠ none := by
          rw [Ne, getCurSV_eq_none]; simpa using hc
        split
        · contradiction
        · rfl
      · rfl
  simp only [] at hr1 ⊢
  rw [hr1]
  simp only [restoreOut]
  cases hcur : (h.bumped v).getCurSV with
  | none => rfl
  | some sv0 =>
    cases hrm : sv0.Remove with
    | none => simp [hrm]
    | some r =>
      simp only [hrm]
      split <;> simp
/-- A counted record that takes the switch path. -/
theorem checkSwitchValidator_switch (h : HealthMgr) (v : Ptr) (s : Bool) (hg : h.ticking v)
    (hs : s = true) (hv : wrapInt32 ((h.mem v).Tick + 1) > HealthOut) (hc : h.curSwitch = []) :
    h.checkSwitchValidator v s = some (h.switchState v, [h.switchProposal v]) := by
  have hg' := hg
  unfold ticking at hg'
  have hcur : (h.storeTick v (wrapInt32 ((h.mem v).Tick + 1))).getCurSV = none := by
    rw [getCurSV_eq_none]; simpa using hc
  have hmk := makeSwitchValidators_eq (h.bumped v).pickUnuseValidator.2 v
    (h.bumped v).pickUnuseValidator.1 "Switch" 0
  have hst : ((((h.bumped v).pickUnuseValidator.2.storeState v StateSwitchingFlag)).mem v).Tick
      = wrapInt32 ((h.mem v).Tick + 1) := by
    simp [bumped]
  unfold checkSwitchValidator
  rw [if_pos hg']
  simp only [hs, hv, true_and, storeTick_State, storeTick_Self, hg'.1, hg'.2.2, if_true, hcur]
  unfold bumped at hmk hst
  simp only [pickUnuseValidator_uid, pickUnuseValidator_cid, storeTick_uid, storeTick_cid] at hmk
  rw [hmk]
  simp only [setCurSV, storeState_curSwitch, pickUnuseValidator_curSwitch, storeTick_curSwitch, hc,
    List.length_nil, if_true, List.nil_append, getCurSV]
  have hnlt : ¬ (wrapInt32 ((h.mem v).Tick + 1) < HealthOut) := not_lt.mpr (le_of_lt hv)
  simp [switchState, switchProposal, bumped, storeState, hc, hnlt]
/-- The three ways `checkSwitchValidator` returns. -/
theorem checkSwitchValidator_cases (h : HealthMgr) (v : Ptr) (s : Bool) (h' : HealthMgr)
    (out : List SwitchValidator) (hch : h.checkSwitchValidator v s = some (h', out)) :
    (¬ h.ticking v ∧ h' = h ∧ out = []) ∨
    (h.ticking v ∧ (s = false ∨ h.curSwitch ≠ [] ∨ wrapInt32 ((h.mem v).Tick + 1) ≤ HealthOut)
      ∧ h' = h.bumped v ∧ (h.bumped v).restoreOut = some out) ∨
    (h.ticking v ∧ s = true ∧ wrapInt32 ((h.mem v).Tick + 1) > HealthOut ∧ h.curSwitch = []
      ∧ h' = h.switchState v ∧ out = [h.switchProposal v]) := by
  by_cases hg : h.ticking v
  · by_cases hn : s = false ∨ h.curSwitch ≠ [] ∨ wrapInt32 ((h.mem v).Tick + 1) ≤ HealthOut
    · right; left
      have hn' : s = false ∨ wrapInt32 ((h.mem v).Tick + 1) ≤ HealthOut ∨ h.curSwitch ≠ [] := by
        tauto
      rw [checkSwitchValidator_noswitch h v s hg hn'] at hch
      cases hr : (h.bumped v).restoreOut with
      | none => rw [hr] at hch; cases hch
      | some o =>
        rw [hr] at hch
        simp only [Option.map_some', Option.some.injEq, Prod.mk.injEq] at hch
        exact ⟨hg, hn, hch.1.symm, by rw [hch.2]⟩
    · right; right
      have hs : s = true := by
        cases s
        · exact absurd (Or.inl rfl) hn
        · rfl
      have hc : h.curSwitch = [] := by
        by_contra hc
        exact hn (Or.inr (Or.inl hc))
      have hv : wrapInt32 ((h.mem v).Tick + 1) > HealthOut := by
        by_contra hv
        exact hn (Or.inr (Or.inr (not_lt.mp hv)))
      rw [checkSwitchValidator_switch h v s hg hs hv hc] at hch
      simp only [Option.some.injEq, Prod.mk.injEq] at hch
      exact ⟨hg, hs, hv, hc, hch.1.symm, hch.2.symm⟩
  · left
    rw [checkSwitchValidator_skip h v s hg] at hch
    simp only [Option.some.injEq, Prod.mk.injEq] at hch
    exact ⟨hg, hch.1.symm, hch.2.symm⟩

/-- What the restore path sends: copies of the pending proposal with direction 1. -/
theorem restoreOut_mem (h : HealthMgr) (out : List SwitchValidator) (p : SwitchValidator)
    (hr : h.restoreOut = some out) (hp : p ∈ out) :
    ∃ sv0 r, h.curSwitch.head? = some sv0 ∧ p = { sv0 with From := 1 } ∧ sv0.From = 0 ∧
      sv0.Remove = some r ∧ (h.mem r).Tick < HealthOut := by
  unfold restoreOut at hr
  rw [getCurSV_eq] at hr
  cases hc : h.curSwitch.head? with
  | none => rw [hc] at hr; simp at hr; subst hr; cases hp
  | some sv0 =>
    rw [hc] at hr
    cases hrm : sv0.Remove with
    | none => simp [hrm] at hr
    | some r =>
      simp only [hrm] at hr
      split at hr
      · rename_i hcond
        simp only [Option.some.injEq] at hr
        subst hr
        simp only [List.mem_singleton] at hp
        exact ⟨sv0, r, rfl, by rw [hrm]; exact hp, hcond.2, hrm, hcond.1⟩
      · simp only [Option.some.injEq] at hr
        subst hr
        cases hp

end HealthMgr

theorem sameRoster_refl (h : HealthMgr) : SameRoster h h :=
  ⟨rfl, rfl, rfl, rfl, fun _ => rfl, fun _ => rfl, fun _ => rfl, fun _ => rfl⟩

theorem sameRoster_trans {h g k : HealthMgr} (a : SameRoster h g) (b : SameRoster g k) :
    SameRoster h k :=
  ⟨b.work.trans a.work, b.back.trans a.back, b.seed.trans a.seed, b.cid.trans a.cid,
    fun q => (b.htype q).trans (a.htype q), fun q => (b.self q).trans (a.self q),
    fun q => (b.id q).trans (a.id q), fun q => (b.val q).trans (a.val q)⟩

theorem sameButTicks_refl (h : HealthMgr) : SameButTicks h h :=
  ⟨sameRoster_refl h, rfl, rfl, fun _ => rfl⟩

theorem sameButTicks_trans {h g k : HealthMgr} (a : SameButTicks h g) (b : SameButTicks g k) :
    SameButTicks h k :=
  ⟨sameRoster_trans a.roster b.roster, b.curSwitch.trans a.curSwitch, b.uid.trans a.uid,
    fun q => (b.state q).trans (a.state q)⟩

namespace HealthMgr

theorem sameRoster_storeTick (h : HealthMgr) (v : Ptr) (t : Int) : SameRoster h (h.storeTick v t) :=
  ⟨rfl, rfl, rfl, rfl, fun _ => by simp, fun _ => by simp, fun _ => by simp, fun _ => by simp⟩

theorem sameRoster_storeState (h : HealthMgr) (v : Ptr) (s : Int) :
    SameRoster h (h.storeState v s) :=
  ⟨rfl, rfl, rfl, rfl, fun _ => by simp, fun _ => by simp, fun _ => by simp, fun _ => by simp⟩

theorem sameButTicks_storeTick (h : HealthMgr) (v : Ptr) (t : Int) :
    SameButTicks h (h.storeTick v t) :=
  ⟨sameRoster_storeTick h v t, rfl, rfl, fun _ => by simp⟩

theorem sameButTicks_bumped (h : HealthMgr) (v : Ptr) : SameButTicks h (h.bumped v) :=
  sameButTicks_storeTick h v _

theorem sameRoster_switchState (h : HealthMgr) (v : Ptr) : SameRoster h (h.switchState v) := by
  refine ⟨?_, ?_, ?_, ?_, ?_, ?_, ?_, ?_⟩ <;> intros <;> simp [switchState, bumped]

theorem switchState_Tick (h : HealthMgr) (v q : Ptr) :
    ((h.switchState v).mem q).Tick = ((h.bumped v).mem q).Tick := by
  simp [switchState]

end HealthMgr

/-! ## The tick loop -/

namespace HealthMgr

theorem workLoop_cons_some (s : Bool) (h : HealthMgr) (v : Ptr) (vs : List Ptr) (h' : HealthMgr)
    (out : List SwitchValidator) (hw : workLoop s h (v :: vs) = some (h', out)) :
    ∃ h1 o1 o2, h.checkSwitchValidator v s = some (h1, o1) ∧ workLoop s h1 vs = some (h', o2) ∧
      out = o1 ++ o2 := by
  unfold workLoop at hw
  cases hc : h.checkSwitchValidator v s with
  | none => rw [hc] at hw; cases hw
  | some r1 =>
    obtain ⟨h1, o1⟩ := r1
    rw [hc] at hw
    simp only [] at hw
    cases hl : workLoop s h1 vs with
    | none => rw [hl] at hw; cases hw
    | some r2 =>
      obtain ⟨h2, o2⟩ := r2
      rw [hl] at hw
      simp only [Option.some.injEq, Prod.mk.injEq] at hw
      exact ⟨h1, o1, o2, rfl, by rw [← hw.1]; exact hl, hw.2.symm⟩

/-- A relation that holds of every `checkSwitchValidator` call, is reflexive and composes, holds
of a loop of `work`. -/
theorem workLoop_rel (s : Bool) (R : HealthMgr → HealthMgr → List SwitchValidator → Prop)
    (hrefl : ∀ h, R h h [])
    (htrans : ∀ h h1 h2 o1 o2, R h h1 o1 → R h1 h2 o2 → R h h2 (o1 ++ o2))
    (hcheck : ∀ h v h1 o1, h.checkSwitchValidator v s = some (h1, o1) → R h h1 o1) :
    ∀ (vs : List Ptr) (h h' : HealthMgr) (out : List SwitchValidator),
      workLoop s h vs = some (h', out) → R h h' out := by
  intro vs
  induction vs with
  | nil =>
    intro h h' out hw
    simp only [workLoop, Option.some.injEq, Prod.mk.injEq] at hw
    rw [← hw.1, ← hw.2]
    exact hrefl h
  | cons v vs ih =>
    intro h h' out hw
    obtain ⟨h1, o1, o2, hc, hl, ho⟩ := workLoop_cons_some s h v vs h' out hw
    rw [ho]
    exact htrans _ _ _ _ _ (hcheck _ _ _ _ hc) (ih _ _ _ hl)

theorem work_some (s : Bool) (h h' : HealthMgr) (out : List SwitchValidator)
    (hw : h.work s = some (h', out)) :
    ∃ h1 o1 o2, workLoop s h (h.Work.map Prod.snd) = some (h1, o1) ∧
      workLoop s h1 h1.Back = some (h', o2) ∧ out = o1 ++ o2 := by
  unfold work at hw
  simp only [EnableHealthMgr, Bool.not_true, Bool.false_eq_true, if_false] at hw
  cases hc : workLoop s h (h.Work.map Prod.snd) with
  | none => rw [hc] at hw; cases hw
  | some r1 =>
    obtain ⟨h1, o1⟩ := r1
    rw [hc] at hw
    simp only [] at hw
    cases hl : workLoop s h1 h1.Back with
    | none => rw [hl] at hw; cases hw
    | some r2 =>
      obtain ⟨h2, o2⟩ := r2
      rw [hl] at hw
      simp only [Option.some.injEq, Prod.mk.injEq] at hw
      exact ⟨h1, o1, o2, rfl, by rw [← hw.1]; exact hl, hw.2.symm⟩

/-- The relation principle for a whole pass of `work`. -/
theorem work_rel (s : Bool) (R : HealthMgr → HealthMgr → List SwitchValidator → Prop)
    (hrefl : ∀ h, R h h [])
    (htrans : ∀ h h1 h2 o1 o2, R h h1 o1 → R h1 h2 o2 → R h h2 (o1 ++ o2))
    (hcheck : ∀ h v h1 o1, h.checkSwitchValidator v s = some (h1, o1) → R h h1 o1)
    (h h' : HealthMgr) (out : List SwitchValidator) (hw : h.work s = some (h', out)) :
    R h h' out := by
  obtain ⟨h1, o1, o2, hc, hl, ho⟩ := work_some s h h' out hw
  rw [ho]
  exact htrans _ _ _ _ _ (workLoop_rel s R hrefl htrans hcheck _ _ _ _ hc)
    (workLoop_rel s R hrefl htrans hcheck _ _ _ _ hl)

/-- Without the shift flag, or with a proposal pending, a record of the tick loop changes ticks
only and sends restore copies only. -/
theorem checkSwitchValidator_noSwitch (s : Bool) (h : HealthMgr) (v : Ptr) (h1 : HealthMgr)
    (o1 : List SwitchValidator) (hch : h.checkSwitchValidator v s = some (h1, o1))
    (hpre : s = false ∨ h.curSwitch ≠ []) :
    SameButTicks h h1 ∧ ∀ p ∈ o1, p.From = 1 := by
  rcases checkSwitchValidator_cases h v s h1 o1 hch with ⟨_, e1, e2⟩ | ⟨_, _, e1, e2⟩ |
    ⟨_, hs, _, hc, _, _⟩
  · rw [e1, e2]
    exact ⟨sameButTicks_refl h, fun p hp => by cases hp⟩
  · rw [e1]
    refine ⟨sameButTicks_bumped h v, fun p hp => ?_⟩
    obtain ⟨sv0, r, _, hp', _⟩ := restoreOut_mem _ _ p e2 hp
    rw [hp']
  · rcases hpre with hf | hne
    · rw [hs] at hf; cases hf
    · exact absurd hc hne

theorem work_noSwitch (s : Bool) (h h' : HealthMgr) (out : List SwitchValidator)
    (hw : h.work s = some (h', out)) (hpre : s = false ∨ h.curSwitch ≠ []) :
    SameButTicks h h' ∧ ∀ p ∈ out, p.From = 1 := by
  refine work_rel s
    (fun h h' out => (s = false ∨ h.curSwitch ≠ []) → SameButTicks h h' ∧ ∀ p ∈ out, p.From = 1)
    ?_ ?_ ?_ h h' out hw hpre
  · intro h _
    exact ⟨sameButTicks_refl h, fun p hp => by cases hp⟩
  · intro h h1 h2 o1 o2 r1 r2 hp
    obtain ⟨a1, b1⟩ := r1 hp
    have hp1 : s = false ∨ h1.curSwitch ≠ [] := by
      rcases hp with hp | hp
      · exact Or.inl hp
      · right; rw [a1.curSwitch]; exact hp
    obtain ⟨a2, b2⟩ := r2 hp1
    refine ⟨sameButTicks_trans a1 a2, fun p hp => ?_⟩
    rcases List.mem_append.mp hp with hp | hp
    · exact b1 p hp
    · exact b2 p hp
  · intro h v h1 o1 hch hp
    exact checkSwitchValidator_noSwitch s h v h1 o1 hch hp

end HealthMgr
theorem tickRel_refl (h : HealthMgr) : TickRel h h [] :=
  ⟨sameRoster_refl h, fun _ _ => rfl, (fun _ hp => by cases hp),
    (fun hp => ⟨hp, (fun _ hq => by cases hq)⟩), fun hl => hl⟩

theorem tickRel_trans {h h1 h2 : HealthMgr} {o1 o2 : List SwitchValidator}
    (a : TickRel h h1 o1) (b : TickRel h1 h2 o2) : TickRel h h2 (o1 ++ o2) := by
  refine ⟨sameRoster_trans a.roster b.roster, ?_, ?_, ?_, fun hl => b.atMostOne (a.atMostOne hl)⟩
  · intro q hq
    rw [b.fixedTick q (by rw [a.roster.htype q]; exact hq), a.fixedTick q hq]
  · intro p hp hf
    rcases List.mem_append.mp hp with hp | hp
    · exact a.request p hp hf
    · obtain ⟨r, h1', h2', h3'⟩ := b.request p hp hf
      exact ⟨r, h1', by rw [← a.roster.htype r]; exact h2', by rw [← a.roster.self r]; exact h3'⟩
  · intro hpend
    obtain ⟨pa, oa⟩ := a.pending hpend
    obtain ⟨pb, ob⟩ := b.pending pa
    refine ⟨pb, fun p hp => ?_⟩
    rcases List.mem_append.mp hp with hp | hp
    · exact oa p hp
    · obtain ⟨r, h1', h2', h3'⟩ := ob p hp
      exact ⟨r, h1', by rw [← a.roster.self r]; exact h2', by rw [← a.roster.htype r]; exact h3'⟩

namespace HealthMgr

theorem checkSwitchValidator_tickRel (s : Bool) (h : HealthMgr) (v : Ptr) (h1 : HealthMgr)
    (o1 : List SwitchValidator) (hch : h.checkSwitchValidator v s = some (h1, o1)) :
    TickRel h h1 o1 := by
  rcases checkSwitchValidator_cases h v s h1 o1 hch with ⟨_, e1, e2⟩ | ⟨hg, _, e1, e2⟩ |
    ⟨hg, hs, _, hc, e1, e2⟩
  · rw [e1, e2]
    exact tickRel_refl h
  · rw [e1]
    have hsb := sameButTicks_bumped h v
    refine ⟨hsb.roster, ?_, ?_, ?_, fun hl => by rw [hsb.curSwitch]; exact hl⟩
    · intro q hq
      have hqv : q ≠ v := by
        intro e; rw [e] at hq; exact hg.2.1 hq
      simp [bumped, storeTick_Tick, hqv]
    · intro p hp hf
      obtain ⟨sv0, r, _, hp', _⟩ := restoreOut_mem _ _ p e2 hp
      rw [hp'] at hf
      simp at hf
    · intro hpend
      have hpb : PendingOK (h.bumped v) := by
        intro p hp
        rw [hsb.curSwitch] at hp
        obtain ⟨r, a1, a2, a3⟩ := hpend p hp
        exact ⟨r, a1, by rw [hsb.roster.self]; exact a2, by rw [hsb.roster.htype]; exact a3⟩
      refine ⟨hpb, fun p hp => ?_⟩
      obtain ⟨sv0, r, hhd, hp', _, hrm, _⟩ := restoreOut_mem _ _ p e2 hp
      rw [hsb.curSwitch] at hhd
      obtain ⟨r', a1, a2, a3⟩ := hpend sv0 (List.mem_of_mem_head? hhd)
      rw [hrm] at a1
      cases a1
      exact ⟨r, by rw [hp']; exact hrm, a2, a3⟩
  · rw [e1, e2]
    have hsr := sameRoster_switchState h v
    refine ⟨hsr, ?_, ?_, ?_, fun _ => by simp [switchState]⟩
    · intro q hq
      have hqv : q ≠ v := by
        intro e; rw [e] at hq; exact hg.2.1 hq
      rw [switchState_Tick]
      simp [bumped, storeTick_Tick, hqv]
    · intro p hp _
      simp only [List.mem_singleton] at hp
      exact ⟨v, by rw [hp]; rfl, hg.2.1, hg.2.2⟩
    · intro _
      constructor
      · intro p hp
        have hp' : p = h.switchProposal v := by simpa [switchState] using hp
        refine ⟨v, by rw [hp']; rfl, ?_, ?_⟩
        · rw [hsr.self]; exact hg.2.2
        · rw [hsr.htype]; exact hg.2.1
      · intro p hp
        simp only [List.mem_singleton] at hp
        exact ⟨v, by rw [hp]; rfl, hg.2.2, hg.2.1⟩

theorem work_tickRel (s : Bool) (h h' : HealthMgr) (out : List SwitchValidator)
    (hw : h.work s = some (h', out)) : TickRel h h' out :=
  work_rel s TickRel tickRel_refl (fun _ _ _ _ _ a b => tickRel_trans a b)
    (fun h v h1 o1 hch => checkSwitchValidator_tickRel s h v h1 o1 hch) h h' out hw

theorem healthTick_tickRel (h h' : HealthMgr) (out : List SwitchValidator)
    (hw : h.healthTick = some (h', out)) : TickRel h h' out :=
  work_tickRel _ h h' out hw

/-- With a well-formed pending list a record of the tick loop does not panic. -/
theorem checkSwitchValidator_total (s : Bool) (h : HealthMgr) (v : Ptr) (hp : PendingOK h) :
    ∃ res, h.checkSwitchValidator v s = some res := by
  by_cases hg : h.ticking v
  · by_cases hn : s = false ∨ wrapInt32 ((h.mem v).Tick + 1) ≤ HealthOut ∨ h.curSwitch ≠ []
    · rw [checkSwitchValidator_noswitch h v s hg hn]
      have hr : ∃ o, (h.bumped v).restoreOut = some o := by
        unfold restoreOut
        rw [getCurSV_eq]
        cases hc : (h.bumped v).curSwitch.head? with
        | none => exact ⟨_, rfl⟩
        | some sv0 =>
          have hmem : sv0 ∈ h.curSwitch := by
            have := List.mem_of_mem_head? hc
            simpa [bumped] using this
          obtain ⟨r, a1, _⟩ := hp sv0 hmem
          simp only [a1]
          split <;> exact ⟨_, rfl⟩
      obtain ⟨o, ho⟩ := hr
      rw [ho]
      exact ⟨_, rfl⟩
    · have hs : s = true := by
        cases s
        · exact absurd (Or.inl rfl) hn
        · rfl
      have hc : h.curSwitch = [] := by
        by_contra hc
        exact hn (Or.inr (Or.inr hc))
      have hv : wrapInt32 ((h.mem v).Tick + 1) > HealthOut := by
        by_contra hv
        exact hn (Or.inr (Or.inl (not_lt.mp hv)))
      exact ⟨_, checkSwitchValidator_switch h v s hg hs hv hc⟩
  · exact ⟨_, checkSwitchValidator_skip h v s hg⟩

theorem workLoop_total (s : Bool) : ∀ (vs : List Ptr) (h : HealthMgr), PendingOK h →
    ∃ res, workLoop s h vs = some res := by
  intro vs
  induction vs with
  | nil => intro h _; exact ⟨_, rfl⟩
  | cons v vs ih =>
    intro h hp
    obtain ⟨⟨h1, o1⟩, hc⟩ := checkSwitchValidator_total s h v hp
    have hp1 := ((checkSwitchValidator_tickRel s h v h1 o1 hc).pending hp).1
    obtain ⟨⟨h2, o2⟩, hl⟩ := ih h1 hp1
    exact ⟨(h2, o1 ++ o2), by simp [workLoop, hc, hl]⟩

/-- With a well-formed pending list a tick step does not panic. -/
theorem healthTick_total (h : HealthMgr) (hp : PendingOK h) :
    ∃ h' out, h.healthTick = some (h', out) := by
  obtain ⟨⟨h1, o1⟩, hc⟩ := workLoop_total (h.isShiftSV).1 (h.Work.map Prod.snd) h hp
  have hp1 := ((workLoop_rel _ TickRel tickRel_refl (fun _ _ _ _ _ a b => tickRel_trans a b)
    (fun h v h1 o1 hch => checkSwitchValidator_tickRel _ h v h1 o1 hch) _ _ _ _ hc).pending hp).1
  obtain ⟨⟨h2, o2⟩, hl⟩ := workLoop_total (h.isShiftSV).1 h1.Back h1 hp1
  exact ⟨h2, o1 ++ o2, by simp [healthTick, work, EnableHealthMgr, hc, hl]⟩

end HealthMgr

/-! ## The other calls -/

theorem callRel_refl (h : HealthMgr) : CallRel h h :=
  ⟨fun _ => rfl, fun _ => rfl, fun _ => Or.inl rfl, List.Sublist.refl _, rfl, rfl⟩

theorem callRel_trans {h g k : HealthMgr} (a : CallRel h g) (b : CallRel g k) : CallRel h k := by
  refine ⟨fun q => (b.htype q).trans (a.htype q), fun q => (b.self q).trans (a.self q), ?_,
    b.pending.trans a.pending, b.uid.trans a.uid, b.cid.trans a.cid⟩
  intro q
  rcases b.tick q with hb | hb
  · rw [hb]; exact a.tick q
  · exact Or.inr hb

theorem callRel_pendingInv {h g : HealthMgr} (a : CallRel h g) (hi : PendingInv h) :
    PendingInv g := by
  refine ⟨fun p hp => ?_, le_trans a.pending.length_le hi.2⟩
  obtain ⟨r, h1, h2, h3⟩ := hi.1 p (a.pending.subset hp)
  exact ⟨r, h1, by rw [a.self]; exact h2, by rw [a.htype]; exact h3⟩

namespace HealthMgr

theorem callRel_storeTick_zero (h : HealthMgr) (v : Ptr) : CallRel h (h.storeTick v 0) := by
  refine ⟨fun _ => by simp, fun _ => by simp, fun q => ?_, by simp, rfl, rfl⟩
  rw [storeTick_Tick]
  split
  · exact Or.inr rfl
  · exact Or.inl rfl

theorem callRel_storeState (h : HealthMgr) (v : Ptr) (s : Int) : CallRel h (h.storeState v s) :=
  ⟨fun _ => by simp, fun _ => by simp, fun _ => Or.inl (by simp), by simp, rfl, rfl⟩

theorem callRel_removeCurSV (h : HealthMgr) : CallRel h h.removeCurSV := by
  refine ⟨fun _ => by simp, fun _ => by simp, fun _ => Or.inl (by simp), ?_, by simp, by simp⟩
  unfold removeCurSV
  split
  · exact List.drop_sublist 1 _
  · exact List.Sublist.refl _

theorem callRel_afterPending (h : HealthMgr) (res : SwitchValidator) :
    CallRel h (afterPending h res) := by
  unfold afterPending
  split
  · split
    · exact callRel_removeCurSV h
    · exact callRel_refl h
  · exact callRel_refl h

theorem callRel_applyResult (h : HealthMgr) (remove add : Option Ptr) :
    CallRel h (applyResult h remove add) := by
  unfold applyResult
  have h2 : CallRel h (match remove with
      | some r => (h.storeState r StateRemovedFlag).storeTick r 0
      | none => h) := by
    cases remove with
    | none => exact callRel_refl h
    | some r => exact callRel_trans (callRel_storeState h r _) (callRel_storeTick_zero _ r)
  cases add with
  | none => exact h2
  | some a => exact callRel_trans h2 (callRel_trans (callRel_storeState _ a _) (callRel_storeTick_zero _ a))

theorem callRel_switchResult (h g : HealthMgr) (res : SwitchValidator)
    (hs : h.switchResult res = some g) : CallRel h g := by
  rw [switchResult_eq] at hs
  have ha := callRel_afterPending h res
  split at hs
  · split at hs
    · cases hs
    · split at hs
      · split at hs
        · cases hs
          exact callRel_trans ha (callRel_applyResult _ _ _)
        · cases hs; exact ha
      · cases hs; exact ha
  · cases hs; exact ha

theorem callRel_updateBack (h : HealthMgr) (id : String) (l : List Ptr) :
    CallRel h (updateBack h id l) := by
  induction l with
  | nil => exact callRel_refl h
  | cons v vs ih =>
    unfold updateBack
    split
    · split
      · exact callRel_storeTick_zero h v
      · exact callRel_refl h
    · exact ih

theorem callRel_Update (h : HealthMgr) (id : String) : CallRel h (h.Update id) := by
  unfold Update
  split
  · split
    · exact callRel_storeTick_zero h _
    · exact callRel_updateBack h id _
  · exact callRel_updateBack h id _

theorem callRel_storeFirst (h : HealthMgr) (addr : List Nat) (flag : Int) (l : List Ptr) :
    CallRel h (storeFirst h addr flag l) := by
  induction l with
  | nil => exact callRel_refl h
  | cons v vs ih =>
    unfold storeFirst
    split
    · exact callRel_storeState h v flag
    · exact ih

theorem callRel_foldl {α : Type} (f : HealthMgr → α → HealthMgr)
    (hf : ∀ g a, CallRel g (f g a)) (l : List α) (h : HealthMgr) : CallRel h (l.foldl f h) := by
  induction l generalizing h with
  | nil => exact callRel_refl h
  | cons a as ih => exact callRel_trans (hf h a) (ih (f h a))

theorem checkSaveLoop_sublist (address : List Nat → List Nat) (mem : Ptr → Health)
    (members : List CommitteeMember) (i : Nat) (cur : List SwitchValidator) :
    (checkSaveLoop address mem members i cur).Sublist cur := by
  induction i generalizing cur with
  | zero => exact List.Sublist.refl _
  | succ i ih =>
    unfold checkSaveLoop
    split
    · exact ih cur
    · split
      · exact ih cur
      · split
        split
        · exact (ih _).trans (List.eraseIdx_sublist cur i)
        · exact ih cur

theorem callRel_checkSaveSwitchValidator (address : List Nat → List Nat) (h : HealthMgr)
    (members : List CommitteeMember) : CallRel h (checkSaveSwitchValidator address h members) :=
  ⟨fun _ => rfl, fun _ => rfl, fun _ => Or.inl rfl, checkSaveLoop_sublist _ _ _ _ _, rfl, rfl⟩

theorem callRel_UpdateFromCommittee (address : List Nat → List Nat) (h : HealthMgr)
    (member backMember : List CommitteeMember) :
    CallRel h (h.UpdateFromCommittee address member backMember) := by
  unfold UpdateFromCommittee
  refine callRel_trans (callRel_trans (callRel_foldl _ (fun g v => ?_) member h)
    (callRel_foldl _ (fun g v => ?_) backMember _))
    (callRel_checkSaveSwitchValidator _ _ _)
  · exact callRel_storeFirst _ _ _ _
  · split
    · exact callRel_storeFirst _ _ _ _
    · split
      · exact callRel_storeFirst _ _ _ _
      · exact callRel_refl g

theorem callRel_PutWorkHealth (h : HealthMgr) (he : Ptr) : CallRel h (h.PutWorkHealth he) :=
  ⟨fun _ => rfl, fun _ => rfl, fun _ => Or.inl rfl, List.Sublist.refl _, rfl, rfl⟩

theorem callRel_PutBackHealth (h : HealthMgr) (he : Option Ptr) :
    CallRel h (h.PutBackHealth he) := by
  unfold PutBackHealth
  split
  · split <;> exact ⟨fun _ => rfl, fun _ => rfl, fun _ => Or.inl rfl, List.Sublist.refl _, rfl, rfl⟩
  · exact callRel_refl h

theorem callRel_UpdataHealthInfo (h : HealthMgr) (id ip : String) (port : Nat) (pk : List Nat) :
    CallRel h (h.UpdataHealthInfo id ip port pk) := by
  unfold UpdataHealthInfo
  split
  · rename_i enter _
    split
    · refine ⟨fun q => ?_, fun q => ?_, fun q => Or.inl ?_, List.Sublist.refl _, rfl, rfl⟩ <;>
      · by_cases hq : q = enter
        · subst hq; simp
        · simp [Function.update_noteq hq]
    · exact callRel_refl h
  · exact callRel_refl h

end HealthMgr

/-! ## Sequences of calls -/

theorem step_cases (address : List Nat → List Nat) (h g : HealthMgr) (op : Op)
    (out : List SwitchValidator) (hs : step address h op = some (g, out)) :
    (op = Op.tick ∧ h.healthTick = some (g, out)) ∨ (CallRel h g ∧ out = []) := by
  cases op with
  | tick => exact Or.inl ⟨rfl, hs⟩
  | result res =>
    right
    simp only [step] at hs
    cases hr : h.switchResult res with
    | none => rw [hr] at hs; cases hs
    | some g' =>
      rw [hr] at hs
      simp only [Option.map_some', Option.some.injEq, Prod.mk.injEq] at hs
      rw [← hs.1, ← hs.2]
      exact ⟨HealthMgr.callRel_switchResult h g' res hr, rfl⟩
  | updateFromCommittee member backMember =>
    right
    simp only [step, Option.some.injEq, Prod.mk.injEq] at hs
    rw [← hs.1, ← hs.2]
    exact ⟨HealthMgr.callRel_UpdateFromCommittee address h member backMember, rfl⟩
  | update id =>
    right
    simp only [step, Option.some.injEq, Prod.mk.injEq] at hs
    rw [← hs.1, ← hs.2]
    exact ⟨HealthMgr.callRel_Update h id, rfl⟩
  | verifySwitch sv =>
    right
    simp only [step, Option.some.injEq, Prod.mk.injEq] at hs
    rw [← hs.1, ← hs.2]
    exact ⟨callRel_refl h, rfl⟩
  | putWorkHealth he =>
    right
    simp only [step, Option.some.injEq, Prod.mk.injEq] at hs
    rw [← hs.1, ← hs.2]
    exact ⟨HealthMgr.callRel_PutWorkHealth h he, rfl⟩
  | putBackHealth he =>
    right
    simp only [step, Option.some.injEq, Prod.mk.injEq] at hs
    rw [← hs.1, ← hs.2]
    exact ⟨HealthMgr.callRel_PutBackHealth h he, rfl⟩
  | updataHealthInfo id ip port pk =>
    right
    simp only [step, Option.some.injEq, Prod.mk.injEq] at hs
    rw [← hs.1, ← hs.2]
    exact ⟨HealthMgr.callRel_UpdataHealthInfo h id ip port pk, rfl⟩

theorem run_cons_some (address : List Nat → List Nat) (h : HealthMgr) (op : Op) (ops : List Op)
    (g : HealthMgr) (out : List SwitchValidator) (hr : run address h (op :: ops) = some (g, out)) :
    ∃ h1 o1 o2, step address h op = some (h1, o1) ∧ run address h1 ops = some (g, o2) ∧
      out = o1 ++ o2 := by
  unfold run at hr
  cases hc : step address h op with
  | none => rw [hc] at hr; cases hr
  | some r1 =>
    obtain ⟨h1, o1⟩ := r1
    rw [hc] at hr
    simp only [] at hr
    cases hl : run address h1 ops with
    | none => rw [hl] at hr; cases hr
    | some r2 =>
      obtain ⟨h2, o2⟩ := r2
      rw [hl] at hr
      simp only [Option.some.injEq, Prod.mk.injEq] at hr
      exact ⟨h1, o1, o2, rfl, by rw [← hr.1]; exact hl, hr.2.symm⟩

/-- A relation that holds of every permitted call, is reflexive and composes, holds of a
sequence of permitted calls. -/
theorem run_rel (address : List Nat → List Nat) (ok : Op → Prop)
    (R : HealthMgr → HealthMgr → List SwitchValidator → Prop)
    (hrefl : ∀ h, R h h [])
    (htrans : ∀ h h1 h2 o1 o2, R h h1 o1 → R h1 h2 o2 → R h h2 (o1 ++ o2))
    (hstep : ∀ h op g out, ok op → step address h op = some (g, out) → R h g out) :
    ∀ (ops : List Op) (h g : HealthMgr) (out : List SwitchValidator),
      (∀ op ∈ ops, ok op) → run address h ops = some (g, out) → R h g out := by
  intro ops
  induction ops with
  | nil =>
    intro h g out _ hr
    simp only [run, Option.some.injEq, Prod.mk.injEq] at hr
    rw [← hr.1, ← hr.2]
    exact hrefl h
  | cons op ops ih =>
    intro h g out hok hr
    obtain ⟨h1, o1, o2, hc, hl, ho⟩ := run_cons_some address h op ops g out hr
    rw [ho]
    exact htrans _ _ _ _ _ (hstep _ _ _ _ (hok op (List.mem_cons_self _ _)) hc)
      (ih _ _ _ (fun op' hop => hok op' (List.mem_cons_of_mem _ hop)) hl)

theorem step_pendingInv (address : List Nat → List Nat) (h g : HealthMgr) (op : Op)
    (out : List SwitchValidator) (hs : step address h op = some (g, out)) (hi : PendingInv h) :
    PendingInv g := by
  rcases step_cases address h g op out hs with ⟨_, ht⟩ | ⟨hc, _⟩
  · have hr := HealthMgr.healthTick_tickRel h g out ht
    exact ⟨(hr.pending hi.1).1, hr.atMostOne hi.2⟩
  · exact callRel_pendingInv hc hi

theorem run_pendingInv (address : List Nat → List Nat) (ops : List Op) (h g : HealthMgr)
    (out : List SwitchValidator) (hr : run address h ops = some (g, out)) (hi : PendingInv h) :
    PendingInv g :=
  run_rel address (fun _ => True) (fun h g _ => PendingInv h → PendingInv g)
    (fun _ hi => hi) (fun _ _ _ _ _ a b hi => b (a hi))
    (fun h op g out _ hs hi => step_pendingInv address h g op out hs hi)
    ops h g out (fun _ _ => trivial) hr hi

/-- The pending list of a reachable state is well formed and holds at most one proposal. -/
theorem reachable_pendingInv (h : HealthMgr) (hr : Reachable h) : PendingInv h := by
  obtain ⟨address, mem, cid, ops, out, hrun⟩ := hr
  refine run_pendingInv address ops _ h out hrun ⟨fun p hp => ?_, by simp [NewHealthMgr]⟩
  simp [NewHealthMgr] at hp

theorem healthTick_eq_tickState (h g : HealthMgr) (out : List SwitchValidator)
    (ht : h.healthTick = some (g, out)) : g = h.tickState ∧ out = h.tickSent := by
  simp [HealthMgr.tickState, HealthMgr.tickSent, ht]

/-! ## At most one pending proposal -/

/-- C5: in every reachable state the pending list holds at most one proposal (and the tick
step returns); a tick step that starts with a proposal pending sends no direction-0 proposal,
changes no record's state (so moves no record to Switching), does not advance the identifier
counter and keeps the pending list. -/
theorem pending_at_most_one (h : HealthMgr) :
    (Reachable h → h.curSwitch.length ≤ 1 ∧ ∃ h' out, h.healthTick = some (h', out))
    ∧ (∀ h' out, h.curSwitch ≠ [] → h.healthTick = some (h', out) →
        (∀ p ∈ out, p.From ≠ 0) ∧ (∀ q, (h'.mem q).State = (h.mem q).State)
          ∧ h'.uid = h.uid ∧ h'.curSwitch = h.curSwitch) := by
  constructor
  · intro hr
    have hi := reachable_pendingInv h hr
    exact ⟨hi.2, HealthMgr.healthTick_total h hi.1⟩
  · intro h' out hne ht
    obtain ⟨a, b⟩ := HealthMgr.work_noSwitch _ h h' out ht (Or.inr hne)
    refine ⟨fun p hp hf => ?_, a.state, a.uid, a.curSwitch⟩
    rw [b p hp] at hf
    exact absurd hf (by decide)

theorem scenario1Switched_reachable : Reachable scenario1Switched :=
  ⟨id, scenario1Mem 180, 7, scenario1Ops, (scenario1 180).tickSent, rfl⟩

theorem pending_at_most_one_witness :
    (scenario1Switched.curSwitch.length ≤ 1 ∧
      ∃ h' out, scenario1Switched.healthTick = some (h', out))
    ∧ ((∀ p ∈ scenario1Switched.tickSent, p.From ≠ 0)
        ∧ (∀ q, (scenario1Switched.tickState.mem q).State = (scenario1Switched.mem q).State)
        ∧ scenario1Switched.tickState.uid = scenario1Switched.uid
        ∧ scenario1Switched.tickState.curSwitch = scenario1Switched.curSwitch) :=
  ⟨(pending_at_most_one scenario1Switched).1 scenario1Switched_reachable,
    (pending_at_most_one scenario1Switched).2 scenario1Switched.tickState
      scenario1Switched.tickSent (by decide) rfl⟩

/-! ## Minimum committee -/

namespace HealthMgr

theorem countUsed_eq (mem : Ptr → Health) (l : List Ptr) :
    countUsed mem l = ((l.filter (fun v => decide ((mem v).State = StateUsedFlag))).length : Int) := by
  induction l with
  | nil => rfl
  | cons v vs ih =>
    by_cases hv : (mem v).State = StateUsedFlag
    · simp [countUsed, List.filter, hv, ih]; omega
    · simp [countUsed, List.filter, hv, ih]

/-- The count of `isShiftSV` is the number of `Used` records of the three roster parts. -/
theorem isShiftSV_count (h : HealthMgr) :
    h.isShiftSV.2 = (((h.Work.map Prod.snd ++ h.Back ++ h.seed).filter
      (fun v => decide ((h.mem v).State = StateUsedFlag))).length : Int) := by
  simp only [isShiftSV, countUsed_eq, List.filter_append, List.length_append]
  push_cast
  ring

theorem isShiftSV_fst (h : HealthMgr) : h.isShiftSV.1 = decide (h.isShiftSV.2 > 2) := by
  simp [isShiftSV, MixValidator]

end HealthMgr

/-- C6: if at the start of a tick step at most 2 records across working, backup and seed have
state Used, then `isShiftSV` returns false and the tick step sends no direction-0 proposal and
changes no record's state (so moves no record to Switching), whatever the ticks are; the step
returns whenever the pending list is well formed. -/
theorem no_switch_at_minimum_committee (h : HealthMgr)
    (hmin : ((h.Work.map Prod.snd ++ h.Back ++ h.seed).filter
      (fun v => decide ((h.mem v).State = StateUsedFlag))).length ≤ 2) :
    h.isShiftSV.1 = false
    ∧ (PendingOK h → ∃ h' out, h.healthTick = some (h', out))
    ∧ ∀ h' out, h.healthTick = some (h', out) →
        (∀ p ∈ out, p.From ≠ 0) ∧ (∀ q, (h'.mem q).State = (h.mem q).State)
          ∧ h'.curSwitch = h.curSwitch := by
  have hs : h.isShiftSV.1 = false := by
    rw [HealthMgr.isShiftSV_fst, HealthMgr.isShiftSV_count]
    simp only [gt_iff_lt, decide_eq_false_iff_not, not_lt]
    exact_mod_cast hmin
  refine ⟨hs, HealthMgr.healthTick_total h, fun h' out ht => ?_⟩
  have ht' : h.work h.isShiftSV.1 = some (h', out) := ht
  rw [hs] at ht'
  obtain ⟨a, b⟩ := HealthMgr.work_noSwitch _ h h' out ht' (Or.inl rfl)
  refine ⟨fun p hp hf => ?_, a.state, a.curSwitch⟩
  rw [b p hp] at hf
  exact absurd hf (by decide)

theorem no_switch_at_minimum_committee_witness :
    scenario3.isShiftSV.1 = false
    ∧ ((scenario3.mem 0).Tick = 1000 ∧ scenario3.healthTick = some (scenario3.tickState, []))
    ∧ ((∀ p ∈ scenario3.tickSent, p.From ≠ 0)
        ∧ (∀ q, (scenario3.tickState.mem q).State = (scenario3.mem q).State)
        ∧ scenario3.tickState.curSwitch = scenario3.curSwitch) :=
  ⟨(no_switch_at_minimum_committee scenario3 (by decide)).1, ⟨by decide, rfl⟩,
    (no_switch_at_minimum_committee scenario3 (by decide)).2.2 scenario3.tickState
      scenario3.tickSent rfl⟩

/-! ## Fixed records and the local node -/

theorem runRel_refl (h : HealthMgr) : RunRel h h [] :=
  ⟨fun _ => rfl, fun _ => rfl, fun _ _ => Or.inl rfl, (fun _ hp => by cases hp),
    (fun hi => ⟨hi, (fun _ hq => by cases hq)⟩)⟩

theorem runRel_trans {h h1 h2 : HealthMgr} {o1 o2 : List SwitchValidator}
    (a : RunRel h h1 o1) (b : RunRel h1 h2 o2) : RunRel h h2 (o1 ++ o2) := by
  refine ⟨fun q => (b.htype q).trans (a.htype q), fun q => (b.self q).trans (a.self q), ?_, ?_, ?_⟩
  · intro q hq
    rcases b.fixedTick q (by rw [a.htype q]; exact hq) with hb | hb
    · rw [hb]; exact a.fixedTick q hq
    · exact Or.inr hb
  · intro p hp hf
    rcases List.mem_append.mp hp with hp | hp
    · exact a.request p hp hf
    · obtain ⟨r, h1', h2', h3'⟩ := b.request p hp hf
      exact ⟨r, h1', by rw [← a.htype r]; exact h2', by rw [← a.self r]; exact h3'⟩
  · intro hpend
    obtain ⟨pa, oa⟩ := a.pending hpend
    obtain ⟨pb, ob⟩ := b.pending pa
    refine ⟨pb, fun p hp => ?_⟩
    rcases List.mem_append.mp hp with hp | hp
    · exact oa p hp
    · obtain ⟨r, h1', h2', h3'⟩ := ob p hp
      exact ⟨r, h1', by rw [← a.self r]; exact h2', by rw [← a.htype r]; exact h3'⟩

theorem step_runRel (address : List Nat → List Nat) (h g : HealthMgr) (op : Op)
    (out : List SwitchValidator) (hs : step address h op = some (g, out)) : RunRel h g out := by
  rcases step_cases address h g op out hs with ⟨_, ht⟩ | ⟨hc, ho⟩
  · have hr := HealthMgr.healthTick_tickRel h g out ht
    exact ⟨hr.roster.htype, hr.roster.self, fun q hq => Or.inl (hr.fixedTick q hq), hr.request,
      fun hi => ⟨⟨(hr.pending hi.1).1, hr.atMostOne hi.2⟩, (hr.pending hi.1).2⟩⟩
  · rw [ho]
    exact ⟨hc.htype, hc.self, fun q _ => hc.tick q, (fun _ hp => by cases hp),
      (fun hi => ⟨callRel_pendingInv hc hi, (fun _ hq => by cases hq)⟩)⟩

theorem run_runRel (address : List Nat → List Nat) (ops : List Op) (h g : HealthMgr)
    (out : List SwitchValidator) (hr : run address h ops = some (g, out)) : RunRel h g out :=
  run_rel address (fun _ => True) RunRel runRel_refl (fun _ _ _ _ _ a b => runRel_trans a b)
    (fun h op g out _ hs => step_runRel address h g op out hs) ops h g out
    (fun _ _ => trivial) hr

namespace HealthMgr

theorem updateBack_cases (h : HealthMgr) (id : String) (l : List Ptr) :
    updateBack h id l = h ∨
      ∃ v, v ∈ l ∧ (h.mem v).ID = id ∧ (h.mem v).HType ≠ TypeFixed ∧
        updateBack h id l = h.storeTick v 0 := by
  induction l with
  | nil => exact Or.inl rfl
  | cons v vs ih =>
    unfold updateBack
    split
    · rename_i hid
      split
      · rename_i ht
        exact Or.inr ⟨v, List.mem_cons_self _ _, hid, ht, rfl⟩
      · exact Or.inl rfl
    · rcases ih with ih | ⟨w, hw, h1, h2, h3⟩
      · exact Or.inl ih
      · exact Or.inr ⟨w, List.mem_cons_of_mem _ hw, h1, h2, h3⟩

/-- The function `Update` stores a zero tick into at most one record, which is not fixed. -/
theorem Update_cases (h : HealthMgr) (id : String) :
    h.Update id = h ∨ ∃ v, (h.mem v).HType ≠ TypeFixed ∧ h.Update id = h.storeTick v 0 := by
  unfold Update
  split
  · split
    · rename_i v _ ht
      exact Or.inr ⟨v, ht, rfl⟩
    · rcases updateBack_cases h id h.Back with hb | ⟨w, _, _, h2, h3⟩
      · exact Or.inl hb
      · exact Or.inr ⟨w, h2, h3⟩
  · rcases updateBack_cases h id h.Back with hb | ⟨w, _, _, h2, h3⟩
    · exact Or.inl hb
    · exact Or.inr ⟨w, h2, h3⟩

theorem Update_fixed_tick (h : HealthMgr) (id : String) (q : Ptr)
    (hq : (h.mem q).HType = TypeFixed) : ((h.Update id).mem q).Tick = (h.mem q).Tick := by
  rcases Update_cases h id with hu | ⟨v, hv, hu⟩
  · rw [hu]
  · rw [hu, storeTick_Tick]
    have : q ≠ v := by
      intro e; rw [e] at hq; exact hv hq
    simp [this]

end HealthMgr

/-- Over tick steps and `Update` calls a fixed record keeps its tick. -/
theorem run_fixed_tick (address : List Nat → List Nat) (ops : List Op) (h g : HealthMgr)
    (out : List SwitchValidator) (hok : ∀ op ∈ ops, op.isTickOrUpdate = true)
    (hr : run address h ops = some (g, out)) :
    (∀ q, (g.mem q).HType = (h.mem q).HType) ∧
      ∀ q, (h.mem q).HType = TypeFixed → (g.mem q).Tick = (h.mem q).Tick := by
  refine run_rel address (fun op => op.isTickOrUpdate = true)
    (fun h g _ => (∀ q, (g.mem q).HType = (h.mem q).HType) ∧
      ∀ q, (h.mem q).HType = TypeFixed → (g.mem q).Tick = (h.mem q).Tick)
    (fun _ => ⟨fun _ => rfl, fun _ _ => rfl⟩) ?_ ?_ ops h g out hok hr
  · intro h h1 h2 o1 o2 a b
    refine ⟨fun q => (b.1 q).trans (a.1 q), fun q hq => ?_⟩
    rw [b.2 q (by rw [a.1 q]; exact hq), a.2 q hq]
  · intro h op g out hop hs
    cases op with
    | tick =>
      have hr := HealthMgr.healthTick_tickRel h g out hs
      exact ⟨hr.roster.htype, hr.fixedTick⟩
    | update id =>
      simp only [step, Option.some.injEq, Prod.mk.injEq] at hs
      rw [← hs.1]
      exact ⟨(HealthMgr.callRel_Update h id).htype, HealthMgr.Update_fixed_tick h id⟩
    | result res => simp [Op.isTickOrUpdate] at hop
    | updateFromCommittee m b => simp [Op.isTickOrUpdate] at hop
    | verifySwitch sv => simp [Op.isTickOrUpdate] at hop
    | putWorkHealth he => simp [Op.isTickOrUpdate] at hop
    | putBackHealth he => simp [Op.isTickOrUpdate] at hop
    | updataHealthInfo id ip port pk => simp [Op.isTickOrUpdate] at hop

/-- C7: for a record of role Fixed, over any sequence of tick steps and `Update` calls the tick
is unchanged, and over any sequence of calls a tick of 0 stays 0; every direction-0 proposal sent
by the tick loop names as `remove` a record that is not fixed (and, from a state whose pending
list is well formed, so does every proposal sent). -/
theorem fixed_record_never_ticks (address : List Nat → List Nat) (h g : HealthMgr)
    (ops : List Op) (out : List SwitchValidator) (q : Ptr)
    (hq : (h.mem q).HType = TypeFixed) (hrun : run address h ops = some (g, out)) :
    ((∀ op ∈ ops, op.isTickOrUpdate = true) → (g.mem q).Tick = (h.mem q).Tick)
    ∧ ((h.mem q).Tick = 0 → (g.mem q).Tick = 0)
    ∧ (∀ p ∈ out, p.From = 0 → ∃ r, p.Remove = some r ∧ (g.mem r).HType ≠ TypeFixed)
    ∧ (PendingInv h → ∀ p ∈ out, ∃ r, p.Remove = some r ∧ (g.mem r).HType ≠ TypeFixed) := by
  have hr := run_runRel address ops h g out hrun
  refine ⟨fun hok => (run_fixed_tick address ops h g out hok hrun).2 q hq, fun h0 => ?_,
    fun p hp hf => ?_, fun hi p hp => ?_⟩
  · rcases hr.fixedTick q hq with ht | ht
    · rw [ht, h0]
    · exact ht
  · obtain ⟨r, h1, h2, _⟩ := hr.request p hp hf
    exact ⟨r, h1, by rw [hr.htype]; exact h2⟩
  · obtain ⟨r, h1, _, h2⟩ := (hr.pending hi).2 p hp
    exact ⟨r, h1, by rw [hr.htype]; exact h2⟩

/-! ## The local node is never removed -/

/-- C8: in every reachable state the tick step returns, and every proposal it sends, a
direction-0 switch as well as a direction-1 restore copy of the pending proposal, has a `remove`
record whose self flag is false. -/
theorem emitted_remove_is_not_self (h : HealthMgr) (hreach : Reachable h) :
    (∃ h' out, h.healthTick = some (h', out))
    ∧ ∀ h' out, h.healthTick = some (h', out) →
        ∀ p ∈ out, ∃ r, p.Remove = some r ∧ (h'.mem r).Self = false := by
  have hi := reachable_pendingInv h hreach
  refine ⟨HealthMgr.healthTick_total h hi.1, fun h' out ht p hp => ?_⟩
  have hr := HealthMgr.healthTick_tickRel h h' out ht
  obtain ⟨r, h1, h2, _⟩ := (hr.pending hi.1).2 p hp
  exact ⟨r, h1, by rw [hr.roster.self]; exact h2⟩
theorem fixed_record_never_ticks_witness :
    ((runState id scenario4 scenario4Ops).mem 2).Tick = 0 ∧
    (∀ p ∈ runSent id scenario4 scenario4Ops, p.From = 0 →
      ∃ r, p.Remove = some r ∧ ((runState id scenario4 scenario4Ops).mem r).HType ≠ TypeFixed) :=
  have hw := fixed_record_never_ticks id scenario4 (runState id scenario4 scenario4Ops)
    scenario4Ops (runSent id scenario4 scenario4Ops) 2 rfl rfl
  ⟨hw.2.1 rfl, hw.2.2.1⟩

theorem scenario1_reachable : Reachable (scenario1 180) :=
  ⟨id, scenario1Mem 180, 7, scenario1Ops.take 5, [], rfl⟩

theorem emitted_remove_is_not_self_witness :
    (scenario1 180).tickSent.length = 1 ∧
    ∀ p ∈ (scenario1 180).tickSent,
      ∃ r, p.Remove = some r ∧ ((scenario1 180).tickState.mem r).Self = false :=
  ⟨by decide, (emitted_remove_is_not_self (scenario1 180) scenario1_reachable).2
    (scenario1 180).tickState (scenario1 180).tickSent rfl⟩

/-! ## Proposal identifiers -/

theorem uidAfter_add (n k u : Nat) : uidAfter k (uidAfter n u) = uidAfter (n + k) u := by
  induction n generalizing u with
  | zero => simp [uidAfter]
  | succ n ih =>
    rw [Nat.add_right_comm]
    simp only [uidAfter]
    exact ih _

theorem uidAfter_eq (n u : Nat) (hu : u < 2 ^ 64) : uidAfter n u = (u + n) % 2 ^ 64 := by
  induction n generalizing u with
  | zero => simp only [uidAfter, Nat.add_zero]; exact (Nat.mod_eq_of_lt hu).symm
  | succ n ih =>
    simp only [uidAfter]
    rw [ih _ (Nat.mod_lt _ (by norm_num))]
    omega

theorem built_append (o1 o2 : List SwitchValidator) : built (o1 ++ o2) = built o1 ++ built o2 := by
  simp [built]

theorem uidRel_refl (h : HealthMgr) : UidRel h h [] := by
  simp [UidRel, built, uidAfter]

theorem uidRel_trans {h h1 h2 : HealthMgr} {o1 o2 : List SwitchValidator}
    (a : UidRel h h1 o1) (b : UidRel h1 h2 o2) : UidRel h h2 (o1 ++ o2) := by
  obtain ⟨a1, a2⟩ := a
  obtain ⟨b1, b2⟩ := b
  constructor
  · rw [built_append, List.map_append, List.length_append, List.range_add, List.map_append, a1, b1,
      List.map_map]
    congr 1
    apply List.map_congr_left
    intro k _
    simp only [Function.comp]
    rw [a2, uidAfter_add]
  · rw [built_append, List.length_append, b2, a2, uidAfter_add]

namespace HealthMgr

theorem checkSwitchValidator_uidRel (s : Bool) (h : HealthMgr) (v : Ptr) (h1 : HealthMgr)
    (o1 : List SwitchValidator) (hch : h.checkSwitchValidator v s = some (h1, o1)) :
    UidRel h h1 o1 := by
  rcases checkSwitchValidator_cases h v s h1 o1 hch with ⟨_, e1, e2⟩ | ⟨_, _, e1, e2⟩ |
    ⟨_, _, _, _, e1, e2⟩
  · rw [e1, e2]
    exact uidRel_refl h
  · have hb : built o1 = [] := by
      unfold built
      rw [List.filter_eq_nil_iff]
      intro p hp
      obtain ⟨sv0, r, _, hp', _⟩ := restoreOut_mem _ _ p e2 hp
      rw [hp']
      simp
    rw [e1]
    simp [UidRel, hb, uidAfter, bumped]
  · rw [e1, e2]
    simp [UidRel, built, switchProposal, switchState, uidAfter, List.range_succ]

theorem healthTick_uidRel (h h' : HealthMgr) (out : List SwitchValidator)
    (hw : h.healthTick = some (h', out)) : UidRel h h' out :=
  work_rel _ UidRel uidRel_refl (fun _ _ _ _ _ a b => uidRel_trans a b)
    (fun h v h1 o1 hch => checkSwitchValidator_uidRel _ h v h1 o1 hch) h h' out hw

end HealthMgr

theorem run_uidRel (address : List Nat → List Nat) (ops : List Op) (h g : HealthMgr)
    (out : List SwitchValidator) (hr : run address h ops = some (g, out)) : UidRel h g out := by
  refine run_rel address (fun _ => True) UidRel uidRel_refl (fun _ _ _ _ _ a b =>
    uidRel_trans a b)
    (fun h op g out _ hs => ?_) ops h g out (fun _ _ => trivial) hr
  rcases step_cases address h g op out hs with ⟨_, ht⟩ | ⟨hc, ho⟩
  · exact HealthMgr.healthTick_uidRel h g out ht
  · rw [ho]
    simp [UidRel, built, uidAfter, hc.uid]

theorem newHealthMgr_uid_lt (mem : Ptr → Health) (cid : Nat) :
    (NewHealthMgr mem cid).uid < 2 ^ 64 := by
  simp only [NewHealthMgr]
  exact Nat.or_lt_two_pow (Nat.mod_lt _ (by norm_num)) (by norm_num)

/-- C9: for a manager created with `NewHealthMgr(cid)` and any sequence of calls, the `k`-th
direction-0 proposal built (`k = 0, 1, ...`) has ID `((cid << 32) | 100) + k` modulo `2^64`, and
the next call of `makeSwitchValidators` returns the ID following those already built; as long as
the 64-bit counter does not wrap, the IDs are exactly `((cid << 32) | 100) + k` and strictly
increasing. -/
theorem proposal_ids_count_up (address : List Nat → List Nat) (mem : Ptr → Health) (cid : Nat)
    (ops : List Op) (h : HealthMgr) (out : List SwitchValidator)
    (hrun : run address (NewHealthMgr mem cid) ops = some (h, out)) :
    (∀ k (hk : k < (built out).length),
        ((built out).get ⟨k, hk⟩).ID = ((((cid <<< 32) % 2 ^ 64) ||| 100) + k) % 2 ^ 64)
    ∧ (∀ remove add resion frm sv h',
        h.makeSwitchValidators (some remove) add resion frm = some (sv, h') →
          sv.ID = ((((cid <<< 32) % 2 ^ 64) ||| 100) + (built out).length) % 2 ^ 64)
    ∧ ((((cid <<< 32) % 2 ^ 64) ||| 100) + (built out).length ≤ 2 ^ 64 →
        (∀ k (hk : k < (built out).length),
          ((built out).get ⟨k, hk⟩).ID = (((cid <<< 32) % 2 ^ 64) ||| 100) + k)
        ∧ ∀ i j (hi : i < (built out).length) (hj : j < (built out).length), i < j →
          ((built out).get ⟨i, hi⟩).ID < ((built out).get ⟨j, hj⟩).ID) := by
  have hlt := newHealthMgr_uid_lt mem cid
  obtain ⟨r1, r2⟩ := run_uidRel address ops _ h out hrun
  have hbase : (NewHealthMgr mem cid).uid = ((cid <<< 32) % 2 ^ 64) ||| 100 := rfl
  rw [hbase] at r1 r2 hlt
  have hid : ∀ k (hk : k < (built out).length),
      ((built out).get ⟨k, hk⟩).ID = ((((cid <<< 32) % 2 ^ 64) ||| 100) + k) % 2 ^ 64 := by
    intro k hk
    have h1 : ((built out).map (fun p => p.ID))[k]? = some ((built out).get ⟨k, hk⟩).ID := by
      simp [List.getElem?_map, List.getElem?_eq_getElem hk]
    rw [r1] at h1
    simp only [List.getElem?_map, List.getElem?_range hk, Option.map_some', Option.some.injEq] at h1
    rw [← h1, uidAfter_eq _ _ hlt]
  refine ⟨hid, ?_, ?_⟩
  · intro remove add resion frm sv h' hm
    rw [HealthMgr.makeSwitchValidators_eq] at hm
    simp only [Option.some.injEq, Prod.mk.injEq] at hm
    rw [← hm.1]
    simp only []
    rw [r2, uidAfter_eq _ _ hlt]
  · intro hle
    have hid' : ∀ k (hk : k < (built out).length),
        ((built out).get ⟨k, hk⟩).ID = (((cid <<< 32) % 2 ^ 64) ||| 100) + k := by
      intro k hk
      rw [hid k hk]
      exact Nat.mod_eq_of_lt (by omega)
    refine ⟨hid', fun i j hi hj hij => ?_⟩
    rw [hid' i hi, hid' j hj]
    omega

theorem proposal_ids_count_up_witness :
    (∀ k (hk : k < (built (runSent id (NewHealthMgr (scenario1Mem 180) 7) scenario1Ops)).length),
        ((built (runSent id (NewHealthMgr (scenario1Mem 180) 7) scenario1Ops)).get ⟨k, hk⟩).ID =
          ((((7 <<< 32) % 2 ^ 64) ||| 100) + k) % 2 ^ 64)
    ∧ (built (runSent id (NewHealthMgr (scenario1Mem 180) 7) scenario1Ops)).length = 1 :=
  ⟨(proposal_ids_count_up id (scenario1Mem 180) 7 scenario1Ops
      (runState id (NewHealthMgr (scenario1Mem 180) 7) scenario1Ops)
      (runSent id (NewHealthMgr (scenario1Mem 180) 7) scenario1Ops) rfl).1, by decide⟩

/-! ## The switch threshold -/

theorem wrapInt32_succ (t : Int) (h1 : -2 ^ 31 ≤ t) (h2 : t < 2 ^ 31 - 1) :
    wrapInt32 (t + 1) = t + 1 := by
  unfold wrapInt32
  omega

namespace HealthMgr

theorem workLoop_append (s : Bool) (xs ys : List Ptr) (h h1 h2 : HealthMgr)
    (o1 o2 : List SwitchValidator) (hx : workLoop s h xs = some (h1, o1))
    (hy : workLoop s h1 ys = some (h2, o2)) :
    workLoop s h (xs ++ ys) = some (h2, o1 ++ o2) := by
  induction xs generalizing h o1 with
  | nil =>
    simp only [workLoop, Option.some.injEq, Prod.mk.injEq] at hx
    rw [hx.1, ← hx.2]
    simpa using hy
  | cons v vs ih =>
    obtain ⟨ha, oa, ob, hc, hl, ho⟩ := workLoop_cons_some s h v vs h1 o1 hx
    have := ih ha ob hl
    rw [ho, List.cons_append, List.append_assoc]
    unfold workLoop
    rw [hc]
    simp only []
    rw [this]

theorem restoreOut_idle (h : HealthMgr) (hi : RestoreIdle h) : h.restoreOut = some [] := by
  unfold restoreOut
  rw [getCurSV_eq]
  rcases hi with hc | ⟨sv0, r, hh, hr, ht, _⟩
  · rw [hc]; rfl
  · rw [hh]
    simp only [hr]
    rw [if_neg (by intro hh'; exact absurd hh'.1 (not_lt.mpr ht))]

theorem restoreIdle_bumped (h : HealthMgr) (v : Ptr) (hv : h.ticking v) (hi : RestoreIdle h) :
    RestoreIdle (h.bumped v) := by
  rcases hi with hc | ⟨sv0, r, hh, hr, ht, hs⟩
  · exact Or.inl (by simpa [bumped] using hc)
  · right
    have hrv : r ≠ v := by
      intro e; rw [e] at hs; exact hs hv.1
    exact ⟨sv0, r, by simpa [bumped] using hh, hr, by simpa [bumped, storeTick_Tick, hrv] using ht,
      by simpa [bumped] using hs⟩

/-- A counted record below the threshold only ticks when the restore path is idle. -/
theorem checkSwitchValidator_quiet (s : Bool) (h : HealthMgr) (v : Ptr) (hv : h.ticking v)
    (h1 : -2 ^ 31 ≤ (h.mem v).Tick) (h2 : (h.mem v).Tick < HealthOut) (hi : RestoreIdle h) :
    h.checkSwitchValidator v s = some (h.bumped v, []) := by
  have hw : wrapInt32 ((h.mem v).Tick + 1) = (h.mem v).Tick + 1 :=
    wrapInt32_succ _ h1 (by unfold HealthOut at h2; omega)
  rw [checkSwitchValidator_noswitch h v s hv (Or.inr (Or.inl (by rw [hw]; omega))),
    restoreOut_idle _ (restoreIdle_bumped h v hv hi)]
  rfl

/-- A loop of `work` over pairwise distinct counted records below the threshold sends nothing
and adds one to each of their ticks. -/
theorem workLoop_quiet (s : Bool) : ∀ (vs : List Ptr) (h : HealthMgr), vs.Nodup →
    (∀ v ∈ vs, h.ticking v ∧ -2 ^ 31 ≤ (h.mem v).Tick ∧ (h.mem v).Tick < HealthOut) →
    RestoreIdle h →
    ∃ h', workLoop s h vs = some (h', []) ∧ SameButTicks h h' ∧ RestoreIdle h' ∧
      (∀ q, q ∉ vs → (h'.mem q).Tick = (h.mem q).Tick) ∧
      (∀ q, q ∈ vs → (h'.mem q).Tick = (h.mem q).Tick + 1) := by
  intro vs
  induction vs with
  | nil =>
    intro h _ _ hi
    exact ⟨h, rfl, sameButTicks_refl h, hi, fun _ _ => rfl, fun _ hq => by cases hq⟩
  | cons v vs ih =>
    intro h hnd hall hi
    obtain ⟨hv, hv1, hv2⟩ := hall v (List.mem_cons_self _ _)
    have hvn : v ∉ vs := (List.nodup_cons.mp hnd).1
    have hc := checkSwitchValidator_quiet s h v hv hv1 hv2 hi
    have hw : wrapInt32 ((h.mem v).Tick + 1) = (h.mem v).Tick + 1 :=
      wrapInt32_succ _ hv1 (by unfold HealthOut at hv2; omega)
    have hsb := sameButTicks_bumped h v
    have hbt : ∀ q, q ≠ v → ((h.bumped v).mem q).Tick = (h.mem q).Tick := by
      intro q hq
      simp [bumped, storeTick_Tick, hq]
    have hall' : ∀ w ∈ vs, (h.bumped v).ticking w ∧ -2 ^ 31 ≤ ((h.bumped v).mem w).Tick ∧
        ((h.bumped v).mem w).Tick < HealthOut := by
      intro w hw'
      have hwv : w ≠ v := by
        intro e; rw [e] at hw'; exact hvn hw'
      obtain ⟨a1, a2, a3⟩ := hall w (List.mem_cons_of_mem _ hw')
      refine ⟨?_, by rw [hbt w hwv]; exact a2, by rw [hbt w hwv]; exact a3⟩
      unfold ticking at a1 ⊢
      rw [hsb.state, hsb.roster.htype, hsb.roster.self]
      exact a1
    obtain ⟨h', hl, hsb', hi', hout, hin⟩ :=
      ih (h.bumped v) (List.nodup_cons.mp hnd).2 hall' (restoreIdle_bumped h v hv hi)
    refine ⟨h', by simp [workLoop, hc, hl], sameButTicks_trans hsb hsb', hi', fun q hq => ?_, fun q hq => ?_⟩
    · have hqv : q ≠ v := fun e => hq (by rw [e]; exact List.mem_cons_self _ _)
      have hqvs : q ∉ vs := fun e => hq (List.mem_cons_of_mem _ e)
      rw [hout q hqvs, hbt q hqv]
    · rcases List.mem_cons.mp hq with e | e
      · rw [e, hout v hvn]
        simp [bumped, hw]
      · have hqv : q ≠ v := by
          intro e'; rw [e'] at e; exact hvn e
        rw [hin q e, hbt q hqv]

theorem workLoop_skip_single (s : Bool) (h : HealthMgr) (e : Ptr) (he : ¬ h.ticking e) :
    workLoop s h [e] = some (h, []) := by
  simp [workLoop, checkSwitchValidator_skip h e s he]

theorem work_of_loops (s : Bool) (h h1 h2 : HealthMgr) (o1 o2 : List SwitchValidator)
    (hx : workLoop s h (h.Work.map Prod.snd) = some (h1, o1))
    (hy : workLoop s h1 h1.Back = some (h2, o2)) : h.work s = some (h2, o1 ++ o2) := by
  unfold work
  simp only [EnableHealthMgr, Bool.not_true, Bool.false_eq_true, if_false]
  rw [hx]
  simp only []
  rw [hy]

/-- With every working record `Used` and at least three of them, the shift flag is set. -/
theorem isShiftSV_of_working (h : HealthMgr) (hsize : 3 ≤ h.Work.length)
    (hw : ∀ v ∈ h.Work.map Prod.snd, h.ticking v) : h.isShiftSV.1 = true := by
  rw [isShiftSV_fst, isShiftSV_count]
  have hf : (h.Work.map Prod.snd).filter (fun v => decide ((h.mem v).State = StateUsedFlag)) =
      h.Work.map Prod.snd := by
    rw [List.filter_eq_self]
    intro v hv
    simpa using (hw v hv).1
  simp only [List.filter_append, List.length_append, hf, List.length_map, gt_iff_lt,
    decide_eq_true_eq]
  push_cast
  omega

/-- A tick step of Scenario 1 while every working record is below the threshold. -/
theorem healthTick_quiet (h : HealthMgr) (a e : Ptr) (ka : String) (t : Int)
    (hs : Scenario1Shape h a e ka t) (hb : OthersBelow h a) (ht1 : -2 ^ 31 ≤ t)
    (ht2 : t < HealthOut) :
    ∃ h', h.healthTick = some (h', []) ∧ Scenario1Shape h' a e ka (t + 1) := by
  have hall : ∀ v ∈ h.Work.map Prod.snd,
      h.ticking v ∧ -2 ^ 31 ≤ (h.mem v).Tick ∧ (h.mem v).Tick < HealthOut := by
    intro v hv
    refine ⟨hs.working v hv, ?_⟩
    by_cases hva : v = a
    · rw [hva, hs.atick]; exact ⟨ht1, ht2⟩
    · exact hb v hv hva
  obtain ⟨h1, hl, hsb, _, _, hin⟩ :=
    workLoop_quiet h.isShiftSV.1 _ h hs.nodup hall (Or.inl hs.nopending)
  have hne : ¬ h1.ticking e := by
    intro he
    have := he.1
    rw [hsb.state, hs.eunused] at this
    exact absurd this (by decide)
  have hback : workLoop h.isShiftSV.1 h1 h1.Back = some (h1, []) := by
    rw [hsb.roster.back, hs.back]
    exact workLoop_skip_single _ h1 e hne
  refine ⟨h1, work_of_loops _ h h1 h1 [] [] hl hback, ?_⟩
  refine ⟨by rw [hsb.roster.work]; exact hs.nodup, by rw [hsb.roster.work]; exact hs.size,
    by rw [hsb.roster.work]; exact hs.amem, by rw [hsb.roster.work]; exact hs.akey, ?_,
    by rw [hsb.roster.back]; exact hs.back, by rw [hsb.roster.seed]; exact hs.seed,
    by rw [hsb.roster.work]; exact hs.enotin, by rw [hsb.state]; exact hs.eunused,
    by rw [hsb.curSwitch]; exact hs.nopending, by rw [hin a hs.amem, hs.atick]⟩
  intro v hv
  rw [hsb.roster.work] at hv
  have := hs.working v hv
  unfold ticking at this ⊢
  rw [hsb.state, hsb.roster.htype, hsb.roster.self]
  exact this

/-- The tick step of Scenario 1 at which the silent record crosses the threshold. -/
theorem healthTick_trigger (h : HealthMgr) (a e : Ptr) (ka : String)
    (hs : Scenario1Shape h a e ka 180) (hb : OthersBelow h a) :
    ∃ h' p, h.healthTick = some (h', [p]) ∧ p.From = 0 ∧ p.Remove = some a ∧ p.Add = some e ∧
      h'.curSwitch = [p] ∧ (h'.mem a).State = StateSwitchingFlag ∧
      (h'.mem e).State = StateSwitchingFlag := by
  have hshift := isShiftSV_of_working h hs.size hs.working
  have hae : a ≠ e := fun e' => hs.enotin (e' ▸ hs.amem)
  obtain ⟨pre, post, hsplit⟩ := List.append_of_mem hs.amem
  have hnd := hs.nodup
  rw [hsplit] at hnd
  have hnd' := List.nodup_middle.mp hnd
  obtain ⟨hanot, hnd2⟩ := List.nodup_cons.mp hnd'
  have hndpre : pre.Nodup := (List.nodup_append.mp hnd2).1
  have hndpost : post.Nodup := (List.nodup_append.mp hnd2).2.1
  have hdisj := (List.nodup_append.mp hnd2).2.2
  have hapre : a ∉ pre := fun hh => hanot (List.mem_append_left _ hh)
  have hapost : a ∉ post := fun hh => hanot (List.mem_append_right _ hh)
  have hmempre : ∀ v ∈ pre, v ∈ h.Work.map Prod.snd := by
    intro v hv; rw [hsplit]; exact List.mem_append_left _ hv
  have hmempost : ∀ v ∈ post, v ∈ h.Work.map Prod.snd := by
    intro v hv; rw [hsplit]; exact List.mem_append_right _ (List.mem_cons_of_mem _ hv)
  -- the records before `a`
  have hallpre : ∀ v ∈ pre,
      h.ticking v ∧ -2 ^ 31 ≤ (h.mem v).Tick ∧ (h.mem v).Tick < HealthOut := by
    intro v hv
    have hva : v ≠ a := fun e' => hapre (e' ▸ hv)
    exact ⟨hs.working v (hmempre v hv), hb v (hmempre v hv) hva⟩
  obtain ⟨h1, hl1, hsb1, _, hout1, _⟩ :=
    workLoop_quiet h.isShiftSV.1 pre h hndpre hallpre (Or.inl hs.nopending)
  -- the record `a`
  have hta : h1.ticking a := by
    have := hs.working a hs.amem
    unfold ticking at this ⊢
    rw [hsb1.state, hsb1.roster.htype, hsb1.roster.self]
    exact this
  have htick1 : (h1.mem a).Tick = 180 := by rw [hout1 a hapre, hs.atick]
  have hwrap : wrapInt32 ((h1.mem a).Tick + 1) = 181 := by
    rw [htick1]; decide
  have hc := checkSwitchValidator_switch h1 a h.isShiftSV.1 hta hshift
    (by rw [hwrap]; decide) (by rw [hsb1.curSwitch]; exact hs.nopending)
  have hbackb : (h1.bumped a).Back = [e] := by
    simp [bumped, hsb1.roster.back, hs.back]
  have heb : ((h1.bumped a).mem e).State = StateUnusedFlag := by
    simp [bumped, hsb1.state, hs.eunused]
  have hpick1 : (h1.bumped a).pickUnuseValidator.1 = some e := by
    rw [pickUnuseValidator_fst, hbackb]
    simp [List.find?, heb]
  have hpick2 : (h1.bumped a).pickUnuseValidator.2 =
      (h1.bumped a).storeState e StateSwitchingFlag := by
    rw [pickUnuseValidator_snd, hpick1]
  have hst2 : ∀ q, ((h1.switchState a).mem q).State =
      if q = a then StateSwitchingFlag else if q = e then StateSwitchingFlag
      else (h.mem q).State := by
    intro q
    simp only [switchState, hpick2]
    rw [storeState_State]
    split
    · rfl
    · rw [storeState_State]
      split
      · rfl
      · simp [bumped, hsb1.state]
  have htk2 : ∀ q, q ≠ a → ((h1.switchState a).mem q).Tick = (h1.mem q).Tick := by
    intro q hq
    rw [switchState_Tick]
    simp [bumped, storeTick_Tick, hq]
  have htka : ((h1.switchState a).mem a).Tick = 181 := by
    rw [switchState_Tick]
    simp [bumped, hwrap]
  have hsr2 := sameRoster_switchState h1 a
  have hidle2 : RestoreIdle (h1.switchState a) := by
    right
    refine ⟨h1.switchProposal a, a, by simp [switchState], rfl, by rw [htka]; decide, ?_⟩
    rw [hst2 a]
    simp [StateSwitchingFlag, StateUsedFlag]
  -- the records after `a`
  have hallpost : ∀ v ∈ post, (h1.switchState a).ticking v ∧
      -2 ^ 31 ≤ ((h1.switchState a).mem v).Tick ∧ ((h1.switchState a).mem v).Tick < HealthOut := by
    intro v hv
    have hva : v ≠ a := fun e' => hapost (e' ▸ hv)
    have hve : v ≠ e := fun e' => hs.enotin (e' ▸ hmempost v hv)
    have hvpre : v ∉ pre := fun hh => hdisj hh hv
    have hw := hs.working v (hmempost v hv)
    refine ⟨?_, ?_⟩
    · unfold ticking at hw ⊢
      rw [hst2 v, if_neg hva, if_neg hve, hsr2.htype, hsr2.self, hsb1.roster.htype,
        hsb1.roster.self]
      exact hw
    · rw [htk2 v hva, hout1 v hvpre]
      exact hb v (hmempost v hv) hva
  obtain ⟨h3, hl3, hsb3, _, _, _⟩ :=
    workLoop_quiet h.isShiftSV.1 post (h1.switchState a) hndpost hallpost hidle2
  have hla : workLoop h.isShiftSV.1 h1 (a :: post) = some (h3, [h1.switchProposal a] ++ []) := by
    unfold workLoop
    rw [hc]
    simp only []
    rw [hl3]
  have hlw : workLoop h.isShiftSV.1 h (h.Work.map Prod.snd) =
      some (h3, [] ++ ([h1.switchProposal a] ++ [])) := by
    rw [hsplit]
    exact workLoop_append _ pre (a :: post) h h1 h3 _ _ hl1 hla
  -- the backup
  have hne : ¬ h3.ticking e := by
    intro he
    have := he.1
    rw [hsb3.state, hst2 e, if_neg (Ne.symm hae), if_pos rfl] at this
    exact absurd this (by decide)
  have hback : workLoop h.isShiftSV.1 h3 h3.Back = some (h3, []) := by
    rw [hsb3.roster.back, hsr2.back, hsb1.roster.back, hs.back]
    exact workLoop_skip_single _ h3 e hne
  refine ⟨h3, h1.switchProposal a, ?_, rfl, rfl, hpick1, ?_, ?_, ?_⟩
  · have := work_of_loops _ h h3 h3 _ _ hlw hback
    simpa using this
  · rw [hsb3.curSwitch]; simp [switchState]
  · rw [hsb3.state, hst2 a, if_pos rfl]
  · rw [hsb3.state, hst2 e, if_neg (Ne.symm hae), if_pos rfl]

theorem updateBack_source (h : HealthMgr) (id : String) (l : List Ptr) :
    updateBack h id l = h ∨ ∃ v, v ∈ l ∧ updateBack h id l = h.storeTick v 0 := by
  rcases updateBack_cases h id l with hb | ⟨v, hv, _, _, hu⟩
  · exact Or.inl hb
  · exact Or.inr ⟨v, hv, hu⟩

/-- The record whose tick `Update` zeroes is the one stored under `id` in `Work`, or a backup. -/
theorem Update_source (h : HealthMgr) (id : String) :
    h.Update id = h ∨
      ∃ v, (h.Work.lookup id = some v ∨ v ∈ h.Back) ∧ h.Update id = h.storeTick v 0 := by
  unfold Update
  split
  · rename_i v hl
    split
    · exact Or.inr ⟨v, Or.inl hl, rfl⟩
    · rcases updateBack_source h id h.Back with hb | ⟨w, hw, hu⟩
      · exact Or.inl hb
      · exact Or.inr ⟨w, Or.inr hw, hu⟩
  · rcases updateBack_source h id h.Back with hb | ⟨w, hw, hu⟩
    · exact Or.inl hb
    · exact Or.inr ⟨w, Or.inr hw, hu⟩

theorem Update_shape (h : HealthMgr) (a e : Ptr) (ka : String) (t : Int) (id : String)
    (hs : Scenario1Shape h a e ka t) (hid : id ≠ ka) :
    Scenario1Shape (h.Update id) a e ka t := by
  rcases Update_source h id with hu | ⟨v, hv, hu⟩
  · rw [hu]; exact hs
  · rw [hu]
    have hva : a ≠ v := by
      intro e'
      rcases hv with hv | hv
      · rw [← e'] at hv
        exact hid (hs.akey id hv)
      · rw [hs.back, List.mem_singleton] at hv
        rw [← e'] at hv
        exact hs.enotin (hv ▸ hs.amem)
    refine ⟨hs.nodup, hs.size, hs.amem, hs.akey, ?_, hs.back, hs.seed, hs.enotin,
      by simpa using hs.eunused, hs.nopending, by simp [storeTick_Tick, hva, hs.atick]⟩
    intro w hw
    have := hs.working w hw
    unfold ticking at this ⊢
    simpa using this

end HealthMgr

/-- Running Scenario 1 while the silent record stays at or below the threshold: nothing is sent
and the silent record's tick counts the tick steps. -/
theorem run_silent (address : List Nat → List Nat) (a e : Ptr) (ka : String) :
    ∀ (pre : List Op) (h : HealthMgr) (t : Int), Scenario1Shape h a e ka t → 0 ≤ t →
      t + tickCount pre ≤ 180 → (∀ op ∈ pre, op.isTickOrUpdateOther ka = true) →
      (∀ p1 p2 g o, pre = p1 ++ Op.tick :: p2 → run address h p1 = some (g, o) →
        OthersBelow g a) →
      ∃ g, run address h pre = some (g, []) ∧ Scenario1Shape g a e ka (t + tickCount pre) := by
  intro pre
  induction pre with
  | nil =>
    intro h t hs _ _ _ _
    exact ⟨h, rfl, by simpa [tickCount] using hs⟩
  | cons op ops ih =>
    intro h t hs ht0 hle hops hbelow
    have hops' : ∀ op' ∈ ops, op'.isTickOrUpdateOther ka = true :=
      fun op' hop => hops op' (List.mem_cons_of_mem _ hop)
    have hop := hops op (List.mem_cons_self _ _)
    cases op with
    | tick =>
      simp only [tickCount] at hle ⊢
      have hb : OthersBelow h a := hbelow [] ops h [] rfl rfl
      obtain ⟨h1, hq, hs1⟩ := HealthMgr.healthTick_quiet h a e ka t hs hb (by omega)
        (by unfold HealthOut; omega)
      obtain ⟨g, hr, hsg⟩ := ih h1 (t + 1) hs1 (by omega) (by push_cast at hle ⊢; omega) hops'
        (fun p1 p2 g o hsplit hrun =>
          hbelow (Op.tick :: p1) p2 g ([] ++ o) (by rw [hsplit]; rfl)
            (by simp only [run, step, hq, hrun]))
      refine ⟨g, by simp only [run, step, hq, hr, List.append_nil], ?_⟩
      have : t + ((tickCount ops + 1 : Nat) : Int) = t + 1 + (tickCount ops : Int) := by
        push_cast; ring
      rw [this]
      exact hsg
    | update id =>
      have hid : id ≠ ka := by simpa [Op.isTickOrUpdateOther] using hop
      simp only [tickCount] at hle ⊢
      have hs1 := HealthMgr.Update_shape h a e ka t id hs hid
      obtain ⟨g, hr, hsg⟩ := ih (h.Update id) t hs1 ht0 hle hops'
        (fun p1 p2 g o hsplit hrun =>
          hbelow (Op.update id :: p1) p2 g ([] ++ o) (by rw [hsplit]; rfl)
            (by simp only [run, step, hrun]))
      exact ⟨g, by simp only [run, step, hr, List.append_nil], hsg⟩
    | result res => simp [Op.isTickOrUpdateOther] at hop
    | updateFromCommittee m b => simp [Op.isTickOrUpdateOther] at hop
    | verifySwitch sv => simp [Op.isTickOrUpdateOther] at hop
    | putWorkHealth he => simp [Op.isTickOrUpdateOther] at hop
    | putBackHealth he => simp [Op.isTickOrUpdateOther] at hop
    | updataHealthInfo id ip port pk => simp [Op.isTickOrUpdateOther] at hop

/-- C3 (Scenario 1): for a roster of at least three pairwise distinct working records, all Used,
neither fixed nor the local node, one Unused backup `e`, no seed and nothing pending, where the
silent record `a` starts at tick `t0` (0 in the scenario) and is never updated while the other
working records are below the threshold at every tick step: a tick step before which
`t0 + k < 180` (k the number of earlier tick steps) sends no proposal and leaves `a` Used; the
tick step with `t0 + k = 180` (post-increment tick 181) sends exactly one direction-0 proposal,
with `remove = a` and `add = e`, stores it as the pending proposal and sets both states to
Switching. -/
theorem scenario1_switch_threshold (address : List Nat → List Nat) (h0 : HealthMgr) (a e : Ptr)
    (ka : String) (t0 : Nat) (pre : List Op) (hinit : Scenario1Shape h0 a e ka t0)
    (hops : ∀ op ∈ pre, op.isTickOrUpdateOther ka = true)
    (hbelow : ∀ p1 p2 g o, pre ++ [Op.tick] = p1 ++ Op.tick :: p2 →
      run address h0 p1 = some (g, o) → OthersBelow g a) :
    (t0 + tickCount pre < 180 →
      ∃ g g', run address h0 pre = some (g, []) ∧ g.healthTick = some (g', []) ∧
        (g'.mem a).State = StateUsedFlag ∧ (g'.mem a).Tick = t0 + tickCount pre + 1)
    ∧ (t0 + tickCount pre = 180 →
      ∃ g g' p, run address h0 pre = some (g, []) ∧ g.healthTick = some (g', [p]) ∧
        p.From = 0 ∧ p.Remove = some a ∧ p.Add = some e ∧ g'.curSwitch = [p] ∧
        (g'.mem a).State = StateSwitchingFlag ∧ (g'.mem e).State = StateSwitchingFlag) := by
  have hrun : t0 + tickCount pre ≤ 180 →
      ∃ g, run address h0 pre = some (g, []) ∧
        Scenario1Shape g a e ka ((t0 : Int) + tickCount pre) ∧ OthersBelow g a := by
    intro hle
    obtain ⟨g, hr, hsg⟩ := run_silent address a e ka pre h0 t0 hinit (by omega)
      (by exact_mod_cast hle) hops
      (fun p1 p2 g o hsplit hrun =>
        hbelow p1 (p2 ++ [Op.tick]) g o (by rw [hsplit]; simp) hrun)
    exact ⟨g, hr, hsg, hbelow pre [] g [] rfl hr⟩
  constructor
  · intro hlt
    obtain ⟨g, hr, hsg, hb⟩ := hrun (by omega)
    obtain ⟨g', hq, hs'⟩ := HealthMgr.healthTick_quiet g a e ka _ hsg hb (by omega)
      (by unfold HealthOut; omega)
    exact ⟨g, g', hr, hq, (hs'.working a hs'.amem).1, by rw [hs'.atick]⟩
  · intro heq
    obtain ⟨g, hr, hsg, hb⟩ := hrun (by omega)
    have h180 : ((t0 : Int) + tickCount pre) = 180 := by exact_mod_cast heq
    rw [h180] at hsg
    obtain ⟨g', p, hq⟩ := HealthMgr.healthTick_trigger g a e ka hsg hb
    exact ⟨g, g', p, hr, hq⟩

theorem run_eq_runState (address : List Nat → List Nat) (h g : HealthMgr) (ops : List Op)
    (out : List SwitchValidator) (hr : run address h ops = some (g, out)) :
    g = runState address h ops ∧ out = runSent address h ops := by
  simp [runState, runSent, hr]

theorem scenario1_shape (t : Int) : Scenario1Shape (scenario1 t) 0 4 "A" t := by
  have hW : (scenario1 t).Work = [("A", 0), ("B", 1), ("C", 2), ("D", 3)] := rfl
  refine ⟨by rw [hW]; decide, by rw [hW]; decide, by rw [hW]; decide, ?_, ?_, rfl, rfl,
    by rw [hW]; decide, rfl, rfl, rfl⟩
  · intro id hid
    rw [hW] at hid
    simp only [List.lookup] at hid
    split at hid
    · rename_i hb
      exact eq_of_beq hb
    · split at hid
      · cases hid
      · split at hid
        · cases hid
        · split at hid
          · cases hid
          · cases hid
  · intro v hv
    rw [hW] at hv
    simp only [List.map_cons, List.map_nil, List.mem_cons, List.mem_singleton,
      List.not_mem_nil, or_false] at hv
    rcases hv with rfl | rfl | rfl | rfl <;>
      exact ⟨rfl, fun hc => absurd (show TypeWorked = TypeFixed from hc) (by decide), rfl⟩

theorem scenario1_below : ∀ p1 p2 g o, scenario1Pre ++ [Op.tick] = p1 ++ Op.tick :: p2 →
    run id (scenario1 178) p1 = some (g, o) → OthersBelow g 0 := by
  intro p1 p2 g o hsplit hrun
  have hg := (run_eq_runState id _ g p1 o hrun).1
  rw [hg]
  rcases p1 with _ | ⟨x1, _ | ⟨x2, _ | ⟨x3, _ | ⟨x4, p⟩⟩⟩⟩
  · decide
  · simp [scenario1Pre] at hsplit
  · simp only [scenario1Pre, List.cons_append, List.nil_append, List.cons.injEq] at hsplit
    obtain ⟨e1, e2, _⟩ := hsplit
    rw [← e1, ← e2]
    decide
  · simp only [scenario1Pre, List.cons_append, List.nil_append, List.cons.injEq] at hsplit
    obtain ⟨e1, e2, e3, _⟩ := hsplit
    rw [← e1, ← e2, ← e3]
    decide
  · simp [scenario1Pre] at hsplit

theorem scenario1_switch_threshold_witness :
    (∃ g g', run id (scenario1 0) [] = some (g, []) ∧ g.healthTick = some (g', []) ∧
        (g'.mem 0).State = StateUsedFlag ∧ (g'.mem 0).Tick = (0 : Nat) + tickCount [] + 1)
    ∧ (∃ g g' p, run id (scenario1 178) scenario1Pre = some (g, []) ∧
        g.healthTick = some (g', [p]) ∧ p.From = 0 ∧ p.Remove = some 0 ∧ p.Add = some 4 ∧
        g'.curSwitch = [p] ∧ (g'.mem 0).State = StateSwitchingFlag ∧
        (g'.mem 4).State = StateSwitchingFlag) :=
  ⟨(scenario1_switch_threshold id (scenario1 0) 0 4 "A" 0 [] (scenario1_shape 0)
      (by decide)
      (fun p1 p2 g o hsplit hrun => by
        have hg := (run_eq_runState id _ g p1 o hrun).1
        rw [hg]
        rcases p1 with _ | ⟨x1, p⟩
        · decide
        · simp at hsplit)).1 (by decide),
   (scenario1_switch_threshold id (scenario1 178) 0 4 "A" 178 scenario1Pre (scenario1_shape 178)
      (by decide) scenario1_below).2 (by decide)⟩

/-! ## Update -/

namespace HealthMgr

theorem updateBack_eq (h : HealthMgr) (id : String) (l : List Ptr) :
    updateBack h id l =
      match (l.find? (fun v => decide ((h.mem v).ID = id))).filter
          (fun v => decide ((h.mem v).HType ≠ TypeFixed)) with
      | some v => h.storeTick v 0
      | none => h := by
  induction l with
  | nil => rfl
  | cons v vs ih =>
    unfold updateBack
    by_cases hid : (h.mem v).ID = id
    · by_cases ht : (h.mem v).HType = TypeFixed
      · simp [hid, ht, List.find?, Option.filter]
      · simp [hid, ht, List.find?, Option.filter]
    · rw [if_neg hid, ih]
      simp [List.find?, hid]

/-- The function `Update` stores a zero tick into its target, if any. -/
theorem Update_eq (h : HealthMgr) (id : String) :
    h.Update id =
      match h.updateTarget id with
      | some v => h.storeTick v 0
      | none => h := by
  unfold Update updateTarget
  cases hl : h.Work.lookup id with
  | none => simp [Option.filter, updateBack_eq]
  | some v =>
    by_cases ht : (h.mem v).HType = TypeFixed
    · simp [Option.filter, ht, updateBack_eq]
    · simp [Option.filter, ht]

end HealthMgr

/-- C11: `Update(id)`: if working holds a non-Fixed record under key `id`, that record's tick
becomes 0; otherwise, if the first backup record whose peer id equals `id` is non-Fixed, that
record's tick becomes 0; in all cases every record's state, the tick of every other record, the
tick of every Fixed record, the roster collections and the pending list are unchanged. -/
theorem update_resets_matching_tick (h : HealthMgr) (id : String) :
    (∀ v, h.Work.lookup id = some v → (h.mem v).HType ≠ TypeFixed →
        h.Update id = h.storeTick v 0 ∧ ((h.Update id).mem v).Tick = 0)
    ∧ (∀ v, (h.Work.lookup id = none ∨ ∃ w, h.Work.lookup id = some w ∧ (h.mem w).HType = TypeFixed) →
        h.Back.find? (fun u => decide ((h.mem u).ID = id)) = some v →
        (h.mem v).HType ≠ TypeFixed →
        h.Update id = h.storeTick v 0 ∧ ((h.Update id).mem v).Tick = 0)
    ∧ (h.Update id = match h.updateTarget id with
        | some v => h.storeTick v 0
        | none => h)
    ∧ (∀ q, ((h.Update id).mem q).State = (h.mem q).State)
    ∧ (∀ q, h.updateTarget id ≠ some q → ((h.Update id).mem q).Tick = (h.mem q).Tick)
    ∧ (∀ q, (h.mem q).HType = TypeFixed → ((h.Update id).mem q).Tick = (h.mem q).Tick)
    ∧ (h.Update id).Work = h.Work ∧ (h.Update id).Back = h.Back ∧ (h.Update id).seed = h.seed
    ∧ (h.Update id).curSwitch = h.curSwitch := by
  have heq := HealthMgr.Update_eq h id
  have hframe : ∀ t : Option Ptr,
      (∀ q, ((match t with
        | some v => h.storeTick v 0
        | none => h).mem q).State = (h.mem q).State)
      ∧ (∀ q, t ≠ some q → ((match t with
        | some v => h.storeTick v 0
        | none => h).mem q).Tick = (h.mem q).Tick)
      ∧ (match t with
        | some v => h.storeTick v 0
        | none => h).Work = h.Work
      ∧ (match t with
        | some v => h.storeTick v 0
        | none => h).Back = h.Back
      ∧ (match t with
        | some v => h.storeTick v 0
        | none => h).seed = h.seed
      ∧ (match t with
        | some v => h.storeTick v 0
        | none => h).curSwitch = h.curSwitch := by
    intro t
    cases t with
    | none => simp
    | some v =>
      refine ⟨fun q => by simp, fun q hq => ?_, rfl, rfl, rfl, rfl⟩
      have hqv : q ≠ v := fun e => hq (by rw [e])
      simp [HealthMgr.storeTick_Tick, hqv]
  obtain ⟨f1, f2, f3, f4, f5, f6⟩ := hframe (h.updateTarget id)
  rw [← heq] at f1 f2 f3 f4 f5 f6
  refine ⟨?_, ?_, heq, f1, f2, HealthMgr.Update_fixed_tick h id, f3, f4, f5, f6⟩
  · intro v hl ht
    have htar : h.updateTarget id = some v := by
      simp [HealthMgr.updateTarget, hl, Option.filter, ht]
    rw [heq, htar]
    exact ⟨rfl, by simp⟩
  · intro v hw hf ht
    have htar : h.updateTarget id = some v := by
      rcases hw with hn | ⟨w, hl, hwt⟩
      · simp [HealthMgr.updateTarget, hn, hf, Option.filter, ht]
      · simp [HealthMgr.updateTarget, hl, hwt, hf, Option.filter, ht]
    rw [heq, htar]
    exact ⟨rfl, by simp⟩

theorem update_resets_matching_tick_witness :
    (scenario1 180).Update "A" = (scenario1 180).storeTick 0 0 ∧
      (((scenario1 180).Update "A").mem 0).Tick = 0 :=
  (update_resets_matching_tick (scenario1 180) "A").1 0 (by decide) (by decide)

/-! ## Results with direction 1, and the discard rule -/

namespace HealthMgr

@[simp] theorem afterPending_uid (h : HealthMgr) (res : SwitchValidator) :
    (afterPending h res).uid = h.uid := by
  unfold afterPending; split <;> [split; skip] <;> simp

@[simp] theorem applyResult_curSwitch (h : HealthMgr) (remove add : Option Ptr) :
    (applyResult h remove add).curSwitch = h.curSwitch := by
  unfold applyResult
  cases remove <;> cases add <;> rfl

/-- The pending list after `switchResult` is the one left by its first phase. -/
theorem switchResult_curSwitch (h h' : HealthMgr) (res : SwitchValidator)
    (hs : h.switchResult res = some h') : h'.curSwitch = (afterPending h res).curSwitch := by
  rw [switchResult_eq] at hs
  split at hs
  · split at hs
    · cases hs
    · split at hs
      · split at hs
        · cases hs
          simp
        · cases hs; rfl
      · cases hs; rfl
  · cases hs; rfl

/-- Full equality and equality without the ID both entail equality of `remove`. -/
theorem discard_condition_eq (mem : Ptr → Health) (p res : SwitchValidator) :
    ((res.From == 1 && p.Equal mem res) || p.EqualWithoutID mem res
      || p.EqualWithRemove mem res) = Health.Equal mem p.Remove res.Remove := by
  unfold SwitchValidator.Equal SwitchValidator.EqualWithoutID SwitchValidator.EqualWithRemove
  cases Health.Equal mem p.Remove res.Remove <;> simp

theorem afterPending_curSwitch (h : HealthMgr) (res p : SwitchValidator)
    (hp : h.getCurSV = some p) :
    (afterPending h res).curSwitch =
      if Health.Equal h.mem p.Remove res.Remove = true then h.curSwitch.drop 1
      else h.curSwitch := by
  have hne : h.curSwitch.length > 0 := by
    rw [getCurSV_eq] at hp
    cases hc : h.curSwitch with
    | nil => rw [hc] at hp; cases hp
    | cons a l => simp
  unfold afterPending
  rw [hp]
  simp only [discard_condition_eq]
  split
  · simp [removeCurSV, hne]
  · rfl

/-- The function `switchResult` returns unless a direction-0 result has nil member infos. -/
theorem switchResult_total (h : HealthMgr) (res : SwitchValidator)
    (hi : res.From = 0 → res.Infos ≠ none) : ∃ h', h.switchResult res = some h' := by
  rw [switchResult_eq]
  by_cases hf : res.From = 0
  · rw [if_pos hf]
    cases hinf : res.Infos with
    | none => exact absurd hinf (hi hf)
    | some infos =>
      simp only []
      split
      · split
        · exact ⟨_, rfl⟩
        · exact ⟨_, rfl⟩
      · exact ⟨_, rfl⟩
  · rw [if_neg hf]
    exact ⟨_, rfl⟩

/-- A result with direction 1 only runs the first phase of `switchResult`. -/
theorem switchResult_direction_one (h : HealthMgr) (res : SwitchValidator) (hfrom : res.From = 1) :
    h.switchResult res = some (afterPending h res) := by
  rw [switchResult_eq, hfrom]
  simp

end HealthMgr

/-- C16: for every result with direction 1 and every manager state, `switchResult` returns and
changes no record (so no state and no tick) and no roster collection; only the pending list may
change. -/
theorem switchResult_restore_frame (h : HealthMgr) (res : SwitchValidator) (hfrom : res.From = 1) :
    ∃ h', h.switchResult res = some h' ∧ h'.mem = h.mem ∧ h'.Work = h.Work ∧ h'.Back = h.Back
      ∧ h'.seed = h.seed ∧ h'.uid = h.uid ∧ h'.curSwitch.Sublist h.curSwitch := by
  exact ⟨HealthMgr.afterPending h res, HealthMgr.switchResult_direction_one h res hfrom, by simp,
    by simp, by simp, by simp, by simp, (HealthMgr.callRel_afterPending h res).pending⟩

theorem switchResult_restore_frame_witness :
    ∃ h', scenario1Switched.switchResult scenario2Restore = some h' ∧
      h'.mem = scenario1Switched.mem ∧ h'.Work = scenario1Switched.Work ∧
      h'.Back = scenario1Switched.Back ∧ h'.seed = scenario1Switched.seed ∧
      h'.uid = scenario1Switched.uid ∧ h'.curSwitch.Sublist scenario1Switched.curSwitch :=
  switchResult_restore_frame scenario1Switched scenario2Restore rfl

/-- C17: with `p` pending, `switchResult(r)` discards `p` iff `p.remove` equals `r.remove` (both
nil, or both non-nil with the same peer id and public key): the three-way condition is
equivalent to its last disjunct; when it fails the pending list is unchanged.  The call returns
unless a direction-0 result carries nil member infos. -/
theorem switchResult_discards_iff_same_remove (h : HealthMgr) (res p : SwitchValidator)
    (hp : h.getCurSV = some p) :
    (((res.From == 1 && p.Equal h.mem res) || p.EqualWithoutID h.mem res
        || p.EqualWithRemove h.mem res) = p.EqualWithRemove h.mem res)
    ∧ (p.EqualWithRemove h.mem res = true ↔
        (p.Remove = none ∧ res.Remove = none) ∨
        ∃ a b, p.Remove = some a ∧ res.Remove = some b ∧ (h.mem a).ID = (h.mem b).ID ∧
          (h.mem a).Val.PubKey = (h.mem b).Val.PubKey)
    ∧ ((res.From = 0 → res.Infos ≠ none) → ∃ h', h.switchResult res = some h')
    ∧ ∀ h', h.switchResult res = some h' →
        (p.EqualWithRemove h.mem res = true → h'.curSwitch = h.curSwitch.drop 1)
        ∧ (p.EqualWithRemove h.mem res = false → h'.curSwitch = h.curSwitch) := by
  refine ⟨HealthMgr.discard_condition_eq h.mem p res, ?_, HealthMgr.switchResult_total h res,
    fun h' hs => ?_⟩
  · unfold SwitchValidator.EqualWithRemove Health.Equal
    cases p.Remove <;> cases res.Remove <;> simp
  · rw [HealthMgr.switchResult_curSwitch h h' res hs, HealthMgr.afterPending_curSwitch h res p hp]
    unfold SwitchValidator.EqualWithRemove
    constructor
    · intro he; rw [if_pos he]
    · intro he; rw [if_neg (by rw [he]; simp)]

theorem switchResult_discards_iff_same_remove_witness :
    scenario1Proposal.EqualWithRemove scenario1Switched.mem scenario1Result = true
    ∧ scenario1Applied.curSwitch = scenario1Switched.curSwitch.drop 1 :=
  ⟨by decide,
    ((switchResult_discards_iff_same_remove scenario1Switched scenario1Result scenario1Proposal
      (by decide)).2.2.2 scenario1Applied rfl).1 (by decide)⟩

/-- C15 (amended): with `p` the pending proposal, `remove = A` and `A.state = Switching`, after
`switchResult` receives the direction-1 copy of `p`, `p` is no longer pending and no record has
changed: `A.state` is still Switching. -/
theorem switchResult_restore_discards_pending (h : HealthMgr) (p : SwitchValidator) (a : Ptr)
    (hcur : h.curSwitch = [p]) (hrem : p.Remove = some a)
    (hst : (h.mem a).State = StateSwitchingFlag) :
    ∃ h', h.switchResult { p with From := 1 } = some h' ∧ h'.curSwitch = [] ∧ h'.mem = h.mem
      ∧ (h'.mem a).State = StateSwitchingFlag := by
  have hp : h.getCurSV = some p := by rw [HealthMgr.getCurSV_eq, hcur]; rfl
  have hs := HealthMgr.switchResult_direction_one h { p with From := 1 } rfl
  refine ⟨_, hs, ?_, by simp, by simpa using hst⟩
  rw [HealthMgr.afterPending_curSwitch h _ p hp]
  have he : Health.Equal h.mem p.Remove p.Remove = true := by
    rw [hrem]; simp [Health.Equal]
  simp [he, hcur]

theorem switchResult_restore_discards_pending_witness :
    ∃ h', scenario1Switched.switchResult { scenario1Proposal with From := 1 } = some h' ∧
      h'.curSwitch = [] ∧ h'.mem = scenario1Switched.mem ∧
      (h'.mem 0).State = StateSwitchingFlag :=
  switchResult_restore_discards_pending scenario1Switched scenario1Proposal 0 (by decide) rfl
    (by decide)

/-- C15 as stated fails: in Scenario 2 (A revives after the proposal, the restore copy is sent
and comes back as the result) the pending proposal is discarded but `A.state` is Switching, not
Used. -/
theorem switchResult_restore_counterexample :
    runSent id (NewHealthMgr (scenario1Mem 180) 7) scenario2Ops =
      [scenario1Proposal, scenario2Restore, scenario2Restore, scenario2Restore]
    ∧ (runState id (NewHealthMgr (scenario1Mem 180) 7) scenario2Ops).curSwitch =
        [scenario1Proposal]
    ∧ ((runState id (NewHealthMgr (scenario1Mem 180) 7) scenario2Ops).mem 0).State =
        StateSwitchingFlag
    ∧ (runState id (NewHealthMgr (scenario1Mem 180) 7)
        (scenario2Ops ++ [Op.result scenario2Restore])).curSwitch = []
    ∧ ((runState id (NewHealthMgr (scenario1Mem 180) 7)
        (scenario2Ops ++ [Op.result scenario2Restore])).mem 0).State = StateSwitchingFlag
    ∧ ((runState id (NewHealthMgr (scenario1Mem 180) 7)
        (scenario2Ops ++ [Op.result scenario2Restore])).mem 0).State ≠ StateUsedFlag := by
  decide

/-! ## The restore path -/

namespace HealthMgr

theorem ticking_congr (h g : HealthMgr) (q : Ptr) (hs : (g.mem q).State = (h.mem q).State)
    (ht : (g.mem q).HType = (h.mem q).HType) (hf : (g.mem q).Self = (h.mem q).Self) :
    g.ticking q ↔ h.ticking q := by
  unfold ticking
  rw [hs, ht, hf]

theorem ticking_bumped (h : HealthMgr) (v q : Ptr) : (h.bumped v).ticking q ↔ h.ticking q :=
  ticking_congr h _ q (by simp [bumped]) (by simp [bumped]) (by simp [bumped])

theorem bumped_Tick_ne (h : HealthMgr) (v q : Ptr) (hq : q ≠ v) :
    ((h.bumped v).mem q).Tick = (h.mem q).Tick := by
  simp [bumped, storeTick_Tick, hq]

theorem restoreIdle_switchState (h : HealthMgr) (v : Ptr)
    (hv : wrapInt32 ((h.mem v).Tick + 1) > HealthOut) : RestoreIdle (h.switchState v) := by
  right
  refine ⟨h.switchProposal v, v, by simp [switchState], rfl, ?_, ?_⟩
  · rw [switchState_Tick]
    simp only [bumped, storeTick_Tick_self]
    exact le_of_lt hv
  · simp [switchState, StateSwitchingFlag, StateUsedFlag]

/-- While the restore path is idle a record of the tick loop sends no restore copy. -/
theorem checkSwitchValidator_restoreIdle (s : Bool) (h : HealthMgr) (v : Ptr) (h1 : HealthMgr)
    (o1 : List SwitchValidator) (hch : h.checkSwitchValidator v s = some (h1, o1))
    (hi : RestoreIdle h) : RestoreIdle h1 ∧ ∀ p ∈ o1, p.From = 0 := by
  rcases checkSwitchValidator_cases h v s h1 o1 hch with ⟨_, e1, e2⟩ | ⟨hg, _, e1, e2⟩ |
    ⟨hg, hs, hv, hc, e1, e2⟩
  · rw [e1, e2]
    exact ⟨hi, fun p hp => by cases hp⟩
  · have hb := restoreIdle_bumped h v hg hi
    rw [restoreOut_idle _ hb] at e2
    cases e2
    rw [e1]
    exact ⟨hb, fun p hp => by cases hp⟩
  · rw [e1, e2]
    refine ⟨restoreIdle_switchState h v hv, fun p hp => ?_⟩
    simp only [List.mem_singleton] at hp
    rw [hp]; rfl

theorem work_restoreIdle (s : Bool) (h h' : HealthMgr) (out : List SwitchValidator)
    (hw : h.work s = some (h', out)) (hi : RestoreIdle h) :
    RestoreIdle h' ∧ ∀ p ∈ out, p.From = 0 := by
  refine work_rel s (fun h h' out => RestoreIdle h → RestoreIdle h' ∧ ∀ p ∈ out, p.From = 0)
    (fun h hi => ⟨hi, fun p hp => by cases hp⟩) ?_
    (fun h v h1 o1 hch hi => checkSwitchValidator_restoreIdle s h v h1 o1 hch hi) h h' out hw hi
  intro h h1 h2 o1 o2 r1 r2 hi
  obtain ⟨a1, b1⟩ := r1 hi
  obtain ⟨a2, b2⟩ := r2 a1
  refine ⟨a2, fun p hp => ?_⟩
  rcases List.mem_append.mp hp with hp | hp
  · exact b1 p hp
  · exact b2 p hp

/-- A restore copy sent by one record of the tick loop, at the moment it is sent. -/
theorem checkSwitchValidator_restore (s : Bool) (h : HealthMgr) (v : Ptr) (h1 : HealthMgr)
    (o1 : List SwitchValidator) (hch : h.checkSwitchValidator v s = some (h1, o1))
    (p' : SwitchValidator) (hp : p' ∈ o1) (hf : p'.From = 1) :
    ∃ p r, h.curSwitch.head? = some p ∧ h1.curSwitch = h.curSwitch ∧ p' = { p with From := 1 }
      ∧ p.From = 0 ∧ p.Remove = some r ∧ (h1.mem r).Tick < HealthOut := by
  rcases checkSwitchValidator_cases h v s h1 o1 hch with ⟨_, e1, e2⟩ | ⟨hg, _, e1, e2⟩ |
    ⟨hg, hs, hv, hc, e1, e2⟩
  · rw [e2] at hp; cases hp
  · obtain ⟨sv0, r, a1, a2, a3, a4, a5⟩ := restoreOut_mem _ _ p' e2 hp
    rw [e1]
    exact ⟨sv0, r, by simpa [bumped] using a1, by simp [bumped], a2, a3, a4, a5⟩
  · rw [e2, List.mem_singleton] at hp
    rw [hp] at hf
    simp [switchProposal] at hf

/-- The relation behind the step-level description of restore copies. -/
theorem work_restore (s : Bool) (h h' : HealthMgr) (out : List SwitchValidator)
    (hw : h.work s = some (h', out)) (hne : h.curSwitch ≠ []) :
    SameButTicks h h' ∧ (∀ q, ¬ h.ticking q → (h'.mem q).Tick = (h.mem q).Tick) ∧
      ∀ p' ∈ out, ∃ p r, h.curSwitch.head? = some p ∧ p' = { p with From := 1 } ∧ p.From = 0 ∧
        p.Remove = some r ∧ (¬ h.ticking r → (h.mem r).Tick < HealthOut) := by
  refine work_rel s (fun h h' out => h.curSwitch ≠ [] →
    SameButTicks h h' ∧ (∀ q, ¬ h.ticking q → (h'.mem q).Tick = (h.mem q).Tick) ∧
      ∀ p' ∈ out, ∃ p r, h.curSwitch.head? = some p ∧ p' = { p with From := 1 } ∧ p.From = 0 ∧
        p.Remove = some r ∧ (¬ h.ticking r → (h.mem r).Tick < HealthOut))
    (fun h _ => ⟨sameButTicks_refl h, fun _ _ => rfl, fun p hp => by cases hp⟩) ?_ ?_
    h h' out hw hne
  · intro h h1 h2 o1 o2 r1 r2 hne
    obtain ⟨a1, b1, c1⟩ := r1 hne
    obtain ⟨a2, b2, c2⟩ := r2 (by rw [a1.curSwitch]; exact hne)
    have htk : ∀ q, h1.ticking q ↔ h.ticking q := fun q =>
      ticking_congr h h1 q (a1.state q) (a1.roster.htype q) (a1.roster.self q)
    refine ⟨sameButTicks_trans a1 a2, fun q hq => ?_, fun p' hp => ?_⟩
    · rw [b2 q (fun hh => hq ((htk q).mp hh)), b1 q hq]
    · rcases List.mem_append.mp hp with hp | hp
      · exact c1 p' hp
      · obtain ⟨p, r, d1, d2, d3, d4, d5⟩ := c2 p' hp
        refine ⟨p, r, by rw [← a1.curSwitch]; exact d1, d2, d3, d4, fun hr => ?_⟩
        rw [← b1 r hr]
        exact d5 (fun hh => hr ((htk r).mp hh))
  · intro h v h1 o1 hch hne
    obtain ⟨a, b⟩ := checkSwitchValidator_noSwitch s h v h1 o1 hch (Or.inr hne)
    refine ⟨a, fun q hq => ?_, fun p' hp => ?_⟩
    · rcases checkSwitchValidator_cases h v s h1 o1 hch with ⟨_, e1, _⟩ | ⟨hg, _, e1, _⟩ |
        ⟨_, _, _, hc, _, _⟩
      · rw [e1]
      · have hqv : q ≠ v := fun e => hq (e ▸ hg)
        rw [e1, bumped_Tick_ne h v q hqv]
      · exact absurd hc hne
    · obtain ⟨p, r, d1, d2, d3, d4, d5, d6⟩ :=
        checkSwitchValidator_restore s h v h1 o1 hch p' hp (b p' hp)
      refine ⟨p, r, d1, d3, d4, d5, fun hr => ?_⟩
      rcases checkSwitchValidator_cases h v s h1 o1 hch with ⟨_, e1, _⟩ | ⟨hg, _, e1, _⟩ |
        ⟨_, _, _, hc, _, _⟩
      · rw [e1] at d6; exact d6
      · have hrv : r ≠ v := fun e => hr (e ▸ hg)
        rw [e1, bumped_Tick_ne h v r hrv] at d6
        exact d6
      · exact absurd hc hne

end HealthMgr

/-- C13: every direction-1 (restore) proposal sent by a tick step is a copy of the proposal `p`
pending at the start of the step that differs from `p` only in direction; `p.direction = 0`; the
step leaves the pending list unchanged; the tick of `p.remove` is below 180 at the start when
that record is not itself counted by the step, and in every case at the moment the copy is sent
(the state left by that record of the loop). -/
theorem restore_is_copy_of_pending :
    (∀ (h h' : HealthMgr) (out : List SwitchValidator), h.healthTick = some (h', out) →
      ∀ p' ∈ out, p'.From = 1 →
        ∃ p r, h.curSwitch.head? = some p ∧ p' = { p with From := 1 } ∧ p.From = 0 ∧
          p.Remove = some r ∧ h'.curSwitch = h.curSwitch ∧
          (¬ h.ticking r → (h.mem r).Tick < 180 ∧ (h'.mem r).Tick = (h.mem r).Tick))
    ∧ (∀ (s : Bool) (h h1 : HealthMgr) (v : Ptr) (o1 : List SwitchValidator),
        h.checkSwitchValidator v s = some (h1, o1) → ∀ p' ∈ o1, p'.From = 1 →
        ∃ p r, h.curSwitch.head? = some p ∧ h1.curSwitch = h.curSwitch ∧
          p' = { p with From := 1 } ∧ p.From = 0 ∧ p.Remove = some r ∧ (h1.mem r).Tick < 180) := by
  constructor
  · intro h h' out ht p' hp hf
    have hne : h.curSwitch ≠ [] := by
      intro hc
      have := (HealthMgr.work_restoreIdle _ h h' out ht (Or.inl hc)).2 p' hp
      rw [hf] at this
      exact absurd this (by decide)
    obtain ⟨a, b, c⟩ := HealthMgr.work_restore _ h h' out ht hne
    obtain ⟨p, r, d1, d2, d3, d4, d5⟩ := c p' hp
    exact ⟨p, r, d1, d2, d3, d4, a.curSwitch, fun hr => ⟨d5 hr, b r hr⟩⟩
  · intro s h h1 v o1 hch p' hp hf
    exact HealthMgr.checkSwitchValidator_restore s h v h1 o1 hch p' hp hf

theorem restore_is_copy_of_pending_witness :
    scenario2Revived.tickSent = [scenario2Restore, scenario2Restore, scenario2Restore]
    ∧ ∀ p' ∈ scenario2Revived.tickSent, p'.From = 1 →
        ∃ p r, scenario2Revived.curSwitch.head? = some p ∧ p' = { p with From := 1 } ∧
          p.From = 0 ∧ p.Remove = some r ∧
          scenario2Revived.tickState.curSwitch = scenario2Revived.curSwitch ∧
          (¬ scenario2Revived.ticking r →
            (scenario2Revived.mem r).Tick < 180 ∧
            (scenario2Revived.tickState.mem r).Tick = (scenario2Revived.mem r).Tick) :=
  ⟨by decide, restore_is_copy_of_pending.1 _ _ _ rfl⟩
theorem restoreCount_none (c : Ptr → Bool) (r : Ptr) :
    ∀ (vs : List Ptr) (t : Int), (∀ v ∈ vs, c v = false) → restoreCount c r t vs = 0 := by
  intro vs
  induction vs with
  | nil => intro t _; rfl
  | cons v vs ih =>
    intro t hall
    have hv : c v = false := hall v (List.mem_cons_self _ _)
    simp only [restoreCount, hv, Bool.false_eq_true, if_false]
    exact ih t (fun u hu => hall u (List.mem_cons_of_mem _ hu))

theorem restoreCount_pos (c : Ptr → Bool) (r : Ptr) :
    ∀ (vs : List Ptr) (t : Int) (v : Ptr), vs.find? c = some v →
      (if v = r then wrapInt32 (t + 1) else t) < HealthOut → 0 < restoreCount c r t vs := by
  intro vs
  induction vs with
  | nil => intro t v hf; cases hf
  | cons x xs ih =>
    intro t v hf ht
    by_cases hx : c x = true
    · rw [List.find?_cons_of_pos _ hx] at hf
      cases hf
      simp only [restoreCount, hx, if_true, if_pos ht]
      omega
    · have hx' : c x = false := by simpa using hx
      rw [List.find?_cons_of_neg _ hx] at hf
      simp only [restoreCount, hx', Bool.false_eq_true, if_false]
      exact ih t v hf ht

theorem restoreCount_free (c : Ptr → Bool) (r : Ptr) :
    ∀ (vs : List Ptr) (t : Int), (c r = false ∨ r ∉ vs) →
      restoreCount c r t vs = if t < HealthOut then vs.countP c else 0 := by
  intro vs
  induction vs with
  | nil => intro t _; simp [restoreCount]
  | cons x xs ih =>
    intro t hr
    have hr' : c r = false ∨ r ∉ xs := hr.imp id (fun h hm => h (List.mem_cons_of_mem _ hm))
    by_cases hx : c x = true
    · have hxr : x ≠ r := by
        rintro rfl
        rcases hr with h | h
        · rw [h] at hx; cases hx
        · exact h (List.mem_cons_self _ _)
      simp only [restoreCount, hx, if_true, if_neg hxr, ih t hr', List.countP_cons_of_pos _ _ hx]
      split <;> omega
    · have hx' : c x = false := by simpa using hx
      simp only [restoreCount, hx', Bool.false_eq_true, if_false, ih t hr',
        List.countP_cons_of_neg _ _ hx]

theorem restoreCount_boundary (c : Ptr → Bool) (r : Ptr) :
    ∀ (vs : List Ptr) (t : Int), vs.find? c = some r → ¬ wrapInt32 (t + 1) < HealthOut →
      vs.count r ≤ 1 → restoreCount c r t vs = 0 := by
  intro vs
  induction vs with
  | nil => intro t hf; cases hf
  | cons x xs ih =>
    intro t hf ht hc
    by_cases hx : c x = true
    · rw [List.find?_cons_of_pos _ hx] at hf
      cases hf
      have hnot : r ∉ xs := by
        intro hm
        have := List.count_pos_iff.mpr hm
        rw [List.count_cons_self] at hc
        omega
      simp only [restoreCount, hx, if_true, if_neg ht,
        restoreCount_free c r xs _ (Or.inr hnot), Nat.zero_add]
    · have hx' : c x = false := by simpa using hx
      rw [List.find?_cons_of_neg _ hx] at hf
      have hxr : x ≠ r := by
        rintro rfl
        have := List.find?_some hf
        rw [this] at hx'
        cases hx'
      rw [List.count_cons_of_ne (Ne.symm hxr)] at hc
      simp only [restoreCount, hx', Bool.false_eq_true, if_false]
      exact ih t hf ht hc

namespace HealthMgr

/-- With a direction-0 proposal `p` pending, a loop of `work` sends `restoreCount` restore
copies of `p`. -/
theorem workLoop_restores (s : Bool) (p : SwitchValidator) (r : Ptr) (hfrom : p.From = 0)
    (hrem : p.Remove = some r) :
    ∀ (vs : List Ptr) (h : HealthMgr), h.curSwitch.head? = some p →
      ∃ h', workLoop s h vs =
          some (h', List.replicate
            (restoreCount (fun v => decide (h.ticking v)) r (h.mem r).Tick vs)
            { p with From := 1 }) ∧
        SameButTicks h h' := by
  intro vs
  induction vs with
  | nil =>
    intro h _
    exact ⟨h, by simp [workLoop, restoreCount], sameButTicks_refl h⟩
  | cons v vs ih =>
    intro h hhead
    have hne : h.curSwitch ≠ [] := by
      intro hc; rw [hc] at hhead; cases hhead
    by_cases hv : h.ticking v
    · have hsb := sameButTicks_bumped h v
      have htr : ((h.bumped v).mem r).Tick =
          if v = r then wrapInt32 ((h.mem r).Tick + 1) else (h.mem r).Tick := by
        by_cases hvr : v = r
        · subst hvr
          simp [bumped, storeTick_Tick_self]
        · rw [if_neg hvr]
          exact bumped_Tick_ne h v r (Ne.symm hvr)
      have hro : (h.bumped v).restoreOut =
          some (if ((h.bumped v).mem r).Tick < HealthOut then [{ p with From := 1 }]
            else []) := by
        unfold restoreOut
        rw [getCurSV_eq, hsb.curSwitch, hhead]
        simp only [hrem, hfrom, and_true]
        split <;> rfl
      have hc := checkSwitchValidator_noswitch h v s hv (Or.inr (Or.inr hne))
      rw [hro] at hc
      obtain ⟨h', hl, hsb'⟩ := ih (h.bumped v) (by rw [hsb.curSwitch]; exact hhead)
      have hfun : (fun u => decide ((h.bumped v).ticking u)) =
          (fun u => decide (h.ticking u)) :=
        funext fun u => decide_eq_decide.mpr (ticking_bumped h v u)
      rw [hfun] at hl
      refine ⟨h', ?_, sameButTicks_trans hsb hsb'⟩
      unfold workLoop
      rw [hc]
      simp only [Option.map_some']
      rw [hl]
      have hdv : decide (h.ticking v) = true := decide_eq_true hv
      simp only [restoreCount, hdv, if_true, ← htr]
      by_cases hlt : ((h.bumped v).mem r).Tick < HealthOut
      · simp only [if_pos hlt]
        rw [Nat.add_comm, List.replicate_succ]
        rfl
      · simp only [if_neg hlt]
        rw [Nat.zero_add]
        rfl
    · obtain ⟨h', hl, hsb'⟩ := ih h hhead
      refine ⟨h', ?_, hsb'⟩
      unfold workLoop
      rw [checkSwitchValidator_skip h v s hv]
      simp only []
      rw [hl]
      have hdv : decide (h.ticking v) = false := decide_eq_false hv
      simp only [restoreCount, hdv, Bool.false_eq_true, if_false]
      rfl

/-- A loop of `work` over an appended list that returns splits into the two loops. -/
theorem workLoop_append_inv (s : Bool) (xs ys : List Ptr) :
    ∀ (h h' : HealthMgr) (out : List SwitchValidator),
      workLoop s h (xs ++ ys) = some (h', out) →
      ∃ h1 o1 o2, workLoop s h xs = some (h1, o1) ∧ workLoop s h1 ys = some (h', o2) ∧
        out = o1 ++ o2 := by
  induction xs with
  | nil =>
    intro h h' out hw
    exact ⟨h, [], out, by simp [workLoop], hw, rfl⟩
  | cons x xs ih =>
    intro h h' out hw
    rw [List.cons_append] at hw
    obtain ⟨h1, o1, o2, hc, hl, ho⟩ := workLoop_cons_some s h x (xs ++ ys) h' out hw
    obtain ⟨h2, oa, ob, ha, hb, hab⟩ := ih h1 h' o2 hl
    refine ⟨h2, o1 ++ oa, ob, ?_, hb, by rw [ho, hab, List.append_assoc]⟩
    unfold workLoop
    rw [hc]
    simp only []
    rw [ha]

end HealthMgr

namespace HealthMgr

/-- The proposals a tick step sends while a direction-0 proposal `p` is pending. -/
theorem healthTick_restores (h : HealthMgr) (p : SwitchValidator) (r : Ptr)
    (hhead : h.curSwitch.head? = some p) (hfrom : p.From = 0) (hrem : p.Remove = some r) :
    ∃ h', h.healthTick =
        some (h', List.replicate
          (restoreCount (fun v => decide (h.ticking v)) r (h.mem r).Tick
            (h.Work.map Prod.snd ++ h.Back))
          { p with From := 1 }) := by
  obtain ⟨h', hl, _⟩ := workLoop_restores h.isShiftSV.1 p r hfrom hrem
    (h.Work.map Prod.snd ++ h.Back) h hhead
  obtain ⟨h1, o1, o2, ha, hb, hab⟩ := workLoop_append_inv _ _ _ h h' _ hl
  obtain ⟨h1', hl1, hsb1⟩ := workLoop_restores h.isShiftSV.1 p r hfrom hrem
    (h.Work.map Prod.snd) h hhead
  rw [ha] at hl1
  simp only [Option.some.injEq, Prod.mk.injEq] at hl1
  rw [← hl1.1] at hsb1
  rw [← hsb1.roster.back] at hb
  have := work_of_loops _ h h1 h' o1 o2 ha hb
  rw [← hab] at this
  exact ⟨h', this⟩

end HealthMgr

/-- C14 (amended): when a proposal `p` with direction 0 is pending whose `remove` has tick below
180, the tick step returns and sends only restore copies of `p`, one for every counted record
(state Used, not Fixed, not the local node) of working and backup at whose turn the tick of
`remove` is below 180, whatever the shift flag is.  At least one copy is sent as soon as a counted
record exists, unless the first counted record is `remove` itself at tick 179 (its own increment
then reaches the threshold; ticks are `int32` values); none is sent when no record is counted, nor
at that boundary when `remove` occurs once; and exactly one per counted record when `remove` is
not itself counted. -/
theorem restore_sent_per_counted_record (h : HealthMgr) (p : SwitchValidator) (r : Ptr)
    (hhead : h.curSwitch.head? = some p) (hfrom : p.From = 0) (hrem : p.Remove = some r)
    (htick : (h.mem r).Tick < 180) :
    (∃ h', h.healthTick =
      some (h', List.replicate
        (restoreCount (fun v => decide (h.ticking v)) r (h.mem r).Tick
          (h.Work.map Prod.snd ++ h.Back))
        { p with From := 1 }))
    ∧ ((∃ v ∈ h.Work.map Prod.snd ++ h.Back, h.ticking v) →
        ((h.Work.map Prod.snd ++ h.Back).find? (fun v => decide (h.ticking v)) ≠ some r
          ∨ (-2 ^ 31 ≤ (h.mem r).Tick ∧ (h.mem r).Tick < 179)) →
        ∃ h' out, h.healthTick = some (h', out) ∧ { p with From := 1 } ∈ out)
    ∧ ((∀ v ∈ h.Work.map Prod.snd ++ h.Back, ¬ h.ticking v) →
        ∃ h', h.healthTick = some (h', []))
    ∧ ((h.Work.map Prod.snd ++ h.Back).find? (fun v => decide (h.ticking v)) = some r →
        (h.mem r).Tick = 179 → (h.Work.map Prod.snd ++ h.Back).count r ≤ 1 →
        ∃ h', h.healthTick = some (h', []))
    ∧ (¬ h.ticking r →
        ∃ h', h.healthTick =
          some (h', List.replicate
            ((h.Work.map Prod.snd ++ h.Back).countP (fun v => decide (h.ticking v)))
            { p with From := 1 })) := by
  obtain ⟨h', ht⟩ := HealthMgr.healthTick_restores h p r hhead hfrom hrem
  refine ⟨⟨h', ht⟩, fun hex hfirst => ⟨h', _, ht, ?_⟩, fun hall => ⟨h', ?_⟩,
    fun hf h179 hcnt => ⟨h', ?_⟩, fun hr => ⟨h', ?_⟩⟩
  · obtain ⟨v, hv, htv⟩ := hex
    cases hfd : (h.Work.map Prod.snd ++ h.Back).find? (fun v => decide (h.ticking v)) with
    | none =>
      have := List.find?_eq_none.mp hfd v hv
      simp only [decide_eq_true_eq] at this
      exact absurd htv this
    | some w =>
      have hlt : (if w = r then wrapInt32 ((h.mem r).Tick + 1) else (h.mem r).Tick)
          < HealthOut := by
        by_cases hwr : w = r
        · rw [if_pos hwr]
          rcases hfirst with hne | ⟨hlo, hhi⟩
          · exact absurd (by rw [hfd, hwr]) hne
          · rw [wrapInt32_succ _ hlo (by omega)]
            show (h.mem r).Tick + 1 < 180
            omega
        · rw [if_neg hwr]
          exact htick
      have := restoreCount_pos _ r _ (h.mem r).Tick w hfd hlt
      rw [List.mem_replicate]
      exact ⟨by omega, rfl⟩
  · rw [ht, restoreCount_none _ r _ _ (fun v hv => by simpa using hall v hv)]
    rfl
  · have hnot : ¬ wrapInt32 ((h.mem r).Tick + 1) < HealthOut := by
      rw [h179]
      decide
    rw [ht, restoreCount_boundary _ r _ _ hf hnot hcnt]
    rfl
  · have htick' : (h.mem r).Tick < HealthOut := htick
    rw [ht, restoreCount_free _ r _ _ (Or.inl (by simpa using hr)), if_pos htick']

theorem restore_sent_per_counted_record_witness :
    scenario5Recounted.ticking 0
    ∧ (scenario5Recounted.Work.map Prod.snd ++ scenario5Recounted.Back).find?
        (fun v => decide (scenario5Recounted.ticking v)) = some 0
    ∧ scenario5Recounted.tickSent = [{ scenario5Proposal with From := 1 }]
    ∧ ∃ h' out, scenario5Recounted.healthTick = some (h', out) ∧
        { scenario5Proposal with From := 1 } ∈ out :=
  ⟨by decide, by decide, by decide,
    (restore_sent_per_counted_record scenario5Recounted scenario5Proposal 0 (by decide) rfl rfl
      (by decide)).2.1 ⟨0, by decide, by decide⟩ (Or.inr ⟨by decide, by decide⟩)⟩

/-- C14 as stated fails: with the switch of A pending (direction 0), A's tick at 0 and a
non-empty roster whose other records are the local node, a fixed record and the claimed backup,
the tick step sends nothing; and when A itself is the only counted record, at tick 179, its own
increment reaches the threshold and again nothing is sent. -/
theorem restore_not_sent_counterexample :
    scenario5.curSwitch.head?.map (fun p => (p.From, p.Remove)) = some (0, some 0)
    ∧ (scenario5.mem 0).Tick < 180
    ∧ scenario5.Work.map Prod.snd ++ scenario5.Back = [0, 1, 2, 4]
    ∧ scenario5.healthTick.map (fun x => x.2) = some []
    ∧ scenario5Counted.curSwitch.head?.map (fun p => (p.From, p.Remove)) = some (0, some 0)
    ∧ (scenario5Counted.mem 0).Tick < 180
    ∧ scenario5Counted.ticking 0
    ∧ scenario5Counted.healthTick.map (fun x => x.2) = some [] := by
  decide
/-! ## Update followed by a tick step -/

namespace HealthMgr

/-- What one record of the tick loop does to ticks, and when it builds a proposal. -/
theorem checkSwitchValidator_footprint (s : Bool) (h : HealthMgr) (v : Ptr) (h1 : HealthMgr)
    (o1 : List SwitchValidator) (hch : h.checkSwitchValidator v s = some (h1, o1)) :
    (∀ q, q ≠ v → (h1.mem q).Tick = (h.mem q).Tick)
    ∧ ((h1.mem v).Tick = (h.mem v).Tick ∨ (h1.mem v).Tick = wrapInt32 ((h.mem v).Tick + 1))
    ∧ (∀ p ∈ o1, p.From = 0 →
        p.Remove = some v ∧ wrapInt32 ((h.mem v).Tick + 1) > HealthOut) := by
  rcases checkSwitchValidator_cases h v s h1 o1 hch with ⟨_, e1, e2⟩ | ⟨hg, _, e1, e2⟩ |
    ⟨hg, hs, hv, hc, e1, e2⟩
  · rw [e1, e2]
    exact ⟨fun _ _ => rfl, Or.inl rfl, fun p hp => by cases hp⟩
  · rw [e1]
    refine ⟨fun q hq => bumped_Tick_ne h v q hq, Or.inr (by simp [bumped]), fun p hp hf => ?_⟩
    obtain ⟨sv0, r, _, hp', _⟩ := restoreOut_mem _ _ p e2 hp
    rw [hp'] at hf
    simp at hf
  · rw [e1, e2]
    refine ⟨fun q hq => ?_, Or.inr ?_, fun p hp _ => ?_⟩
    · rw [switchState_Tick, bumped_Tick_ne h v q hq]
    · rw [switchState_Tick]; simp [bumped]
    · simp only [List.mem_singleton] at hp
      rw [hp]
      exact ⟨rfl, hv⟩

/-- A loop of `work` that does not visit `r` leaves its tick and proposes no switch of `r`. -/
theorem workLoop_untouched (s : Bool) (r : Ptr) : ∀ (vs : List Ptr) (h h' : HealthMgr)
    (out : List SwitchValidator), r ∉ vs → workLoop s h vs = some (h', out) →
    (h'.mem r).Tick = (h.mem r).Tick ∧ ∀ p ∈ out, p.From = 0 → p.Remove ≠ some r := by
  intro vs
  induction vs with
  | nil =>
    intro h h' out _ hw
    simp only [workLoop, Option.some.injEq, Prod.mk.injEq] at hw
    rw [← hw.1, ← hw.2]
    exact ⟨rfl, fun p hp => by cases hp⟩
  | cons v vs ih =>
    intro h h' out hr hw
    obtain ⟨h1, o1, o2, hc, hl, ho⟩ := workLoop_cons_some s h v vs h' out hw
    have hrv : r ≠ v := fun e => hr (e ▸ List.mem_cons_self _ _)
    obtain ⟨f1, _, f3⟩ := checkSwitchValidator_footprint s h v h1 o1 hc
    obtain ⟨g1, g2⟩ := ih h1 h' o2 (fun hh => hr (List.mem_cons_of_mem _ hh)) hl
    refine ⟨by rw [g1, f1 r hrv], fun p hp hf => ?_⟩
    rw [ho] at hp
    rcases List.mem_append.mp hp with hp | hp
    · rw [(f3 p hp hf).1]
      intro e
      cases e
      exact hrv rfl
    · exact g2 p hp hf

/-- A loop of `work` that visits `r` at most once, when one more tick keeps `r` at or below the
threshold. -/
theorem workLoop_once (s : Bool) (r : Ptr) : ∀ (vs : List Ptr) (h h' : HealthMgr)
    (out : List SwitchValidator), vs.count r ≤ 1 →
    wrapInt32 ((h.mem r).Tick + 1) ≤ HealthOut → workLoop s h vs = some (h', out) →
    ((h'.mem r).Tick = (h.mem r).Tick ∨ (h'.mem r).Tick = wrapInt32 ((h.mem r).Tick + 1))
      ∧ ∀ p ∈ out, p.From = 0 → p.Remove ≠ some r := by
  intro vs
  induction vs with
  | nil =>
    intro h h' out _ _ hw
    simp only [workLoop, Option.some.injEq, Prod.mk.injEq] at hw
    rw [← hw.1, ← hw.2]
    exact ⟨Or.inl rfl, fun p hp => by cases hp⟩
  | cons v vs ih =>
    intro h h' out hcnt hle hw
    obtain ⟨h1, o1, o2, hc, hl, ho⟩ := workLoop_cons_some s h v vs h' out hw
    obtain ⟨f1, f2, f3⟩ := checkSwitchValidator_footprint s h v h1 o1 hc
    by_cases hrv : v = r
    · subst hrv
      have hnot : v ∉ vs := by
        intro hh
        have := List.count_pos_iff.mpr hh
        rw [List.count_cons_self] at hcnt
        omega
      obtain ⟨g1, g2⟩ := workLoop_untouched s v vs h1 h' o2 hnot hl
      refine ⟨by rw [g1]; exact f2, fun p hp hf => ?_⟩
      rw [ho] at hp
      rcases List.mem_append.mp hp with hp | hp
      · exact absurd (f3 p hp hf).2 (not_lt.mpr hle)
      · exact g2 p hp hf
    · have hrv' : r ≠ v := fun e => hrv e.symm
      have hcnt' : vs.count r ≤ 1 := by
        rw [List.count_cons_of_ne hrv'] at hcnt
        exact hcnt
      have ht1 := f1 r hrv'
      obtain ⟨g1, g2⟩ := ih h1 h' o2 hcnt' (by rw [ht1]; exact hle) hl
      refine ⟨by rw [ht1] at g1; exact g1, fun p hp hf => ?_⟩
      rw [ho] at hp
      rcases List.mem_append.mp hp with hp | hp
      · rw [(f3 p hp hf).1]
        intro e
        cases e
        exact hrv rfl
      · exact g2 p hp hf

/-- A pass of `work` is one loop over the working records followed by the backups. -/
theorem work_as_loop (s : Bool) (h h' : HealthMgr) (out : List SwitchValidator)
    (hw : h.work s = some (h', out)) :
    workLoop s h (h.Work.map Prod.snd ++ h.Back) = some (h', out) := by
  obtain ⟨h1, o1, o2, hc, hl, ho⟩ := work_some s h h' out hw
  have hr := workLoop_rel s TickRel tickRel_refl (fun _ _ _ _ _ a b => tickRel_trans a b)
    (fun h v h1 o1 hch => checkSwitchValidator_tickRel s h v h1 o1 hch) _ _ _ _ hc
  rw [hr.roster.back] at hl
  rw [ho]
  exact workLoop_append s _ _ h h1 h' o1 o2 hc hl

theorem Update_work_hit (h : HealthMgr) (id : String) (r : Ptr)
    (hkey : h.Work.lookup id = some r) (hnf : (h.mem r).HType ≠ TypeFixed) :
    h.Update id = h.storeTick r 0 ∧ ((h.Update id).mem r).Tick = 0 := by
  have htar : h.updateTarget id = some r := by
    simp [updateTarget, hkey, Option.filter, hnf]
  rw [Update_eq, htar]
  exact ⟨rfl, by simp⟩

theorem pendingOK_of_callRel {h g : HealthMgr} (a : CallRel h g) (hp : PendingOK h) :
    PendingOK g := by
  intro p hpm
  obtain ⟨r, h1, h2, h3⟩ := hp p (a.pending.subset hpm)
  exact ⟨r, h1, by rw [a.self]; exact h2, by rw [a.htype]; exact h3⟩

end HealthMgr

/-- C12 (amended): for a non-Fixed working record `r` stored under key `id` that occurs once
among the working and backup entries, and whatever its tick was: after `Update(id)` the next tick
step (which returns when the pending list is well formed) sends no direction-0 proposal with
`remove = r`, and leaves `r.tick` at 0 or 1. -/
theorem update_prevents_switch (h0 : HealthMgr) (id : String) (r : Ptr)
    (hkey : h0.Work.lookup id = some r) (hnf : (h0.mem r).HType ≠ TypeFixed)
    (honce : (h0.Work.map Prod.snd ++ h0.Back).count r ≤ 1) :
    (PendingOK h0 → ∃ h' out, (h0.Update id).healthTick = some (h', out))
    ∧ ∀ h' out, (h0.Update id).healthTick = some (h', out) →
        (∀ p ∈ out, p.From = 0 → p.Remove ≠ some r)
        ∧ ((h'.mem r).Tick = 0 ∨ (h'.mem r).Tick = 1) := by
  obtain ⟨hu, ht0⟩ := HealthMgr.Update_work_hit h0 id r hkey hnf
  refine ⟨fun hp => HealthMgr.healthTick_total _
    (HealthMgr.pendingOK_of_callRel (HealthMgr.callRel_Update h0 id) hp), fun h' out ht => ?_⟩
  have hl := HealthMgr.work_as_loop _ _ h' out ht
  have hroster : (h0.Update id).Work.map Prod.snd ++ (h0.Update id).Back =
      h0.Work.map Prod.snd ++ h0.Back := by
    rw [hu]; rfl
  rw [hroster] at hl
  have hw1 : wrapInt32 (((h0.Update id).mem r).Tick + 1) = 1 := by
    rw [ht0]; decide
  obtain ⟨a, b⟩ := HealthMgr.workLoop_once _ r _ _ h' out honce
    (by rw [hw1]; decide) hl
  refine ⟨b, ?_⟩
  rw [hw1, ht0] at a
  exact a

theorem update_prevents_switch_witness :
    (∀ p ∈ ((scenario1 180).Update "A").tickSent, p.From = 0 → p.Remove ≠ some 0)
    ∧ ((((scenario1 180).Update "A").tickState.mem 0).Tick = 0 ∨
        (((scenario1 180).Update "A").tickState.mem 0).Tick = 1) :=
  (update_prevents_switch (scenario1 180) "A" 0 (by decide) (by decide) (by decide)).2 _ _ rfl

/-- C12 as stated fails: when the record A sits both in working and in backup, the tick step
after `Update("A")` counts it twice and leaves its tick at 2. -/
theorem update_prevents_switch_counterexample :
    aliasRoster.Work.lookup "A" = some 0
    ∧ (aliasRoster.mem 0).HType ≠ TypeFixed
    ∧ ((aliasRoster.Update "A").mem 0).Tick = 0
    ∧ (aliasRoster.Update "A").healthTick.map (fun x => ((x.1.mem 0).Tick, x.2)) = some (2, [])
    ∧ ¬ ((aliasRoster.Update "A").tickState.mem 0).Tick ≤ 1 := by
  decide

/-! ## Committee updates -/

namespace HealthMgr

theorem checkSaveScan_fst (address : List Nat → List Nat) (mem : Ptr → Health) (remove : Ptr)
    (add : Option Ptr) (members : List CommitteeMember) (r0 a0 : Bool) :
    (checkSaveScan address mem remove add members (r0, a0)).1 = true ↔
      r0 = true ∨ ∃ v ∈ members,
        address v.Publickey = (mem remove).Val.Address ∧ v.Flag = StateUsedFlag := by
  induction members generalizing r0 a0 with
  | nil => simp [checkSaveScan]
  | cons v vs ih =>
    unfold checkSaveScan
    simp only []
    rw [ih]
    by_cases h1 : address v.Publickey = (mem remove).Val.Address ∧ v.Flag = StateUsedFlag
    · rw [if_pos h1]
      simp only [true_or, true_iff]
      exact Or.inr ⟨v, List.mem_cons_self _ _, h1⟩
    · rw [if_neg h1]
      constructor
      · rintro (hh | ⟨w, hw, hh⟩)
        · exact Or.inl hh
        · exact Or.inr ⟨w, List.mem_cons_of_mem _ hw, hh⟩
      · rintro (hh | ⟨w, hw, hh⟩)
        · exact Or.inl hh
        · rcases List.mem_cons.mp hw with e | hw'
          · rw [e] at hh; exact absurd hh h1
          · exact Or.inr ⟨w, hw', hh⟩

theorem checkSaveScan_snd_none (address : List Nat → List Nat) (mem : Ptr → Health)
    (remove : Ptr) (members : List CommitteeMember) (r0 a0 : Bool) :
    (checkSaveScan address mem remove none members (r0, a0)).2 = true ↔
      a0 = true ∨ members ≠ [] := by
  induction members generalizing r0 a0 with
  | nil => simp [checkSaveScan]
  | cons v vs ih =>
    unfold checkSaveScan
    simp only []
    rw [ih]
    simp

theorem checkSaveScan_snd_some (address : List Nat → List Nat) (mem : Ptr → Health)
    (remove a : Ptr) (members : List CommitteeMember) (r0 a0 : Bool) :
    (checkSaveScan address mem remove (some a) members (r0, a0)).2 = true ↔
      a0 = true ∨ ∃ v ∈ members,
        address v.Publickey = (mem a).Val.Address ∧ v.Flag = StateUnusedFlag := by
  induction members generalizing r0 a0 with
  | nil => simp [checkSaveScan]
  | cons v vs ih =>
    unfold checkSaveScan
    simp only []
    rw [ih]
    by_cases h1 : address v.Publickey = (mem a).Val.Address ∧ v.Flag = StateUnusedFlag
    · rw [if_pos h1]
      simp only [true_or, true_iff]
      exact Or.inr ⟨v, List.mem_cons_self _ _, h1⟩
    · rw [if_neg h1]
      constructor
      · rintro (hh | ⟨w, hw, hh⟩)
        · exact Or.inl hh
        · exact Or.inr ⟨w, List.mem_cons_of_mem _ hw, hh⟩
      · rintro (hh | ⟨w, hw, hh⟩)
        · exact Or.inl hh
        · rcases List.mem_cons.mp hw with e | hw'
          · rw [e] at hh; exact absurd hh h1
          · exact Or.inr ⟨w, hw', hh⟩

/-- The decision for a pending proposal with a non-nil `remove`, in words. -/
theorem keepPending_iff (address : List Nat → List Nat) (mem : Ptr → Health)
    (members : List CommitteeMember) (sv : SwitchValidator) (r : Ptr) (hr : sv.Remove = some r) :
    keepPending address mem members sv = true ↔
      (∃ v ∈ members, address v.Publickey = (mem r).Val.Address ∧ v.Flag = StateUsedFlag)
      ∧ (sv.Add = none ∨ ∃ a, sv.Add = some a ∧
          ∃ v ∈ members, address v.Publickey = (mem a).Val.Address ∧ v.Flag = StateUnusedFlag) := by
  unfold keepPending
  rw [hr]
  simp only [Bool.and_eq_true, checkSaveScan_fst, Bool.false_eq_true, false_or]
  cases ha : sv.Add with
  | none =>
    rw [checkSaveScan_snd_none]
    simp only [Bool.false_eq_true, false_or, true_or, and_true]
    constructor
    · intro hh; exact hh.1
    · intro hh
      refine ⟨hh, ?_⟩
      obtain ⟨v, hv, _⟩ := hh
      intro he
      rw [he] at hv
      cases hv
  | some a =>
    rw [checkSaveScan_snd_some]
    simp

theorem checkSaveLoop_eq (address : List Nat → List Nat) (mem : Ptr → Health)
    (members : List CommitteeMember) : ∀ (i : Nat) (cur : List SwitchValidator),
    i ≤ cur.length →
    checkSaveLoop address mem members i cur =
      (cur.take i).filter (keepPending address mem members) ++ cur.drop i := by
  intro i
  induction i with
  | zero => intro cur _; simp [checkSaveLoop]
  | succ i ih =>
    intro cur hi
    have hlt : i < cur.length := hi
    have hget : cur.get? i = some cur[i] := by
      rw [List.get?_eq_getElem?, List.getElem?_eq_getElem hlt]
    have htake : cur.take (i + 1) = cur.take i ++ [cur[i]] := by
      rw [List.take_succ, List.getElem?_eq_getElem hlt]
      rfl
    have hdrop : cur.drop i = cur[i] :: cur.drop (i + 1) := List.drop_eq_getElem_cons hlt
    have hlen : (cur.take i).length = i := by
      rw [List.length_take]; omega
    have hA : keepPending address mem members cur[i] = true →
        checkSaveLoop address mem members i cur =
          (cur.take (i + 1)).filter (keepPending address mem members) ++ cur.drop (i + 1) := by
      intro hk
      rw [ih cur (le_of_lt hlt), htake, hdrop, List.filter_append]
      simp [List.filter, hk]
    have hB : keepPending address mem members cur[i] = false →
        checkSaveLoop address mem members i (cur.eraseIdx i) =
          (cur.take (i + 1)).filter (keepPending address mem members) ++ cur.drop (i + 1) := by
      intro hk
      rw [ih (cur.eraseIdx i) (by rw [List.length_eraseIdx_of_lt hlt]; omega),
        List.eraseIdx_eq_take_drop_succ, List.take_left' hlen, List.drop_left' hlen, htake,
        List.filter_append]
      simp [List.filter, hk]
    unfold checkSaveLoop
    rw [hget]
    simp only []
    cases hrm : cur[i].Remove with
    | none =>
      simp only []
      exact hA (by simp [keepPending, hrm])
    | some remove =>
      simp only []
      cases hk : keepPending address mem members cur[i] with
      | true =>
        have hk' := hk
        simp only [keepPending, hrm] at hk'
        rw [if_neg (by simp [hk'])]
        exact hA hk
      | false =>
        have hk' := hk
        simp only [keepPending, hrm] at hk'
        rw [if_pos (by simp [hk'])]
        exact hB hk

end HealthMgr
theorem sameButStates_refl (h : HealthMgr) : SameButStates h h :=
  ⟨sameRoster_refl h, rfl, rfl, fun _ => rfl⟩

theorem sameButStates_trans {h g k : HealthMgr} (a : SameButStates h g)
    (b : SameButStates g k) : SameButStates h k :=
  ⟨sameRoster_trans a.roster b.roster, b.curSwitch.trans a.curSwitch, b.uid.trans a.uid,
    fun q => (b.tick q).trans (a.tick q)⟩

namespace HealthMgr

theorem sameButStates_storeState (h : HealthMgr) (v : Ptr) (s : Int) :
    SameButStates h (h.storeState v s) :=
  ⟨sameRoster_storeState h v s, rfl, rfl, fun _ => by simp⟩

theorem matchIn_congr (h g : HealthMgr) (hs : SameButStates h g) (addr : List Nat)
    (l : List Ptr) : matchIn g addr l = matchIn h addr l := by
  unfold matchIn
  congr 1
  funext v
  rw [hs.roster.val]

theorem storeFirst_eq (h : HealthMgr) (addr : List Nat) (flag : Int) (l : List Ptr) :
    storeFirst h addr flag l =
      match matchIn h addr l with
      | some v => h.storeState v flag
      | none => h := by
  induction l with
  | nil => rfl
  | cons v vs ih =>
    unfold storeFirst matchIn
    by_cases hv : addr = (h.mem v).Val.Address
    · simp [hv, List.find?]
    · rw [if_neg hv, ih]
      simp [List.find?, hv, matchIn]

/-- A fold of conditional state stores, described by the target of each element. -/
theorem foldl_stores {α : Type} (h0 : HealthMgr) (f : HealthMgr → α → HealthMgr)
    (tgt : α → Option (Ptr × Int))
    (hf : ∀ g a, SameButStates h0 g →
      f g a = match tgt a with
        | some (q, fl) => g.storeState q fl
        | none => g) :
    ∀ (l : List α) (g : HealthMgr), SameButStates h0 g →
      SameButStates h0 (l.foldl f g)
      ∧ (∀ q, (∀ a ∈ l, ∀ fl, tgt a ≠ some (q, fl)) →
          ((l.foldl f g).mem q).State = (g.mem q).State)
      ∧ (∀ q fl, (∀ a ∈ l, ∀ fl', tgt a = some (q, fl') → fl' = fl) →
          ((g.mem q).State = fl ∨ ∃ a ∈ l, tgt a = some (q, fl)) →
          ((l.foldl f g).mem q).State = fl) := by
  intro l
  induction l with
  | nil =>
    intro g hg
    refine ⟨hg, fun _ _ => rfl, fun q fl _ hor => ?_⟩
    rcases hor with hh | ⟨a, ha, _⟩
    · exact hh
    · cases ha
  | cons a as ih =>
    intro g hg
    have hstep := hf g a hg
    have hg1 : SameButStates h0 (f g a) := by
      rw [hstep]
      cases tgt a with
      | none => exact hg
      | some qf => exact sameButStates_trans hg (sameButStates_storeState g qf.1 qf.2)
    obtain ⟨i1, i2, i3⟩ := ih (f g a) hg1
    refine ⟨i1, fun q hq => ?_, fun q fl hall hor => ?_⟩
    · rw [List.foldl_cons, i2 q (fun b hb fl => hq b (List.mem_cons_of_mem _ hb) fl), hstep]
      cases hta : tgt a with
      | none => rfl
      | some qf =>
        obtain ⟨q', fl'⟩ := qf
        have hne : q ≠ q' := by
          intro e
          exact hq a (List.mem_cons_self _ _) fl' (by rw [hta, e])
        simp [storeState_State, hne]
    · rw [List.foldl_cons]
      apply i3 q fl (fun b hb fl' hb' => hall b (List.mem_cons_of_mem _ hb) fl' hb')
      rw [hstep]
      cases hta : tgt a with
      | none =>
        rcases hor with hh | ⟨b, hb, hb'⟩
        · exact Or.inl hh
        · rcases List.mem_cons.mp hb with e | hb2
          · rw [e, hta] at hb'; cases hb'
          · exact Or.inr ⟨b, hb2, hb'⟩
      | some qf =>
        obtain ⟨q', fl'⟩ := qf
        by_cases hqq : q = q'
        · left
          have := hall a (List.mem_cons_self _ _) fl' (by rw [hta, hqq])
          simp [storeState_State, hqq, this]
        · rcases hor with hh | ⟨b, hb, hb'⟩
          · left
            simp [storeState_State, hqq, hh]
          · rcases List.mem_cons.mp hb with e | hb2
            · rw [e, hta] at hb'
              simp only [Option.some.injEq, Prod.mk.injEq] at hb'
              exact absurd hb'.1.symm hqq
            · exact Or.inr ⟨b, hb2, hb'⟩

theorem memberStep_eq (address : List Nat → List Nat) (h0 g : HealthMgr) (v : CommitteeMember)
    (hs : SameButStates h0 g) :
    storeFirst g (address v.Publickey) v.Flag (g.Work.map Prod.snd) =
      match memberTarget address h0 v with
      | some (q, fl) => g.storeState q fl
      | none => g := by
  rw [storeFirst_eq, matchIn_congr h0 g hs, hs.roster.work]
  unfold memberTarget
  cases matchIn h0 (address v.Publickey) (h0.Work.map Prod.snd) <;> rfl

theorem backStep_eq (address : List Nat → List Nat) (h0 g : HealthMgr) (v : CommitteeMember)
    (hs : SameButStates h0 g) :
    (if v.MType = TypeBack then storeFirst g (address v.Publickey) v.Flag g.Back
      else if v.MType = TypeFixed then storeFirst g (address v.Publickey) v.Flag g.seed
      else g) =
      match backTarget address h0 v with
      | some (q, fl) => g.storeState q fl
      | none => g := by
  unfold backTarget
  by_cases h1 : v.MType = TypeBack
  · rw [if_pos h1, if_pos h1, storeFirst_eq, matchIn_congr h0 g hs, hs.roster.back]
    cases matchIn h0 (address v.Publickey) h0.Back <;> rfl
  · rw [if_neg h1, if_neg h1]
    by_cases h2 : v.MType = TypeFixed
    · rw [if_pos h2, if_pos h2, storeFirst_eq, matchIn_congr h0 g hs, hs.roster.seed]
      cases matchIn h0 (address v.Publickey) h0.seed <;> rfl
    · rw [if_neg h2, if_neg h2]

theorem UpdateFromCommittee_eq (address : List Nat → List Nat) (h : HealthMgr)
    (member backMember : List CommitteeMember) :
    h.UpdateFromCommittee address member backMember =
      checkSaveSwitchValidator address (committeeStores address h member backMember)
        (member ++ backMember) := rfl

/-- The two store loops of `UpdateFromCommittee` change record states only. -/
theorem sameButStates_committeeStores (address : List Nat → List Nat) (h : HealthMgr)
    (member backMember : List CommitteeMember) :
    SameButStates h (committeeStores address h member backMember) := by
  unfold committeeStores
  have h1 := (foldl_stores h _ (memberTarget address h)
    (fun g a hs => memberStep_eq address h g a hs) member h (sameButStates_refl h)).1
  exact (foldl_stores h _ (backTarget address h)
    (fun g a hs => backStep_eq address h g a hs) backMember _ h1).1

theorem keepPending_congr (address : List Nat → List Nat) (h g : HealthMgr)
    (hs : SameRoster h g) (members : List CommitteeMember) (sv : SwitchValidator) :
    keepPending address g.mem members sv = keepPending address h.mem members sv := by
  cases hr : sv.Remove with
  | none => simp [keepPending, hr]
  | some r =>
    rw [Bool.eq_iff_iff, keepPending_iff address g.mem members sv r hr,
      keepPending_iff address h.mem members sv r hr]
    simp only [hs.val]

/-- The pending list after `UpdateFromCommittee`. -/
theorem UpdateFromCommittee_curSwitch (address : List Nat → List Nat) (h : HealthMgr)
    (member backMember : List CommitteeMember) :
    (h.UpdateFromCommittee address member backMember).curSwitch =
      h.curSwitch.filter (keepPending address h.mem (member ++ backMember)) := by
  have hs := sameButStates_committeeStores address h member backMember
  rw [UpdateFromCommittee_eq]
  simp only [checkSaveSwitchValidator]
  rw [checkSaveLoop_eq _ _ _ _ _ (le_refl _), List.take_length, List.drop_length,
    List.append_nil, hs.curSwitch]
  apply List.filter_congr
  intro sv _
  exact keepPending_congr address h _ hs.roster _ sv

end HealthMgr

/-- C18: after `UpdateFromCommittee(members, backup_members)` a pending proposal `p` with a
non-nil `remove` is still pending iff some delivered entry has `p.remove`'s address with flag
Used and (`p.add` is nil or some delivered entry has `p.add`'s address with flag Unused);
otherwise it has been discarded; no proposal is added to the pending list. -/
theorem committee_update_keeps_pending_iff (address : List Nat → List Nat) (h : HealthMgr)
    (member backMember : List CommitteeMember) (p : SwitchValidator) (r : Ptr)
    (hp : p ∈ h.curSwitch) (hrem : p.Remove = some r) :
    (p ∈ (h.UpdateFromCommittee address member backMember).curSwitch ↔
      (∃ v ∈ member ++ backMember,
        address v.Publickey = (h.mem r).Val.Address ∧ v.Flag = StateUsedFlag)
      ∧ (p.Add = none ∨ ∃ a, p.Add = some a ∧ ∃ v ∈ member ++ backMember,
          address v.Publickey = (h.mem a).Val.Address ∧ v.Flag = StateUnusedFlag))
    ∧ (h.UpdateFromCommittee address member backMember).curSwitch.Sublist h.curSwitch
    ∧ (h.curSwitch = [p] →
        (h.UpdateFromCommittee address member backMember).curSwitch = [p] ∨
        (h.UpdateFromCommittee address member backMember).curSwitch = []) := by
  rw [HealthMgr.UpdateFromCommittee_curSwitch]
  refine ⟨?_, List.filter_sublist _, fun hc => ?_⟩
  · rw [List.mem_filter, HealthMgr.keepPending_iff address h.mem _ p r hrem]
    exact ⟨fun hh => hh.2, fun hh => ⟨hp, hh⟩⟩
  · rw [hc]
    simp only [List.filter]
    split
    · exact Or.inl rfl
    · exact Or.inr rfl

theorem committee_update_keeps_pending_iff_witness :
    scenario1Proposal ∉
        (scenario1Switched.UpdateFromCommittee scenarioAddress scenario6Members
          scenario6BackMembers).curSwitch
    ∧ (scenario1Switched.UpdateFromCommittee scenarioAddress scenario6Members
          scenario6BackMembers).curSwitch = [] :=
  ⟨fun hin =>
    absurd ((committee_update_keeps_pending_iff scenarioAddress scenario1Switched
      scenario6Members scenario6BackMembers scenario1Proposal 0 (by decide) rfl).1.mp hin).1
      (by decide),
    by decide⟩

/-- C20 (amended): `UpdateFromCommittee` leaves working, backup and seed as they are: it creates
no record for a delivered member that is absent from the roster and removes no record whose
address is not delivered. -/
theorem committee_update_keeps_roster (address : List Nat → List Nat) (h : HealthMgr)
    (member backMember : List CommitteeMember) :
    (h.UpdateFromCommittee address member backMember).Work = h.Work
    ∧ (h.UpdateFromCommittee address member backMember).Back = h.Back
    ∧ (h.UpdateFromCommittee address member backMember).seed = h.seed
    ∧ (h.UpdateFromCommittee address member backMember).Sum = h.Sum := by
  have hs := (HealthMgr.sameButStates_committeeStores address h member backMember).roster
  rw [HealthMgr.UpdateFromCommittee_eq]
  refine ⟨hs.work, hs.back, hs.seed, ?_⟩
  simp only [HealthMgr.Sum, HealthMgr.checkSaveSwitchValidator, hs.work, hs.back, hs.seed]

/-- C20 as stated fails: delivering a member to an empty roster creates no record, and
delivering an empty committee to the roster of Scenario 1 removes none. -/
theorem committee_update_roster_counterexample :
    ((NewHealthMgr (scenario1Mem 0) 7).UpdateFromCommittee scenarioAddress scenario6Members
        scenario6BackMembers).Sum = 0
    ∧ ((scenario1 0).UpdateFromCommittee scenarioAddress [] []).Work.map Prod.snd = [0, 1, 2, 3]
    ∧ ((scenario1 0).UpdateFromCommittee scenarioAddress [] []).Back = [4] := by
  decide
namespace HealthMgr

theorem matchIn_some (h : HealthMgr) (addr : List Nat) (l : List Ptr) (q : Ptr)
    (hm : matchIn h addr l = some q) : q ∈ l ∧ addr = (h.mem q).Val.Address := by
  unfold matchIn at hm
  exact ⟨List.mem_of_find?_eq_some hm, by simpa using List.find?_some hm⟩

/-- With pairwise distinct addresses in a roster part, a record of the part is the match of its
own address. -/
theorem matchIn_self (h : HealthMgr) (l : List Ptr) (v : Ptr) (hv : v ∈ l)
    (hnd : (l.map (fun u => (h.mem u).Val.Address)).Nodup) :
    matchIn h (h.mem v).Val.Address l = some v := by
  cases hm : matchIn h (h.mem v).Val.Address l with
  | none =>
    unfold matchIn at hm
    rw [List.find?_eq_none] at hm
    exact absurd (by simp) (hm v hv)
  | some w =>
    obtain ⟨hw, he⟩ := matchIn_some h _ l w hm
    rw [List.inj_on_of_nodup_map hnd hw hv he.symm]

/-- The states after the two store loops of `UpdateFromCommittee`. -/
theorem committeeStores_state (address : List Nat → List Nat) (h : HealthMgr)
    (member backMember : List CommitteeMember) :
    (∀ q, (∀ a ∈ member, ∀ fl, memberTarget address h a ≠ some (q, fl)) →
        (∀ a ∈ backMember, ∀ fl, backTarget address h a ≠ some (q, fl)) →
        ((committeeStores address h member backMember).mem q).State = (h.mem q).State)
    ∧ (∀ q fl, (∀ a ∈ member, ∀ fl', memberTarget address h a = some (q, fl') → fl' = fl) →
        (∃ a ∈ member, memberTarget address h a = some (q, fl)) →
        (∀ a ∈ backMember, ∀ fl', backTarget address h a ≠ some (q, fl')) →
        ((committeeStores address h member backMember).mem q).State = fl)
    ∧ (∀ q fl, (∀ a ∈ backMember, ∀ fl', backTarget address h a = some (q, fl') → fl' = fl) →
        (∃ a ∈ backMember, backTarget address h a = some (q, fl)) →
        ((committeeStores address h member backMember).mem q).State = fl) := by
  have f1 := foldl_stores h _ (memberTarget address h)
    (fun g a hs => memberStep_eq address h g a hs) member h (sameButStates_refl h)
  have f2 := foldl_stores h _ (backTarget address h)
    (fun g a hs => backStep_eq address h g a hs) backMember _ f1.1
  refine ⟨fun q hm hb => ?_, fun q fl hall hex hb => ?_, fun q fl hall hex => ?_⟩
  · unfold committeeStores
    rw [f2.2.1 q hb, f1.2.1 q hm]
  · unfold committeeStores
    rw [f2.2.1 q hb]
    exact f1.2.2 q fl hall (Or.inr hex)
  · unfold committeeStores
    exact f2.2.2 q fl hall (Or.inr hex)

end HealthMgr

/-- C19: after `UpdateFromCommittee(members, backup_members)`, with pairwise distinct addresses
in the roster and in each delivered list: every working record whose address matches an entry of
`members` has that entry's flag as state; every backup record matching a `backup_members` entry
of role Backup, and every seed record matching a `backup_members` entry of role Fixed, has that
entry's flag as state; every unmatched record keeps its state, and no record's tick changes. -/
theorem committee_update_stores_flags (address : List Nat → List Nat) (h : HealthMgr)
    (member backMember : List CommitteeMember)
    (hroster : ((h.Work.map Prod.snd ++ h.Back ++ h.seed).map
      (fun u => (h.mem u).Val.Address)).Nodup)
    (hmember : (member.map (fun m => address m.Publickey)).Nodup)
    (hbackMember : (backMember.map (fun m => address m.Publickey)).Nodup) :
    (∀ v ∈ h.Work.map Prod.snd, ∀ m ∈ member, address m.Publickey = (h.mem v).Val.Address →
        ((h.UpdateFromCommittee address member backMember).mem v).State = m.Flag)
    ∧ (∀ v ∈ h.Back, ∀ m ∈ backMember, m.MType = TypeBack →
        address m.Publickey = (h.mem v).Val.Address →
        ((h.UpdateFromCommittee address member backMember).mem v).State = m.Flag)
    ∧ (∀ v ∈ h.seed, ∀ m ∈ backMember, m.MType = TypeFixed →
        address m.Publickey = (h.mem v).Val.Address →
        ((h.UpdateFromCommittee address member backMember).mem v).State = m.Flag)
    ∧ (∀ q,
        ¬ (q ∈ h.Work.map Prod.snd ∧
          ∃ m ∈ member, address m.Publickey = (h.mem q).Val.Address) →
        ¬ (q ∈ h.Back ∧ ∃ m ∈ backMember, m.MType = TypeBack ∧
          address m.Publickey = (h.mem q).Val.Address) →
        ¬ (q ∈ h.seed ∧ ∃ m ∈ backMember, m.MType = TypeFixed ∧
          address m.Publickey = (h.mem q).Val.Address) →
        ((h.UpdateFromCommittee address member backMember).mem q).State = (h.mem q).State)
    ∧ (∀ q, ((h.UpdateFromCommittee address member backMember).mem q).Tick = (h.mem q).Tick) := by
  have hmemeq : (h.UpdateFromCommittee address member backMember).mem =
      (HealthMgr.committeeStores address h member backMember).mem := rfl
  rw [hmemeq]
  obtain ⟨s1, s2, s3⟩ := HealthMgr.committeeStores_state address h member backMember
  have hnd : (h.Work.map Prod.snd ++ h.Back ++ h.seed).Nodup := List.Nodup.of_map _ hroster
  have hndW : ((h.Work.map Prod.snd).map (fun u => (h.mem u).Val.Address)).Nodup := by
    rw [List.map_append, List.map_append] at hroster
    exact hroster.of_append_left.of_append_left
  have hndB : (h.Back.map (fun u => (h.mem u).Val.Address)).Nodup := by
    rw [List.map_append, List.map_append] at hroster
    exact hroster.of_append_left.of_append_right
  have hndS : (h.seed.map (fun u => (h.mem u).Val.Address)).Nodup := by
    rw [List.map_append] at hroster
    exact hroster.of_append_right
  have hWB : ∀ q, q ∈ h.Work.map Prod.snd → q ∉ h.Back := by
    intro q hw hb
    exact (List.nodup_append.mp (List.nodup_append.mp hnd).1).2.2 hw hb
  have hWS : ∀ q, q ∈ h.Work.map Prod.snd → q ∉ h.seed := by
    intro q hw hs
    exact (List.nodup_append.mp hnd).2.2 (List.mem_append_left _ hw) hs
  have hBS : ∀ q, q ∈ h.Back → q ∉ h.seed := by
    intro q hb hs
    exact (List.nodup_append.mp hnd).2.2 (List.mem_append_right _ hb) hs
  -- where a delivered entry stores its flag
  have hmt : ∀ a q fl, HealthMgr.memberTarget address h a = some (q, fl) →
      q ∈ h.Work.map Prod.snd ∧ address a.Publickey = (h.mem q).Val.Address ∧ fl = a.Flag := by
    intro a q fl ht
    unfold HealthMgr.memberTarget at ht
    cases hm : HealthMgr.matchIn h (address a.Publickey) (h.Work.map Prod.snd) with
    | none => rw [hm] at ht; cases ht
    | some w =>
      rw [hm] at ht
      simp only [Option.map_some', Option.some.injEq, Prod.mk.injEq] at ht
      obtain ⟨hw, he⟩ := HealthMgr.matchIn_some h _ _ w hm
      rw [← ht.1]
      exact ⟨hw, he, ht.2.symm⟩
  have hbt : ∀ a q fl, HealthMgr.backTarget address h a = some (q, fl) →
      ((a.MType = TypeBack ∧ q ∈ h.Back) ∨ (a.MType = TypeFixed ∧ q ∈ h.seed)) ∧
        address a.Publickey = (h.mem q).Val.Address ∧ fl = a.Flag := by
    intro a q fl ht
    unfold HealthMgr.backTarget at ht
    by_cases h1 : a.MType = TypeBack
    · rw [if_pos h1] at ht
      cases hm : HealthMgr.matchIn h (address a.Publickey) h.Back with
      | none => rw [hm] at ht; cases ht
      | some w =>
        rw [hm] at ht
        simp only [Option.map_some', Option.some.injEq, Prod.mk.injEq] at ht
        obtain ⟨hw, he⟩ := HealthMgr.matchIn_some h _ _ w hm
        rw [← ht.1]
        exact ⟨Or.inl ⟨h1, hw⟩, he, ht.2.symm⟩
    · rw [if_neg h1] at ht
      by_cases h2 : a.MType = TypeFixed
      · rw [if_pos h2] at ht
        cases hm : HealthMgr.matchIn h (address a.Publickey) h.seed with
        | none => rw [hm] at ht; cases ht
        | some w =>
          rw [hm] at ht
          simp only [Option.map_some', Option.some.injEq, Prod.mk.injEq] at ht
          obtain ⟨hw, he⟩ := HealthMgr.matchIn_some h _ _ w hm
          rw [← ht.1]
          exact ⟨Or.inr ⟨h2, hw⟩, he, ht.2.symm⟩
      · rw [if_neg h2] at ht
        cases ht
  refine ⟨fun v hv m hm he => ?_, fun v hv m hm hty he => ?_, fun v hv m hm hty he => ?_,
    fun q n1 n2 n3 => ?_,
    fun q => (HealthMgr.sameButStates_committeeStores address h member backMember).tick q⟩
  · apply s2 v m.Flag
    · intro a ha fl' hta
      obtain ⟨_, hea, hfl⟩ := hmt a v fl' hta
      have : a = m := List.inj_on_of_nodup_map hmember ha hm (by rw [hea, he])
      rw [hfl, this]
    · refine ⟨m, hm, ?_⟩
      unfold HealthMgr.memberTarget
      rw [he, HealthMgr.matchIn_self h _ v hv hndW]
      rfl
    · intro a _ fl' hta
      obtain ⟨hor, _, _⟩ := hbt a v fl' hta
      rcases hor with ⟨_, hb⟩ | ⟨_, hs⟩
      · exact hWB v hv hb
      · exact hWS v hv hs
  · apply s3 v m.Flag
    · intro a ha fl' hta
      obtain ⟨_, hea, hfl⟩ := hbt a v fl' hta
      have : a = m := List.inj_on_of_nodup_map hbackMember ha hm (by rw [hea, he])
      rw [hfl, this]
    · refine ⟨m, hm, ?_⟩
      unfold HealthMgr.backTarget
      rw [if_pos hty, he, HealthMgr.matchIn_self h _ v hv hndB]
      rfl
  · apply s3 v m.Flag
    · intro a ha fl' hta
      obtain ⟨_, hea, hfl⟩ := hbt a v fl' hta
      have : a = m := List.inj_on_of_nodup_map hbackMember ha hm (by rw [hea, he])
      rw [hfl, this]
    · refine ⟨m, hm, ?_⟩
      unfold HealthMgr.backTarget
      have hnb : ¬ m.MType = TypeBack := by rw [hty]; decide
      rw [if_neg hnb, if_pos hty, he, HealthMgr.matchIn_self h _ v hv hndS]
      rfl
  · apply s1 q
    · intro a ha fl hta
      obtain ⟨hq, hea, _⟩ := hmt a q fl hta
      exact n1 ⟨hq, a, ha, hea⟩
    · intro a ha fl hta
      obtain ⟨hor, hea, _⟩ := hbt a q fl hta
      rcases hor with ⟨hty, hb⟩ | ⟨hty, hs⟩
      · exact n2 ⟨hb, a, ha, hty, hea⟩
      · exact n3 ⟨hs, a, ha, hty, hea⟩

theorem committee_update_stores_flags_witness :
    ((scenario1Switched.UpdateFromCommittee scenarioAddress scenario6Members
        scenario6BackMembers).mem 0).State = StateRemovedFlag
    ∧ ((scenario1Switched.UpdateFromCommittee scenarioAddress scenario6Members
        scenario6BackMembers).mem 4).State = StateUsedFlag :=
  have hw := committee_update_stores_flags scenarioAddress scenario1Switched scenario6Members
    scenario6BackMembers (by decide) (by decide) (by decide)
  ⟨hw.1 0 (by decide) ⟨[10], StateRemovedFlag, TypeWorked⟩ (by decide) (by decide),
    hw.2.1 4 (by decide) ⟨[14], StateUsedFlag, TypeBack⟩ (by decide) rfl (by decide)⟩

/-! ## The echo of the manager's own proposal -/

/-- C23: if the manager has a pending proposal `p0` and `p0.Equal(p)` holds, `VerifySwitch(p)`
returns nil, whatever the tick and state of `p.remove` and `p.add` are; `Equal` compares the IDs,
`remove` and `add` by peer id and public key, and the member infos. -/
theorem verifySwitch_echo_accepted (h : HealthMgr) (p0 p : SwitchValidator)
    (hpend : h.getCurSV = some p0) (heq : p0.Equal h.mem p = true) :
    h.VerifySwitch p = none
    ∧ (p0.ID = p.ID ∧ Health.Equal h.mem p0.Remove p.Remove = true
        ∧ Health.Equal h.mem p0.Add p.Add = true ∧ SwitchInfos.Equal p0.Infos p.Infos = true) := by
  refine ⟨by simp [HealthMgr.VerifySwitch, EnableHealthMgr, hpend, heq], ?_⟩
  simpa [SwitchValidator.Equal, and_assoc] using heq

theorem verifySwitch_echo_accepted_witness :
    (scenario2Revived.mem 0).Tick < HealthOut
    ∧ scenario2Revived.verifySwitchEnter scenario1Proposal.Remove scenario1Proposal.Add =
        some VerifyError.wrongState
    ∧ scenario2Revived.VerifySwitch scenario1Proposal = none :=
  ⟨by decide, by decide,
    (verifySwitch_echo_accepted scenario2Revived scenario1Proposal scenario1Proposal
      (by decide) (by decide)).1⟩

/-! ## Transport information -/

namespace HealthMgr

theorem scanPk_eq (mem : Ptr → Health) (pk : List Nat) (l : List Ptr) :
    scanPk mem pk l = l.find? (fun v => decide (pk = (mem v).Val.PubKey)) := by
  induction l with
  | nil => rfl
  | cons v vs ih =>
    unfold scanPk
    by_cases hv : pk = (mem v).Val.PubKey
    · simp [hv]
    · simp [hv, ih]

/-- The function `GetHealth` returns the first record of working, backup, seed, in that order,
whose public key is `pk`. -/
theorem GetHealth_eq (h : HealthMgr) (pk : List Nat) :
    h.GetHealth pk = h.roster.find? (fun v => decide (pk = (h.mem v).Val.PubKey)) := by
  unfold GetHealth getHealthFromPart roster
  simp only [SwitchPartWork, SwitchPartBack, SwitchPartSeed, scanPk_eq]
  rw [List.find?_append, List.find?_append]
  cases h1 : List.find? (fun v => decide (pk = (h.mem v).Val.PubKey)) (h.Work.map Prod.snd) with
  | some a => simp
  | none =>
    cases h2 : List.find? (fun v => decide (pk = (h.mem v).Val.PubKey)) h.Back with
    | some b => simp
    | none => simp

end HealthMgr

/-- C25 (amended): `GetHealth(pk)` returns the first record of working, then backup, then seed
whose public key is `pk`, and nil iff no roster record has that key.  When it finds a record whose
peer id is not empty, `UpdataHealthInfo(id, ip, port, pk)` sets that record's peer id, ip and port
to the arguments and keeps its tick, state, role, keys and self flag; it changes no other record
and no collection.  When the record found has an empty peer id, or no record has public key
`pk`, the whole manager state is unchanged. -/
theorem updataHealthInfo_patches_found (h : HealthMgr) (id ip : String) (port : Nat)
    (pk : List Nat) :
    h.GetHealth pk = h.roster.find? (fun v => decide (pk = (h.mem v).Val.PubKey))
    ∧ (h.GetHealth pk = none ↔ ∀ v ∈ h.roster, (h.mem v).Val.PubKey ≠ pk)
    ∧ (∀ enter, h.GetHealth pk = some enter → (h.mem enter).ID ≠ "" →
        ((h.UpdataHealthInfo id ip port pk).mem enter).ID = id
        ∧ ((h.UpdataHealthInfo id ip port pk).mem enter).IP = ip
        ∧ ((h.UpdataHealthInfo id ip port pk).mem enter).Port = port
        ∧ ((h.UpdataHealthInfo id ip port pk).mem enter).Tick = (h.mem enter).Tick
        ∧ ((h.UpdataHealthInfo id ip port pk).mem enter).State = (h.mem enter).State
        ∧ ((h.UpdataHealthInfo id ip port pk).mem enter).HType = (h.mem enter).HType
        ∧ ((h.UpdataHealthInfo id ip port pk).mem enter).Val = (h.mem enter).Val
        ∧ ((h.UpdataHealthInfo id ip port pk).mem enter).Self = (h.mem enter).Self
        ∧ (∀ q, q ≠ enter → (h.UpdataHealthInfo id ip port pk).mem q = h.mem q)
        ∧ (h.UpdataHealthInfo id ip port pk).Work = h.Work
        ∧ (h.UpdataHealthInfo id ip port pk).Back = h.Back
        ∧ (h.UpdataHealthInfo id ip port pk).seed = h.seed
        ∧ (h.UpdataHealthInfo id ip port pk).curSwitch = h.curSwitch)
    ∧ (∀ enter, h.GetHealth pk = some enter → (h.mem enter).ID = "" →
        h.UpdataHealthInfo id ip port pk = h)
    ∧ (h.GetHealth pk = none → h.UpdataHealthInfo id ip port pk = h) := by
  refine ⟨HealthMgr.GetHealth_eq h pk, ?_, fun enter hg hne => ?_, fun enter hg he => ?_,
    fun hg => ?_⟩
  · rw [HealthMgr.GetHealth_eq, List.find?_eq_none]
    constructor
    · intro hh v hv e
      exact hh v hv (by simp [e])
    · intro hh v hv e
      have e' : pk = (h.mem v).Val.PubKey := by simpa using e
      exact hh v hv e'.symm
  · unfold HealthMgr.UpdataHealthInfo
    rw [hg]
    simp only [hne, ne_eq, not_false_eq_true, if_true, Function.update_same, true_and, and_true]
    intro q hq
    exact Function.update_noteq hq _ _
  · unfold HealthMgr.UpdataHealthInfo
    rw [hg]
    simp [he]
  · unfold HealthMgr.UpdataHealthInfo
    rw [hg]

theorem updataHealthInfo_patches_found_witness :
    (scenario1 0).GetHealth [14] = some 4
    ∧ (((scenario1 0).UpdataHealthInfo "Z" "10.0.0.9" 30303 [14]).mem 4).ID = "Z"
    ∧ (((scenario1 0).UpdataHealthInfo "Z" "10.0.0.9" 30303 [14]).mem 4).IP = "10.0.0.9"
    ∧ (((scenario1 0).UpdataHealthInfo "Z" "10.0.0.9" 30303 [14]).mem 4).Port = 30303
    ∧ (((scenario1 0).UpdataHealthInfo "Z" "10.0.0.9" 30303 [14]).mem 4).State =
        ((scenario1 0).mem 4).State :=
  ⟨by decide,
    ((updataHealthInfo_patches_found (scenario1 0) "Z" "10.0.0.9" 30303 [14]).2.2.1 4 (by decide)
      (by decide)).1,
    ((updataHealthInfo_patches_found (scenario1 0) "Z" "10.0.0.9" 30303 [14]).2.2.1 4 (by decide)
      (by decide)).2.1,
    ((updataHealthInfo_patches_found (scenario1 0) "Z" "10.0.0.9" 30303 [14]).2.2.1 4 (by decide)
      (by decide)).2.2.1,
    ((updataHealthInfo_patches_found (scenario1 0) "Z" "10.0.0.9" 30303 [14]).2.2.1 4 (by decide)
      (by decide)).2.2.2.2.1⟩

/-- C25 as stated fails: `GetHealth` finds the working record with public key `[10]`, whose peer
id is empty, and `UpdataHealthInfo` leaves its peer id, ip and port as they were. -/
theorem updataHealthInfo_blank_counterexample :
    blankRoster.GetHealth [10] = some 0
    ∧ ((blankRoster.UpdataHealthInfo "Z" "10.0.0.9" 30303 [10]).mem 0).ID = ""
    ∧ ((blankRoster.UpdataHealthInfo "Z" "10.0.0.9" 30303 [10]).mem 0).IP = ""
    ∧ ((blankRoster.UpdataHealthInfo "Z" "10.0.0.9" 30303 [10]).mem 0).Port = 0
    ∧ ((blankRoster.UpdataHealthInfo "Z" "10.0.0.9" 30303 [10]).mem 0).ID ≠ "Z" := by
  decide

/-! ## Epochs -/

theorem sub64_eq (a b : Nat) (hb : b ≤ a) (ha : a < 2 ^ 64) : sub64 a b = a - b := by
  unfold sub64
  rw [Nat.mod_eq_of_lt (lt_of_le_of_lt hb ha)]
  omega

theorem add64_eq (a b : Nat) (h : a + b < 2 ^ 64) : add64 a b = a + b :=
  Nat.mod_eq_of_lt h

theorem mul64_eq (a b : Nat) (h : a * b < 2 ^ 64) : mul64 a b = a * b :=
  Nat.mod_eq_of_lt h

/-- The id of the epoch before the first: `FirstNewEpochID - 1`, or `2^64 - 1` when
`FirstNewEpochID` is 0. -/
theorem sub64_one (f : Nat) (hf : f < 2 ^ 64) :
    sub64 f 1 = if f = 0 then 2 ^ 64 - 1 else f - 1 := by
  unfold sub64
  split <;> omega

/-- The branch of `GetEpochFromID` taken for an id above the first new epoch that is not the id
of the epoch before the first. -/
theorem GetEpochFromID_above (p : EpochParams) (eid : Nat)
    (hpre : sub64 p.FirstNewEpochID 1 ≠ eid) (hlt : p.FirstNewEpochID < eid) :
    GetEpochFromID p eid =
      { EpochID := eid,
        BeginHeight :=
          add64 (add64 (add64 p.DposForkPoint p.NewEpochLength)
            (mul64 (sub64 (sub64 eid p.FirstNewEpochID) 1) p.NewEpochLength)) 1,
        EndHeight :=
          add64 (add64 p.DposForkPoint p.NewEpochLength)
            (mul64 (sub64 eid p.FirstNewEpochID) p.NewEpochLength) } := by
  have hnge : ¬ p.FirstNewEpochID ≥ eid := by omega
  unfold GetEpochFromID GetPreFirstEpoch GetFirstEpoch
  simp only []
  rw [if_neg hpre, if_neg hnge]

theorem GetEpochFromID_end (p : EpochParams) (eid : Nat)
    (hpre : sub64 p.FirstNewEpochID 1 ≠ eid)
    (hlt : p.FirstNewEpochID < eid) (heid : eid < 2 ^ 64)
    (hE : p.DposForkPoint + p.NewEpochLength + (eid - p.FirstNewEpochID) * p.NewEpochLength
      < 2 ^ 64) :
    (GetEpochFromID p eid).EndHeight =
      p.DposForkPoint + p.NewEpochLength + (eid - p.FirstNewEpochID) * p.NewEpochLength := by
  have h1 : sub64 eid p.FirstNewEpochID = eid - p.FirstNewEpochID :=
    sub64_eq _ _ (le_of_lt hlt) heid
  have h2 : mul64 (eid - p.FirstNewEpochID) p.NewEpochLength =
      (eid - p.FirstNewEpochID) * p.NewEpochLength :=
    mul64_eq _ _ (lt_of_le_of_lt (Nat.le_add_left _ _) hE)
  have h3 : add64 p.DposForkPoint p.NewEpochLength = p.DposForkPoint + p.NewEpochLength :=
    add64_eq _ _ (lt_of_le_of_lt (Nat.le_add_right _ _) hE)
  rw [GetEpochFromID_above p eid hpre hlt]
  simp only []
  rw [h1, h2, h3, add64_eq _ _ hE]

theorem GetEpochFromID_begin (p : EpochParams) (eid : Nat)
    (hpre : sub64 p.FirstNewEpochID 1 ≠ eid)
    (hlt : p.FirstNewEpochID < eid) (heid : eid < 2 ^ 64)
    (hB : p.DposForkPoint + p.NewEpochLength + (eid - p.FirstNewEpochID - 1) * p.NewEpochLength
      + 1 < 2 ^ 64) :
    (GetEpochFromID p eid).BeginHeight =
      p.DposForkPoint + p.NewEpochLength + (eid - p.FirstNewEpochID - 1) * p.NewEpochLength
        + 1 := by
  have h1 : sub64 eid p.FirstNewEpochID = eid - p.FirstNewEpochID :=
    sub64_eq _ _ (le_of_lt hlt) heid
  have h1' : sub64 (eid - p.FirstNewEpochID) 1 = eid - p.FirstNewEpochID - 1 :=
    sub64_eq _ _ (Nat.le_sub_of_add_le (by rw [Nat.add_comm]; exact hlt))
      (lt_of_le_of_lt (Nat.sub_le _ _) heid)
  have hB' : p.DposForkPoint + p.NewEpochLength
      + (eid - p.FirstNewEpochID - 1) * p.NewEpochLength < 2 ^ 64 :=
    lt_of_le_of_lt (Nat.le_add_right _ _) hB
  have h2 : mul64 (eid - p.FirstNewEpochID - 1) p.NewEpochLength =
      (eid - p.FirstNewEpochID - 1) * p.NewEpochLength :=
    mul64_eq _ _ (lt_of_le_of_lt (Nat.le_add_left _ _) hB')
  have h3 : add64 p.DposForkPoint p.NewEpochLength = p.DposForkPoint + p.NewEpochLength :=
    add64_eq _ _ (lt_of_le_of_lt (Nat.le_add_right _ _) hB')
  rw [GetEpochFromID_above p eid hpre hlt]
  simp only []
  rw [h1, h1', h2, h3, add64_eq _ _ hB', add64_eq _ _ hB]

theorem GetEpochFromID_first (p : EpochParams) (hlt : p.FirstNewEpochID < 2 ^ 64) :
    GetEpochFromID p p.FirstNewEpochID = GetFirstEpoch p := by
  have hne : ¬ sub64 p.FirstNewEpochID 1 = p.FirstNewEpochID := by
    rw [sub64_one _ hlt]
    split <;> omega
  have hge : p.FirstNewEpochID ≥ p.FirstNewEpochID := le_refl _
  unfold GetEpochFromID GetPreFirstEpoch
  simp only []
  rw [if_neg hne]
  unfold GetFirstEpoch
  simp only []
  rw [if_pos hge]

theorem GetFirstEpoch_end (p : EpochParams)
    (hE : p.DposForkPoint + p.NewEpochLength < 2 ^ 64) :
    (GetFirstEpoch p).EndHeight = p.DposForkPoint + p.NewEpochLength :=
  add64_eq p.DposForkPoint p.NewEpochLength hE

/-- C26: for every `eid > FirstNewEpochID`, when the begin and end heights of epoch `eid` fit
in 64 bits and `FirstNewEpochID - 1` does not wrap (or `NewEpochLength` is at least 1), so that
no `uint64` operation of the evaluation overflows, the epoch returned by `GetEpochFromID(eid)`
has `EpochID = eid`, `BeginHeight = GetEpochFromID(eid - 1).EndHeight + 1` and
`EndHeight - BeginHeight + 1 = NewEpochLength`.  With the parameters of the recorded test run
(`DposForkPoint` 0, `NewEpochLength` 2000, `FirstNewEpochID` 1) the ids 1, 2, 3 give `[1,2000]`,
`[2001,4000]`, `[4001,6000]`, and `MinCalcRedeemHeight(2)` is `4001 + MaxRedeemHeight + 1`, which
is the recorded 5002 exactly for `MaxRedeemHeight` 1000. -/
theorem getEpochFromID_tiles :
    (∀ (p : EpochParams) (eid : Nat),
        (1 ≤ p.FirstNewEpochID ∨ 1 ≤ p.NewEpochLength) →
        p.FirstNewEpochID < eid → eid < 2 ^ 64 →
        p.DposForkPoint + p.NewEpochLength + (eid - p.FirstNewEpochID) * p.NewEpochLength
          < 2 ^ 64 →
        p.DposForkPoint + p.NewEpochLength + (eid - p.FirstNewEpochID - 1) * p.NewEpochLength
          + 1 < 2 ^ 64 →
        (GetEpochFromID p eid).EpochID = eid
        ∧ (GetEpochFromID p eid).BeginHeight = (GetEpochFromID p (eid - 1)).EndHeight + 1
        ∧ ((GetEpochFromID p eid).EndHeight : Int) - (GetEpochFromID p eid).BeginHeight + 1
            = p.NewEpochLength)
    ∧ (∀ m, GetEpochFromID (testParams m) 1 = ⟨1, 1, 2000⟩
        ∧ GetEpochFromID (testParams m) 2 = ⟨2, 2001, 4000⟩
        ∧ GetEpochFromID (testParams m) 3 = ⟨3, 4001, 6000⟩
        ∧ MinCalcRedeemHeight (testParams m) 2 = add64 (add64 4001 m) 1
        ∧ (m < 2 ^ 64 → (MinCalcRedeemHeight (testParams m) 2 = 5002 ↔ m = 1000)))
    ∧ MinCalcRedeemHeight (testParams 1000) 2 = 5002 := by
  have htest : ∀ m, GetEpochFromID (testParams m) 1 = ⟨1, 1, 2000⟩
      ∧ GetEpochFromID (testParams m) 2 = ⟨2, 2001, 4000⟩
      ∧ GetEpochFromID (testParams m) 3 = ⟨3, 4001, 6000⟩
      ∧ MinCalcRedeemHeight (testParams m) 2 = add64 (add64 4001 m) 1 := by
    intro m
    have s21 : sub64 2 1 = 1 := sub64_eq 2 1 (by norm_num) (by norm_num)
    have s11 : sub64 1 1 = 0 := sub64_eq 1 1 (by norm_num) (by norm_num)
    have s31 : sub64 3 1 = 2 := sub64_eq 3 1 (by norm_num) (by norm_num)
    have m0 : mul64 0 2000 = 0 := mul64_eq 0 2000 (by norm_num)
    have m1 : mul64 1 2000 = 2000 := mul64_eq 1 2000 (by norm_num)
    have m2 : mul64 2 2000 = 4000 := mul64_eq 2 2000 (by norm_num)
    have a01 : add64 0 1 = 1 := add64_eq 0 1 (by norm_num)
    have a02 : add64 0 2000 = 2000 := add64_eq 0 2000 (by norm_num)
    have a20 : add64 2000 0 = 2000 := add64_eq 2000 0 (by norm_num)
    have a21 : add64 2000 1 = 2001 := add64_eq 2000 1 (by norm_num)
    have a22 : add64 2000 2000 = 4000 := add64_eq 2000 2000 (by norm_num)
    have a41 : add64 4000 1 = 4001 := add64_eq 4000 1 (by norm_num)
    have a24 : add64 2000 4000 = 6000 := add64_eq 2000 4000 (by norm_num)
    have h21 : add64 2 1 = 3 := add64_eq 2 1 (by norm_num)
    have hF : (testParams m).FirstNewEpochID = 1 := rfl
    have hp2 : sub64 (testParams m).FirstNewEpochID 1 ≠ 2 := by rw [hF, s11]; decide
    have hp3 : sub64 (testParams m).FirstNewEpochID 1 ≠ 3 := by rw [hF, s11]; decide
    have h1 : GetEpochFromID (testParams m) 1 = ⟨1, 1, 2000⟩ := by
      have hf : GetEpochFromID (testParams m) 1 = GetFirstEpoch (testParams m) :=
        GetEpochFromID_first (testParams m) (by norm_num [testParams])
      rw [hf]
      unfold GetFirstEpoch
      simp only [testParams, a01, a02]
    have h2 : GetEpochFromID (testParams m) 2 = ⟨2, 2001, 4000⟩ := by
      rw [GetEpochFromID_above (testParams m) 2 hp2 (by norm_num [testParams])]
      simp only [testParams, s21, s11, m0, m1, a02, a20, a21, a22]
    have h3 : GetEpochFromID (testParams m) 3 = ⟨3, 4001, 6000⟩ := by
      rw [GetEpochFromID_above (testParams m) 3 hp3 (by norm_num [testParams])]
      simp only [testParams, s31, s21, m1, m2, a02, a22, a41, a24]
    refine ⟨h1, h2, h3, ?_⟩
    have hm : (testParams m).MaxRedeemHeight = m := rfl
    unfold MinCalcRedeemHeight
    simp only [h21, h3, hm]
  refine ⟨fun p eid hF hlt heid hE hB => ?_, fun m => ?_, ?_⟩
  · have hmul : (eid - p.FirstNewEpochID) * p.NewEpochLength =
        (eid - p.FirstNewEpochID - 1) * p.NewEpochLength + p.NewEpochLength := by
      have : eid - p.FirstNewEpochID = (eid - p.FirstNewEpochID - 1) + 1 := by omega
      rw [this, Nat.add_mul, Nat.one_mul]
      simp
    have hFlt : p.FirstNewEpochID < 2 ^ 64 := lt_trans hlt heid
    have hsmall : 1 ≤ p.FirstNewEpochID ∨ eid < 2 ^ 64 - 1 := by
      rcases hF with hF | hL
      · exact Or.inl hF
      · have h1 : eid - p.FirstNewEpochID ≤ (eid - p.FirstNewEpochID) * p.NewEpochLength :=
          Nat.le_mul_of_pos_right _ hL
        by_cases h0 : p.FirstNewEpochID = 0
        · right
          rw [h0] at h1 hE
          simp only [Nat.sub_zero] at h1 hE
          omega
        · left
          omega
    have hpre : sub64 p.FirstNewEpochID 1 ≠ eid := by
      rw [sub64_one _ hFlt]
      split <;> omega
    have hend := GetEpochFromID_end p eid hpre hlt heid hE
    have hbeg := GetEpochFromID_begin p eid hpre hlt heid hB
    have hid : (GetEpochFromID p eid).EpochID = eid := by
      rw [GetEpochFromID_above p eid hpre hlt]
    refine ⟨hid, ?_, ?_⟩
    · rw [hbeg]
      by_cases h1 : eid - 1 = p.FirstNewEpochID
      · have hEf : p.DposForkPoint + p.NewEpochLength < 2 ^ 64 :=
          lt_of_le_of_lt (Nat.le_add_right _ _) hE
        rw [h1, GetEpochFromID_first p hFlt, GetFirstEpoch_end p hEf]
        have : eid - p.FirstNewEpochID - 1 = 0 := by omega
        rw [this]
        simp
      · have hsub : eid - 1 - p.FirstNewEpochID = eid - p.FirstNewEpochID - 1 := by omega
        have hlt1 : p.FirstNewEpochID < eid - 1 := by omega
        have heid1 : eid - 1 < 2 ^ 64 := by omega
        have hpre1 : sub64 p.FirstNewEpochID 1 ≠ eid - 1 := by
          rw [sub64_one _ hFlt]
          split <;> omega
        have hE1 : p.DposForkPoint + p.NewEpochLength
            + (eid - 1 - p.FirstNewEpochID) * p.NewEpochLength < 2 ^ 64 := by
          rw [hsub]; exact lt_of_le_of_lt (Nat.le_add_right _ _) hB
        rw [GetEpochFromID_end p (eid - 1) hpre1 hlt1 heid1 hE1, hsub]
    · rw [hend, hbeg, hmul]
      push_cast
      ring
  · obtain ⟨h1, h2, h3, hmin⟩ := htest m
    refine ⟨h1, h2, h3, hmin, fun hm => ?_⟩
    rw [hmin]
    unfold add64
    omega
  · rw [(htest 1000).2.2.2, add64_eq 4001 1000 (by norm_num), add64_eq 5001 1 (by norm_num)]

theorem getEpochFromID_tiles_witness :
    (GetEpochFromID (testParams 1000) 2).EpochID = 2
    ∧ (GetEpochFromID (testParams 1000) 2).BeginHeight =
        (GetEpochFromID (testParams 1000) (2 - 1)).EndHeight + 1
    ∧ ((GetEpochFromID (testParams 1000) 2).EndHeight : Int)
        - (GetEpochFromID (testParams 1000) 2).BeginHeight + 1 = (testParams 1000).NewEpochLength :=
  getEpochFromID_tiles.1 (testParams 1000) 2 (Or.inl (by decide)) (by decide) (by norm_num)
    (by norm_num [testParams]) (by norm_num [testParams])

/-! ## A committee that echoes an applied result -/

namespace HealthMgr

/-- Storing the state a record already has changes nothing. -/
theorem storeState_self (h : HealthMgr) (v : Ptr) : h.storeState v (h.mem v).State = h := by
  cases h
  simp only [storeState]
  congr 1
  exact Function.update_eq_self v _

theorem storeFirst_echo (h : HealthMgr) (addr : List Nat) (flag : Int) (l : List Ptr)
    (hl : ∀ q ∈ l, addr = (h.mem q).Val.Address → flag = (h.mem q).State) :
    storeFirst h addr flag l = h := by
  induction l with
  | nil => rfl
  | cons v vs ih =>
    unfold storeFirst
    split
    · rename_i hv
      rw [hl v (List.mem_cons_self _ _) hv]
      exact storeState_self h v
    · exact ih (fun q hq => hl q (List.mem_cons_of_mem _ hq))

theorem foldl_fixed {α : Type} (f : HealthMgr → α → HealthMgr) (h : HealthMgr) (l : List α)
    (hf : ∀ a ∈ l, f h a = h) : l.foldl f h = h := by
  induction l with
  | nil => rfl
  | cons a as ih =>
    rw [List.foldl_cons, hf a (List.mem_cons_self _ _)]
    exact ih (fun b hb => hf b (List.mem_cons_of_mem _ hb))

/-- With nothing pending, a committee that echoes the current states leaves the manager as it
is. -/
theorem UpdateFromCommittee_echo (address : List Nat → List Nat) (h : HealthMgr)
    (member backMember : List CommitteeMember) (hpend : h.curSwitch = [])
    (he : h.echoes address (member ++ backMember)) :
    h.UpdateFromCommittee address member backMember = h := by
  have h1 : member.foldl
      (fun g v => storeFirst g (address v.Publickey) v.Flag (g.Work.map Prod.snd)) h = h := by
    refine foldl_fixed _ h member (fun v hv => storeFirst_echo h _ _ _ (fun q hq => ?_))
    exact he v (List.mem_append_left _ hv) q
      (List.mem_append_left _ (List.mem_append_left _ hq))
  have h2 : backMember.foldl
      (fun g v =>
        if v.MType = TypeBack then storeFirst g (address v.Publickey) v.Flag g.Back
        else if v.MType = TypeFixed then storeFirst g (address v.Publickey) v.Flag g.seed
        else g) h = h := by
    refine foldl_fixed _ h backMember (fun v hv => ?_)
    show (if v.MType = TypeBack then storeFirst h (address v.Publickey) v.Flag h.Back
        else if v.MType = TypeFixed then storeFirst h (address v.Publickey) v.Flag h.seed
        else h) = h
    split
    · refine storeFirst_echo h _ _ _ (fun q hq => ?_)
      exact he v (List.mem_append_right _ hv) q
        (List.mem_append_left _ (List.mem_append_right _ hq))
    · split
      · refine storeFirst_echo h _ _ _ (fun q hq => ?_)
        exact he v (List.mem_append_right _ hv) q (List.mem_append_right _ hq)
      · rfl
  unfold UpdateFromCommittee
  simp only [h1, h2]
  cases h
  simp only [checkSaveSwitchValidator] at hpend ⊢
  subst hpend
  rfl

end HealthMgr

/-- C21: from a state with pending proposal `p` whose `remove` is `A` (and whatever its `add`,
so also `E`), `switchResult` applied to the direction-0 result for it (`remove = A`, entries
`E:Append`, `A:Removed` first, more than 2 entries, resolved by `GetHealth` to `E` and `A`)
returns a state with `A` Removed, `E` Used, both ticks 0 and nothing pending; a following
`UpdateFromCommittee` whose entries echo that state (every delivered entry carries the current
state of the roster records that have its address, so `A` comes with Removed and `E` with Used)
changes nothing: every record's state and tick, the pending list, and in fact every field of the
manager are as after `switchResult`. -/
theorem apply_then_echo_changes_nothing (address : List Nat → List Nat) (h : HealthMgr)
    (p res : SwitchValidator) (a e : Ptr) (cid : Nat) (pkE pkA : List Nat) (x : SwitchEnter)
    (rest : List SwitchEnter)
    (hpend : h.curSwitch = [p]) (hpr : p.Remove = some a) (hae : a ≠ e)
    (hfrom : res.From = 0) (hrr : res.Remove = some a)
    (hinfos : res.Infos =
      some ⟨cid, ⟨pkE, StateAppendFlag⟩ :: ⟨pkA, StateRemovedFlag⟩ :: x :: rest⟩)
    (hgetE : h.GetHealth pkE = some e) (hgetA : h.GetHealth pkA = some a) :
    ∃ h', h.switchResult res = some h' ∧ h'.curSwitch = []
      ∧ (h'.mem a).State = StateRemovedFlag ∧ (h'.mem a).Tick = 0
      ∧ (h'.mem e).State = StateUsedFlag ∧ (h'.mem e).Tick = 0
      ∧ ∀ member backMember, h'.echoes address (member ++ backMember) →
          (∀ q, ((h'.UpdateFromCommittee address member backMember).mem q).State
                = (h'.mem q).State
              ∧ ((h'.UpdateFromCommittee address member backMember).mem q).Tick
                = (h'.mem q).Tick)
          ∧ (h'.UpdateFromCommittee address member backMember).curSwitch = h'.curSwitch
          ∧ h'.UpdateFromCommittee address member backMember = h' := by
  have hp : h.getCurSV = some p := by rw [HealthMgr.getCurSV_eq, hpend]; rfl
  have hsame : Health.Equal h.mem p.Remove res.Remove = true := by
    rw [hpr, hrr]
    simp [Health.Equal]
  have hcur : (HealthMgr.afterPending h res).curSwitch = [] := by
    rw [HealthMgr.afterPending_curSwitch h res p hp, if_pos hsame, hpend]
    rfl
  refine ⟨(((HealthMgr.afterPending h res).storeState a StateRemovedFlag).storeTick
      a 0).storeState e StateUsedFlag |>.storeTick e 0, ?_, ?_, ?_, ?_, ?_, ?_, ?_⟩
  · rw [HealthMgr.switchResult_eq]
    simp only [hfrom, if_true, hinfos, List.length_cons, gt_iff_lt]
    rw [if_pos (by omega)]
    simp only [if_true, HealthMgr.afterPending_GetHealth, hgetE, hgetA, HealthMgr.applyResult]
  · simpa using hcur
  · simp [HealthMgr.storeState_State, hae]
  · simp [HealthMgr.storeTick_Tick, hae]
  · simp
  · simp
  · intro member backMember hecho
    have hnone : ((((HealthMgr.afterPending h res).storeState a StateRemovedFlag).storeTick
        a 0).storeState e StateUsedFlag |>.storeTick e 0).curSwitch = [] := by
      simpa using hcur
    have hfix := HealthMgr.UpdateFromCommittee_echo address _ member backMember hnone hecho
    rw [hfix]
    exact ⟨fun q => ⟨rfl, rfl⟩, rfl, rfl⟩

theorem apply_then_echo_changes_nothing_witness :
    scenario1Applied.echoes scenarioAddress (scenario6Members ++ scenario6BackMembers)
    ∧ (scenario1Applied.mem 0).State = StateRemovedFlag
    ∧ (scenario1Applied.mem 4).State = StateUsedFlag
    ∧ scenario1Echo.curSwitch = scenario1Applied.curSwitch
    ∧ ∀ q, (scenario1Echo.mem q).State = (scenario1Applied.mem q).State
        ∧ (scenario1Echo.mem q).Tick = (scenario1Applied.mem q).Tick := by
  obtain ⟨h', hs, _, _, _, _, _, hall⟩ :=
    apply_then_echo_changes_nothing scenarioAddress scenario1Switched scenario1Proposal
      scenario1Result 0 4 7 [14] [10] ⟨[11], 1⟩ [⟨[12], 1⟩, ⟨[13], 1⟩]
      (by decide) rfl (by decide) rfl rfl rfl (by decide) (by decide)
  have he : scenario1Applied = h' := by
    simp only [scenario1Applied, hs]
  have hecho : scenario1Applied.echoes scenarioAddress
      (scenario6Members ++ scenario6BackMembers) := by decide
  refine ⟨hecho, by decide, by decide, ?_, ?_⟩
  · rw [he] at hecho
    have := (hall scenario6Members scenario6BackMembers hecho).2.1
    rw [← he] at this
    exact this
  · rw [he] at hecho
    have := (hall scenario6Members scenario6BackMembers hecho).1
    rw [← he] at this
    exact this

/-! ## Identifier spaces of different committees -/

theorem idRel_refl (h : HealthMgr) : IdRel h h [] :=
  ⟨(fun _ hp => by cases hp), fun p hp => Or.inr ⟨p, hp, rfl⟩⟩

theorem idRel_trans {h h1 h2 : HealthMgr} {o1 o2 : List SwitchValidator}
    (a : IdRel h h1 o1) (b : IdRel h1 h2 o2) : IdRel h h2 (o1 ++ o2) := by
  have lift1 : ∀ id : Nat, (∃ q ∈ built o1, q.ID = id) → ∃ q ∈ built (o1 ++ o2), q.ID = id := by
    rintro id ⟨q, hq, e⟩
    exact ⟨q, by rw [built_append]; exact List.mem_append_left _ hq, e⟩
  have lift2 : ∀ id : Nat, (∃ q ∈ built o2, q.ID = id) → ∃ q ∈ built (o1 ++ o2), q.ID = id := by
    rintro id ⟨q, hq, e⟩
    exact ⟨q, by rw [built_append]; exact List.mem_append_right _ hq, e⟩
  have via : ∀ id : Nat, (∃ q ∈ h1.curSwitch, q.ID = id) →
      (∃ q ∈ built (o1 ++ o2), q.ID = id) ∨ ∃ q ∈ h.curSwitch, q.ID = id := by
    rintro id ⟨q, hq, e⟩
    rcases a.2 q hq with hb | ⟨q', hq', e'⟩
    · exact Or.inl (lift1 id (by rw [← e]; exact hb))
    · exact Or.inr ⟨q', hq', e'.trans e⟩
  constructor
  · intro p hp
    rcases List.mem_append.mp hp with hp | hp
    · rcases a.1 p hp with hb | hc
      · exact Or.inl (lift1 _ hb)
      · exact Or.inr hc
    · rcases b.1 p hp with hb | hc
      · exact Or.inl (lift2 _ hb)
      · exact via _ hc
  · intro p hp
    rcases b.2 p hp with hb | hc
    · exact Or.inl (lift2 _ hb)
    · exact via _ hc

namespace HealthMgr

theorem checkSwitchValidator_idRel (s : Bool) (h : HealthMgr) (v : Ptr) (h1 : HealthMgr)
    (o1 : List SwitchValidator) (hch : h.checkSwitchValidator v s = some (h1, o1)) :
    IdRel h h1 o1 := by
  rcases checkSwitchValidator_cases h v s h1 o1 hch with ⟨_, e1, e2⟩ | ⟨_, _, e1, e2⟩ |
    ⟨_, _, _, _, e1, e2⟩
  · rw [e1, e2]
    exact idRel_refl h
  · rw [e1]
    constructor
    · intro p hp
      obtain ⟨sv0, r, hhd, hp', _⟩ := restoreOut_mem _ _ p e2 hp
      have hmem : sv0 ∈ h.curSwitch := by
        have := List.mem_of_mem_head? hhd
        simpa [bumped] using this
      exact Or.inr ⟨sv0, hmem, by rw [hp']⟩
    · intro p hp
      exact Or.inr ⟨p, by simpa [bumped] using hp, rfl⟩
  · rw [e1, e2]
    constructor
    · intro p hp
      exact Or.inl ⟨p, by simpa [built, switchProposal] using hp, rfl⟩
    · intro p hp
      have hp' : p = h.switchProposal v := by simpa [switchState] using hp
      exact Or.inl ⟨p, by rw [hp']; simp [built, switchProposal], rfl⟩

theorem healthTick_idRel (h h' : HealthMgr) (out : List SwitchValidator)
    (hw : h.healthTick = some (h', out)) : IdRel h h' out :=
  work_rel _ IdRel idRel_refl (fun _ _ _ _ _ a b => idRel_trans a b)
    (fun h v h1 o1 hch => checkSwitchValidator_idRel _ h v h1 o1 hch) h h' out hw

end HealthMgr

theorem run_idRel (address : List Nat → List Nat) (ops : List Op) (h g : HealthMgr)
    (out : List SwitchValidator) (hr : run address h ops = some (g, out)) : IdRel h g out := by
  refine run_rel address (fun _ => True) IdRel idRel_refl (fun _ _ _ _ _ a b =>
    idRel_trans a b)
    (fun h op g out _ hs => ?_) ops h g out (fun _ _ => trivial) hr
  rcases step_cases address h g op out hs with ⟨_, ht⟩ | ⟨hc, ho⟩
  · exact HealthMgr.healthTick_idRel h g out ht
  · rw [ho]
    exact ⟨(fun _ hp => by cases hp), fun p hp => Or.inr ⟨p, hc.pending.subset hp, rfl⟩⟩

/-- The identifier base of a new manager: the low 32 bits of the committee id, shifted, plus
100. -/
theorem newHealthMgr_uid (mem : Ptr → Health) (cid : Nat) :
    (NewHealthMgr mem cid).uid = 2 ^ 32 * (cid % 2 ^ 32) + 100 := by
  have h1 : (cid <<< 32) % 2 ^ 64 = 2 ^ 32 * (cid % 2 ^ 32) := by
    rw [Nat.shiftLeft_eq, show (2 : Nat) ^ 64 = 2 ^ 32 * 2 ^ 32 by norm_num,
      Nat.mul_mod_mul_right, Nat.mul_comm]
  show ((cid <<< 32) % 2 ^ 64) ||| 100 = _
  rw [h1]
  exact (Nat.mul_add_lt_is_or (by norm_num) _).symm

/-- The proposals sent over a run from a new manager carry the committee id's low 32 bits in the
high half of their ID, as long as fewer than `2^32 - 100` proposals were built. -/
theorem run_id_high (address : List Nat → List Nat) (mem : Ptr → Health) (cid : Nat)
    (ops : List Op) (g : HealthMgr) (out : List SwitchValidator)
    (hrun : run address (NewHealthMgr mem cid) ops = some (g, out))
    (hn : (built out).length ≤ 2 ^ 32 - 100) :
    ∀ p ∈ out, p.ID / 2 ^ 32 = cid % 2 ^ 32 := by
  have hb : ∀ q ∈ built out, q.ID / 2 ^ 32 = cid % 2 ^ 32 := by
    intro q hq
    obtain ⟨r1, _⟩ := run_uidRel address ops _ g out hrun
    obtain ⟨k, hk, hget⟩ := List.getElem_of_mem hq
    have h1 : ((built out).map (fun p => p.ID))[k]? = some q.ID := by
      simp [List.getElem?_map, List.getElem?_eq_getElem hk, hget]
    rw [r1] at h1
    simp only [List.getElem?_map, List.getElem?_range hk, Option.map_some',
      Option.some.injEq] at h1
    rw [uidAfter_eq _ _ (newHealthMgr_uid_lt mem cid), newHealthMgr_uid] at h1
    have hc : cid % 2 ^ 32 < 2 ^ 32 := Nat.mod_lt _ (by norm_num)
    rw [← h1]
    omega
  intro p hp
  rcases (run_idRel address ops _ g out hrun).1 p hp with ⟨q, hq, e⟩ | ⟨q, hq, _⟩
  · rw [← e]
    exact hb q hq
  · simp [NewHealthMgr] at hq

/-- C24 (amended): for two managers created with committee ids `cid1`, `cid2` and any two
sequences of calls in each of which at most `2^32 - 100` proposals are built: the high 32 bits of
every proposal sent by a manager (direction-0 proposals and their restore copies) equal the low
32 bits of its committee id, so no proposal of one carries an ID of the other when the committee
ids differ in their low 32 bits, in particular when they are distinct and below `2^32`. -/
theorem proposal_ids_separate_committees (a1 a2 : List Nat → List Nat) (mem1 mem2 : Ptr → Health)
    (cid1 cid2 : Nat) (ops1 ops2 : List Op) (g1 g2 : HealthMgr) (out1 out2 : List SwitchValidator)
    (hrun1 : run a1 (NewHealthMgr mem1 cid1) ops1 = some (g1, out1))
    (hrun2 : run a2 (NewHealthMgr mem2 cid2) ops2 = some (g2, out2))
    (hn1 : (built out1).length ≤ 2 ^ 32 - 100) (hn2 : (built out2).length ≤ 2 ^ 32 - 100) :
    (∀ p ∈ out1, p.ID / 2 ^ 32 = cid1 % 2 ^ 32)
    ∧ (∀ p ∈ out2, p.ID / 2 ^ 32 = cid2 % 2 ^ 32)
    ∧ (cid1 % 2 ^ 32 ≠ cid2 % 2 ^ 32 → ∀ p1 ∈ out1, ∀ p2 ∈ out2, p1.ID ≠ p2.ID)
    ∧ (cid1 < 2 ^ 32 → cid2 < 2 ^ 32 → cid1 ≠ cid2 → ∀ p1 ∈ out1, ∀ p2 ∈ out2, p1.ID ≠ p2.ID) := by
  have h1 := run_id_high a1 mem1 cid1 ops1 g1 out1 hrun1 hn1
  have h2 := run_id_high a2 mem2 cid2 ops2 g2 out2 hrun2 hn2
  have h3 : cid1 % 2 ^ 32 ≠ cid2 % 2 ^ 32 → ∀ p1 ∈ out1, ∀ p2 ∈ out2, p1.ID ≠ p2.ID := by
    intro hne p1 hp1 p2 hp2 e
    apply hne
    rw [← h1 p1 hp1, ← h2 p2 hp2, e]
  refine ⟨h1, h2, h3, fun hc1 hc2 hne => h3 ?_⟩
  rw [Nat.mod_eq_of_lt hc1, Nat.mod_eq_of_lt hc2]
  exact hne

theorem proposal_ids_separate_committees_witness :
    (∀ p ∈ scenario1Sent 7, p.ID / 2 ^ 32 = 7 % 2 ^ 32)
    ∧ (∀ p ∈ scenario1Sent 8, p.ID / 2 ^ 32 = 8 % 2 ^ 32)
    ∧ (∀ p1 ∈ scenario1Sent 7, ∀ p2 ∈ scenario1Sent 8, p1.ID ≠ p2.ID)
    ∧ (scenario1Sent 7).map (fun p => p.ID) = [30064771172]
    ∧ (scenario1Sent 8).map (fun p => p.ID) = [34359738468] :=
  ⟨(proposal_ids_separate_committees id id (scenario1Mem 180) (scenario1Mem 180) 7 8
      scenario1Ops scenario1Ops
      (runState id (NewHealthMgr (scenario1Mem 180) 7) scenario1Ops)
      (runState id (NewHealthMgr (scenario1Mem 180) 8) scenario1Ops)
      (scenario1Sent 7) (scenario1Sent 8) rfl rfl (by decide) (by decide)).1,
    (proposal_ids_separate_committees id id (scenario1Mem 180) (scenario1Mem 180) 7 8
      scenario1Ops scenario1Ops
      (runState id (NewHealthMgr (scenario1Mem 180) 7) scenario1Ops)
      (runState id (NewHealthMgr (scenario1Mem 180) 8) scenario1Ops)
      (scenario1Sent 7) (scenario1Sent 8) rfl rfl (by decide) (by decide)).2.1,
    (proposal_ids_separate_committees id id (scenario1Mem 180) (scenario1Mem 180) 7 8
      scenario1Ops scenario1Ops
      (runState id (NewHealthMgr (scenario1Mem 180) 7) scenario1Ops)
      (runState id (NewHealthMgr (scenario1Mem 180) 8) scenario1Ops)
      (scenario1Sent 7) (scenario1Sent 8) rfl rfl (by decide) (by decide)).2.2.1 (by decide),
    by decide, by decide⟩

/-- C24 as stated fails: `cid << 32` keeps only the low 32 bits of the committee id, so the
managers created with the distinct 64-bit committee ids 7 and `2^32 + 7` build the same proposal
ID, whose high 32 bits are 7. -/
theorem proposal_ids_collide_counterexample :
    (7 : Nat) ≠ 4294967303 ∧ 4294967303 < 2 ^ 64
    ∧ (NewHealthMgr (scenario1Mem 180) 7).uid = (NewHealthMgr (scenario1Mem 180) 4294967303).uid
    ∧ (scenario1Sent 7).map (fun p => (p.ID, p.From)) = [(30064771172, 0)]
    ∧ (scenario1Sent 4294967303).map (fun p => (p.ID, p.From)) = [(30064771172, 0)]
    ∧ (30064771172 : Nat) / 2 ^ 32 = 7
    ∧ (30064771172 : Nat) / 2 ^ 32 ≠ 4294967303 := by
  refine ⟨by decide, by norm_num, by decide, by decide, by decide, by decide, by decide⟩

/-! ## The shape of a pass of the tick loop -/

theorem quiet_refl (h : HealthMgr) : Quiet h h :=
  ⟨sameButTicks_refl h, fun _ _ => rfl⟩

theorem quiet_trans {h g k : HealthMgr} (a : Quiet h g) (b : Quiet g k) : Quiet h k :=
  ⟨sameButTicks_trans a.same b.same, fun q hq => by
    rw [b.idle q (by rw [a.same.state q]; exact hq), a.idle q hq]⟩

theorem passShape_refl (s : Bool) (h : HealthMgr) : PassShape s h h [] :=
  ⟨fun _ => ⟨rfl, quiet_refl h⟩, fun _ => Or.inl ⟨rfl, quiet_refl h⟩⟩

theorem passShape_trans {s : Bool} {h h1 h2 : HealthMgr} {o1 o2 : List SwitchValidator}
    (a : PassShape s h h1 o1) (b : PassShape s h1 h2 o2) : PassShape s h h2 (o1 ++ o2) := by
  constructor
  · intro hne
    obtain ⟨a1, a2⟩ := a.1 hne
    obtain ⟨b1, b2⟩ := b.1 (by rw [a2.same.curSwitch]; exact hne)
    exact ⟨by rw [built_append, a1, b1]; rfl, quiet_trans a2 b2⟩
  · intro he
    rcases a.2 he with ⟨a1, a2⟩ | ⟨hs, h0, v, q1, q2, q3, q4, q5, q6⟩
    · rcases b.2 (by rw [a2.same.curSwitch]; exact he) with ⟨b1, b2⟩ |
        ⟨hs, h0, v, q1, q2, q3, q4, q5, q6⟩
      · exact Or.inl ⟨by rw [built_append, a1, b1]; rfl, quiet_trans a2 b2⟩
      · exact Or.inr ⟨hs, h0, v, quiet_trans a2 q1, q2, q3, q4,
          by rw [built_append, a1, q5]; rfl, q6⟩
    · have hne : h1.curSwitch ≠ [] := by
        rw [q6.same.curSwitch]
        simp [HealthMgr.switchState]
      obtain ⟨b1, b2⟩ := b.1 hne
      exact Or.inr ⟨hs, h0, v, q1, q2, q3, q4, by rw [built_append, q5, b1]; rfl,
        quiet_trans q6 b2⟩

namespace HealthMgr

/-- The restore path sends no direction-0 proposal. -/
theorem built_restoreOut (h : HealthMgr) (out : List SwitchValidator)
    (hr : h.restoreOut = some out) : built out = [] := by
  unfold built
  rw [List.filter_eq_nil_iff]
  intro p hp
  obtain ⟨sv0, r, _, hp', _⟩ := restoreOut_mem _ _ p hr hp
  rw [hp']
  simp

theorem quiet_bumped (h : HealthMgr) (v : Ptr) (hv : h.ticking v) : Quiet h (h.bumped v) := by
  refine ⟨sameButTicks_bumped h v, fun q hq => bumped_Tick_ne h v q ?_⟩
  intro e
  rw [e] at hq
  exact hq hv.1

theorem checkSwitchValidator_passShape (s : Bool) (h : HealthMgr) (v : Ptr) (h1 : HealthMgr)
    (o1 : List SwitchValidator) (hch : h.checkSwitchValidator v s = some (h1, o1)) :
    PassShape s h h1 o1 := by
  rcases checkSwitchValidator_cases h v s h1 o1 hch with ⟨_, e1, e2⟩ | ⟨hg, _, e1, e2⟩ |
    ⟨hg, hs, hv, hc, e1, e2⟩
  · rw [e1, e2]
    exact passShape_refl s h
  · rw [e1]
    have hb := built_restoreOut _ _ e2
    exact ⟨fun _ => ⟨hb, quiet_bumped h v hg⟩, fun _ => Or.inl ⟨hb, quiet_bumped h v hg⟩⟩
  · rw [e1, e2]
    refine ⟨fun hne => absurd hc hne, fun _ => Or.inr ⟨hs, h, v, quiet_refl h, hc, hg, hv, ?_,
      quiet_refl _⟩⟩
    simp [built, switchProposal]

/-- Every pass of the tick loop has the shape `PassShape`. -/
theorem healthTick_passShape (h g : HealthMgr) (out : List SwitchValidator)
    (ht : h.healthTick = some (g, out)) : PassShape h.isShiftSV.1 h g out :=
  work_rel _ (PassShape h.isShiftSV.1) (passShape_refl _) (fun _ _ _ _ _ a b => passShape_trans a b)
    (fun h v h1 o1 hch => checkSwitchValidator_passShape _ h v h1 o1 hch) h g out ht

/-- A direction-0 proposal sent by a pass of the tick loop is the one the switch path built, in
a state that differs from the start by ticks only. -/
theorem passShape_built {s : Bool} {h g : HealthMgr} {out : List SwitchValidator}
    (hs : PassShape s h g out) (p : SwitchValidator) (hp : p ∈ out) (hf : p.From = 0) :
    s = true ∧ ∃ h0 v, Quiet h h0 ∧ h0.curSwitch = [] ∧ h0.ticking v
      ∧ wrapInt32 ((h0.mem v).Tick + 1) > HealthOut ∧ p = h0.switchProposal v
      ∧ Quiet (h0.switchState v) g := by
  have hb : p ∈ built out := by
    unfold built
    rw [List.mem_filter]
    exact ⟨hp, by simp [hf]⟩
  by_cases hc : h.curSwitch = []
  · rcases hs.2 hc with ⟨b1, _⟩ | ⟨hs', h0, v, q1, q2, q3, q4, q5, q6⟩
    · rw [b1] at hb; cases hb
    · rw [q5] at hb
      exact ⟨hs', h0, v, q1, q2, q3, q4, by simpa using hb, q6⟩
  · rw [(hs.1 hc).1] at hb; cases hb

/-- The switch path leaves `remove` Switching above the threshold and `add` nil or Switching. -/
theorem holdsSwitch_switchState (h : HealthMgr) (v : Ptr)
    (hv : wrapInt32 ((h.mem v).Tick + 1) > HealthOut) :
    (h.switchState v).holdsSwitch (h.switchProposal v) := by
  refine ⟨v, rfl, by simp [switchState], ?_, ?_⟩
  · rw [switchState_Tick]
    simpa [bumped] using hv
  · cases hadd : (h.bumped v).pickUnuseValidator.1 with
    | none => exact Or.inl (by simp [switchProposal, hadd])
    | some a =>
      refine Or.inr ⟨a, by simp [switchProposal, hadd], ?_⟩
      have h2 : (h.bumped v).pickUnuseValidator.2 =
          (h.bumped v).storeState a StateSwitchingFlag := by
        rw [pickUnuseValidator_snd, hadd]
      simp only [switchState, h2, storeState_State]
      split <;> simp

theorem holdsSwitch_quiet {h g : HealthMgr} (hq : Quiet h g) (p : SwitchValidator)
    (hp : h.holdsSwitch p) : g.holdsSwitch p := by
  obtain ⟨r, h1, h2, h3, h4⟩ := hp
  have hs : (2 : Int) ≠ 1 := by decide
  refine ⟨r, h1, by rw [hq.same.state r]; exact h2, ?_, ?_⟩
  · rw [hq.idle r (by rw [h2]; exact hs)]
    exact h3
  · rcases h4 with h4 | ⟨a, h4, h5⟩
    · exact Or.inl h4
    · exact Or.inr ⟨a, h4, by rw [hq.same.state a]; exact h5⟩

theorem verifySwitchEnter_of_holdsSwitch (g : HealthMgr) (p : SwitchValidator)
    (hp : g.holdsSwitch p) : g.verifySwitchEnter p.Remove p.Add = none := by
  obtain ⟨r, h1, h2, h3, h4⟩ := hp
  have h3' : (g.mem r).Tick ≥ HealthOut := le_of_lt h3
  rcases h4 with h4 | ⟨a, h4, h5⟩
  · simp [verifySwitchEnter, h1, h2, h4, h3', StateUsedFlag, StateSwitchingFlag]
  · simp [verifySwitchEnter, h1, h2, h4, h5, h3', StateUsedFlag, StateSwitchingFlag,
      StateRemovedFlag]

end HealthMgr

/-- C29: a direction-0 proposal `p` emitted by the tick loop passes `verifySwitchEnter` in the
manager state of that moment: right after the check of the record that triggered it, and still
at the end of the tick step, `verifySwitchEnter(p.remove, p.add)` returns nil, `p.remove` is
Switching with a tick above 180, and `p.add` is nil or Switching. -/
theorem emitted_proposal_verifies (h : HealthMgr) :
    (∀ v s h1 o1, h.checkSwitchValidator v s = some (h1, o1) → ∀ p ∈ o1, p.From = 0 →
        h1.verifySwitchEnter p.Remove p.Add = none ∧ h1.holdsSwitch p)
    ∧ (∀ g out, h.healthTick = some (g, out) → ∀ p ∈ out, p.From = 0 →
        g.verifySwitchEnter p.Remove p.Add = none ∧ g.holdsSwitch p) := by
  constructor
  · intro v s h1 o1 hch p hp hf
    obtain ⟨_, h0, w, q1, q2, q3, q4, q5, q6⟩ :=
      HealthMgr.passShape_built (HealthMgr.checkSwitchValidator_passShape s h v h1 o1 hch) p hp hf
    have hh := HealthMgr.holdsSwitch_quiet q6 p
      (by rw [q5]; exact HealthMgr.holdsSwitch_switchState h0 w q4)
    exact ⟨HealthMgr.verifySwitchEnter_of_holdsSwitch h1 p hh, hh⟩
  · intro g out ht p hp hf
    obtain ⟨_, h0, w, q1, q2, q3, q4, q5, q6⟩ :=
      HealthMgr.passShape_built (HealthMgr.healthTick_passShape h g out ht) p hp hf
    have hh := HealthMgr.holdsSwitch_quiet q6 p
      (by rw [q5]; exact HealthMgr.holdsSwitch_switchState h0 w q4)
    exact ⟨HealthMgr.verifySwitchEnter_of_holdsSwitch g p hh, hh⟩

theorem emitted_proposal_verifies_witness :
    scenario1Proposal ∈ (scenario1 180).tickSent
    ∧ scenario1Switched.verifySwitchEnter scenario1Proposal.Remove scenario1Proposal.Add = none
    ∧ (scenario1Switched.mem 0).State = StateSwitchingFlag
    ∧ (scenario1Switched.mem 0).Tick = 181
    ∧ (scenario1Switched.mem 4).State = StateSwitchingFlag :=
  ⟨by decide,
    ((emitted_proposal_verifies (scenario1 180)).2 scenario1Switched (scenario1 180).tickSent rfl
      scenario1Proposal (by decide) rfl).1,
    by decide, by decide, by decide⟩

/-! ## The number of member entries of a built proposal -/

namespace HealthMgr

theorem equal_iff_identity (h : HealthMgr) (p q : Ptr) :
    Health.Equal h.mem (some p) (some q) = true ↔ h.identity p = h.identity q := by
  simp [Health.Equal, identity]

theorem countP_le_split {α : Type} (p e : α → Bool) (l : List α) :
    l.countP p ≤ l.countP (fun x => p x && !e x) + l.countP e := by
  induction l with
  | nil => simp
  | cons x xs ih =>
    simp only [List.countP_cons]
    cases hp : p x <;> cases he : e x <;> simp <;> omega

theorem countP_key_le_one {α β : Type} [DecidableEq β] (f : α → β) (c : β) (l : List α)
    (hnd : (l.map f).Nodup) : l.countP (fun x => decide (f x = c)) ≤ 1 := by
  induction l with
  | nil => simp
  | cons x xs ih =>
    rw [List.map_cons, List.nodup_cons] at hnd
    simp only [List.countP_cons]
    by_cases hx : f x = c
    · have h0 : xs.countP (fun x => decide (f x = c)) = 0 := by
        rw [List.countP_eq_zero]
        intro y hy hc
        apply hnd.1
        rw [hx]
        have hc' : f y = c := by simpa using hc
        rw [← hc']
        exact List.mem_map_of_mem f hy
      simp [hx, h0]
    · have := ih hnd.2
      simp [hx]
      exact this

theorem leadMembers_length (h : HealthMgr) (r : Ptr) (add : Option Ptr) :
    1 ≤ (leadMembers h r add).length := by
  cases add <;> simp [leadMembers]

/-- With pairwise distinct identities, and `add` equal to no `Used` backup or seed record, the
members list has at least as many entries as there are `Used` records. -/
theorem listedMembers_length (h : HealthMgr) (r : Ptr) (add : Option Ptr)
    (hadd : ∀ q ∈ h.Back ++ h.seed, (h.mem q).State = StateUsedFlag →
      Health.Equal h.mem (some q) add = false)
    (hnd : (h.roster.map h.identity).Nodup) :
    h.usedCount ≤ (listedMembers h r add).length := by
  have hfilter : (h.Back ++ h.seed).filter
      (fun v => decide ((h.mem v).State = StateUsedFlag)
        && !Health.Equal h.mem (some v) (some r) && !Health.Equal h.mem (some v) add) =
      (h.Back ++ h.seed).filter
        (fun v => decide ((h.mem v).State = StateUsedFlag)
          && !Health.Equal h.mem (some v) (some r)) := by
    apply List.filter_congr
    intro q hq
    by_cases hs : (h.mem q).State = StateUsedFlag
    · simp [hs, hadd q hq hs]
    · simp [hs]
  have hsplit := countP_le_split (fun v => decide ((h.mem v).State = StateUsedFlag))
    (fun v => Health.Equal h.mem (some v) (some r)) h.roster
  have hone : h.roster.countP (fun v => Health.Equal h.mem (some v) (some r)) ≤ 1 := by
    have := countP_key_le_one h.identity (h.identity r) h.roster hnd
    refine le_trans (le_of_eq ?_) this
    apply List.countP_congr
    intro q _
    simp [Health.Equal, identity]
  have hlead := leadMembers_length h r add
  unfold usedCount
  rw [← List.countP_eq_length_filter]
  unfold listedMembers
  rw [hfilter]
  simp only [List.length_append, List.length_map, ← List.countP_eq_length_filter]
  have hroster : h.roster.countP (fun v => decide ((h.mem v).State = StateUsedFlag)
        && !Health.Equal h.mem (some v) (some r)) =
      (h.Work.map Prod.snd).countP (fun v => decide ((h.mem v).State = StateUsedFlag)
        && !Health.Equal h.mem (some v) (some r)) +
      (h.Back ++ h.seed).countP (fun v => decide ((h.mem v).State = StateUsedFlag)
        && !Health.Equal h.mem (some v) (some r)) := by
    unfold roster
    rw [List.append_assoc, List.countP_append]
  omega

/-- The state in which the switch path builds its proposal counts the same `Used` records as
the state `h` the pass started from, keeps the identities, and its `add` equals no `Used` backup
or seed record. -/
theorem switchProposal_length (h h0 : HealthMgr) (v : Ptr) (hq : Quiet h h0)
    (hnd : (h.roster.map h.identity).Nodup) :
    ∃ infos, (h0.switchProposal v).Infos = some infos ∧ h.usedCount ≤ infos.Vals.length := by
  have hpk := pickUnuseValidator_snd (h0.bumped v)
  have hfst := pickUnuseValidator_fst (h0.bumped v)
  have hro : (h0.bumped v).pickUnuseValidator.2.roster = h.roster := by
    simp [roster, bumped, hq.same.roster.work, hq.same.roster.back, hq.same.roster.seed]
  have hid : ∀ q, (h0.bumped v).pickUnuseValidator.2.identity q = h.identity q := by
    intro q
    simp [identity, bumped, hq.same.roster.id, hq.same.roster.val]
  have hnd2 : ((h0.bumped v).pickUnuseValidator.2.roster.map
      (h0.bumped v).pickUnuseValidator.2.identity).Nodup := by
    rw [hro]
    have : (h0.bumped v).pickUnuseValidator.2.identity = h.identity := funext hid
    rw [this]
    exact hnd
  have hstate0 : ∀ q, ((h0.bumped v).mem q).State = (h.mem q).State := by
    intro q
    simp [bumped, hq.same.state]
  have hadd : ∀ q ∈ (h0.bumped v).pickUnuseValidator.2.Back
        ++ (h0.bumped v).pickUnuseValidator.2.seed,
      ((h0.bumped v).pickUnuseValidator.2.mem q).State = StateUsedFlag →
      Health.Equal (h0.bumped v).pickUnuseValidator.2.mem (some q)
        (h0.bumped v).pickUnuseValidator.1 = false := by
    intro q hqm hqs
    cases hadd : (h0.bumped v).pickUnuseValidator.1 with
    | none => rfl
    | some a =>
      rw [hadd] at hpk hfst
      by_contra hne
      have heq : Health.Equal (h0.bumped v).pickUnuseValidator.2.mem (some q) (some a) = true := by
        simpa using hne
      rw [equal_iff_identity] at heq
      have hain : a ∈ (h0.bumped v).Back ++ (h0.bumped v).seed := by
        cases hb : (h0.bumped v).Back.find?
            (fun v_1 => decide (((h0.bumped v).mem v_1).State = StateUnusedFlag)) with
        | some w =>
          rw [hb] at hfst
          cases hfst
          exact List.mem_append_left _ (List.mem_of_find?_eq_some hb)
        | none =>
          rw [hb] at hfst
          exact List.mem_append_right _ (List.mem_of_find?_eq_some hfst.symm)
      have hqr : q ∈ (h0.bumped v).pickUnuseValidator.2.roster := by
        unfold roster
        rw [List.append_assoc]
        exact List.mem_append_right _ hqm
      have har : a ∈ (h0.bumped v).pickUnuseValidator.2.roster := by
        unfold roster
        rw [List.append_assoc]
        exact List.mem_append_right _ (by simpa using hain)
      have hqa : q = a := List.inj_on_of_nodup_map hnd2 hqr har heq
      rw [hqa, hpk] at hqs
      simp [StateSwitchingFlag, StateUsedFlag] at hqs
  have hlen := listedMembers_length (h0.bumped v).pickUnuseValidator.2 v
    (h0.bumped v).pickUnuseValidator.1 hadd hnd2
  have hcount : (h0.bumped v).pickUnuseValidator.2.usedCount = h.usedCount := by
    unfold usedCount
    rw [hro]
    congr 1
    apply List.filter_congr
    intro q _
    have : ((h0.bumped v).pickUnuseValidator.2.mem q).State = StateUsedFlag ↔
        (h.mem q).State = StateUsedFlag := by
      cases hadd' : (h0.bumped v).pickUnuseValidator.1 with
      | none =>
        rw [hadd'] at hpk
        rw [hpk, hstate0]
      | some a =>
        have hun := pickUnuseValidator_unused (h0.bumped v) a hadd'
        rw [hadd'] at hpk
        rw [hpk, storeState_State]
        by_cases hqa : q = a
        · subst hqa
          rw [hstate0] at hun
          simp [hun, StateSwitchingFlag, StateUsedFlag, StateUnusedFlag]
        · simp [hqa, hstate0]
    simp [this]
  exact ⟨_, rfl, by rw [← hcount]; exact hlen⟩

end HealthMgr

/-- C30: when the roster records have pairwise distinct (peer id, public key) identities, every
direction-0 proposal sent by a tick step has at least as many member entries as there are `Used`
records at the start of the step, and these are more than 2 (the shift flag was true): the guard
`len(res.Infos.Vals) > 2` of `switchResult` holds for it. -/
theorem built_proposal_has_three_members (h g : HealthMgr) (out : List SwitchValidator)
    (hnd : (h.roster.map h.identity).Nodup) (ht : h.healthTick = some (g, out))
    (p : SwitchValidator) (hp : p ∈ out) (hf : p.From = 0) :
    ∃ infos, p.Infos = some infos ∧ infos.Vals.length > 2 ∧ h.usedCount > 2
      ∧ h.usedCount ≤ infos.Vals.length := by
  obtain ⟨hs, h0, v, q1, _, _, _, q5, _⟩ :=
    HealthMgr.passShape_built (HealthMgr.healthTick_passShape h g out ht) p hp hf
  have hcnt : h.usedCount > 2 := by
    rw [HealthMgr.isShiftSV_fst, HealthMgr.isShiftSV_count] at hs
    have : ((2 : Int)) < ((h.Work.map Prod.snd ++ h.Back ++ h.seed).filter
        (fun v => decide ((h.mem v).State = StateUsedFlag))).length := by
      simpa using hs
    unfold HealthMgr.usedCount HealthMgr.roster
    exact_mod_cast this
  obtain ⟨infos, hi, hl⟩ := HealthMgr.switchProposal_length h h0 v q1 hnd
  rw [q5]
  exact ⟨infos, hi, by omega, hcnt, hl⟩

theorem built_proposal_has_three_members_witness :
    ((scenario1 180).roster.map (scenario1 180).identity).Nodup
    ∧ scenario1Proposal ∈ (scenario1 180).tickSent
    ∧ ∃ infos, scenario1Proposal.Infos = some infos ∧ infos.Vals.length > 2
        ∧ (scenario1 180).usedCount > 2 ∧ (scenario1 180).usedCount ≤ infos.Vals.length :=
  ⟨by decide, by decide,
    built_proposal_has_three_members (scenario1 180) scenario1Switched (scenario1 180).tickSent
      (by decide) rfl scenario1Proposal (by decide) rfl⟩

/-! ## The ticks after one tick step -/

namespace HealthMgr

/-- One record of the tick loop: the record checked gets one more tick when it is counted, and
whether another record is counted does not change. -/
theorem checkSwitchValidator_count (s : Bool) (h : HealthMgr) (v : Ptr) (h1 : HealthMgr)
    (o1 : List SwitchValidator) (hch : h.checkSwitchValidator v s = some (h1, o1)) :
    (h1.mem v).Tick = (if h.ticking v then wrapInt32 ((h.mem v).Tick + 1) else (h.mem v).Tick)
    ∧ ∀ q, q ≠ v → ((h1.mem q).Tick = (h.mem q).Tick ∧ (h1.ticking q ↔ h.ticking q)) := by
  have hfoot := (checkSwitchValidator_footprint s h v h1 o1 hch).1
  rcases checkSwitchValidator_cases h v s h1 o1 hch with ⟨hg, e1, _⟩ | ⟨hg, _, e1, _⟩ |
    ⟨hg, _, _, _, e1, _⟩
  · rw [e1, if_neg hg]
    exact ⟨rfl, fun q _ => ⟨rfl, Iff.rfl⟩⟩
  · refine ⟨?_, fun q hq => ⟨hfoot q hq, ?_⟩⟩
    · rw [e1, if_pos hg]
      simp [bumped]
    · rw [e1]
      exact ticking_bumped h v q
  · refine ⟨?_, fun q hq => ⟨hfoot q hq, ?_⟩⟩
    · rw [e1, if_pos hg, switchState_Tick]
      simp [bumped]
    · rw [e1]
      have hst : ((h.switchState v).mem q).State = StateUsedFlag ↔
          (h.mem q).State = StateUsedFlag := by
        have hpk := pickUnuseValidator_snd (h.bumped v)
        have hsw : ((h.switchState v).mem q).State =
            ((h.bumped v).pickUnuseValidator.2.mem q).State := by
          simp [switchState, storeState_State, hq]
        have hb : ((h.bumped v).mem q).State = (h.mem q).State := by simp [bumped]
        rw [hsw]
        cases hadd : (h.bumped v).pickUnuseValidator.1 with
        | none =>
          rw [hadd] at hpk
          rw [hpk, hb]
        | some a =>
          have hun := pickUnuseValidator_unused (h.bumped v) a hadd
          rw [hadd] at hpk
          rw [hpk, storeState_State]
          by_cases hqa : q = a
          · subst hqa
            rw [hb] at hun
            simp [hun, StateSwitchingFlag, StateUsedFlag, StateUnusedFlag]
          · simp [hqa, hb]
      have hr := sameRoster_switchState h v
      unfold ticking
      rw [hst, hr.htype q, hr.self q]

/-- A loop of `work` over pairwise distinct records gives one more tick to each record of the
loop that was counted at the start, and leaves the other ticks. -/
theorem workLoop_ticks (s : Bool) : ∀ (vs : List Ptr) (h h' : HealthMgr)
    (out : List SwitchValidator), vs.Nodup → workLoop s h vs = some (h', out) →
    ∀ q, (h'.mem q).Tick =
      (if q ∈ vs ∧ h.ticking q then wrapInt32 ((h.mem q).Tick + 1) else (h.mem q).Tick) := by
  intro vs
  induction vs with
  | nil =>
    intro h h' out _ hw q
    simp only [workLoop, Option.some.injEq, Prod.mk.injEq] at hw
    rw [← hw.1]
    simp
  | cons v vs ih =>
    intro h h' out hnd hw q
    obtain ⟨h1, o1, o2, hc, hl, _⟩ := workLoop_cons_some s h v vs h' out hw
    rw [List.nodup_cons] at hnd
    obtain ⟨c1, c2⟩ := checkSwitchValidator_count s h v h1 o1 hc
    have hrec := ih h1 h' o2 hnd.2 hl q
    by_cases hqv : q = v
    · subst hqv
      rw [hrec, if_neg (fun hh => hnd.1 hh.1), c1]
      by_cases hg : h.ticking q
      · rw [if_pos hg, if_pos ⟨List.mem_cons_self _ _, hg⟩]
      · rw [if_neg hg, if_neg (fun hh => hg hh.2)]
    · obtain ⟨t1, t2⟩ := c2 q hqv
      rw [hrec, t1]
      by_cases hin : q ∈ vs ∧ h.ticking q
      · rw [if_pos ⟨hin.1, t2.mpr hin.2⟩, if_pos ⟨List.mem_cons_of_mem _ hin.1, hin.2⟩]
      · rw [if_neg (fun hh => hin ⟨hh.1, t2.mp hh.2⟩), if_neg]
        rintro ⟨hm, hg⟩
        rcases List.mem_cons.mp hm with hm | hm
        · exact hqv hm
        · exact hin ⟨hm, hg⟩

end HealthMgr

/-- C27 (amended): when the entries of working and backup are pairwise distinct records, one
tick step (which returns when the pending list is well formed) adds one tick, in `int32`
arithmetic, to every working or backup record that at the start of the step has state Used, a
role other than Fixed and self = false: its tick grows by exactly 1 when it was below
`2^31 - 1`, and wraps from `2^31 - 1` to `-2^31`.  The tick of every other record (seed records,
records in another state, fixed records, the local node) is unchanged. -/
theorem tick_step_counts_once (h : HealthMgr)
    (hnd : (h.Work.map Prod.snd ++ h.Back).Nodup) :
    (PendingOK h → ∃ g out, h.healthTick = some (g, out))
    ∧ ∀ g out, h.healthTick = some (g, out) → ∀ q,
        ((q ∈ h.Work.map Prod.snd ++ h.Back ∧ (h.mem q).State = StateUsedFlag
            ∧ (h.mem q).HType ≠ TypeFixed ∧ (h.mem q).Self = false) →
          (g.mem q).Tick = wrapInt32 ((h.mem q).Tick + 1)
          ∧ (-2 ^ 31 ≤ (h.mem q).Tick → (h.mem q).Tick < 2 ^ 31 - 1 →
              (g.mem q).Tick = (h.mem q).Tick + 1)
          ∧ ((h.mem q).Tick = 2 ^ 31 - 1 → (g.mem q).Tick = -2 ^ 31))
        ∧ (¬ (q ∈ h.Work.map Prod.snd ++ h.Back ∧ (h.mem q).State = StateUsedFlag
            ∧ (h.mem q).HType ≠ TypeFixed ∧ (h.mem q).Self = false) →
          (g.mem q).Tick = (h.mem q).Tick) := by
  refine ⟨HealthMgr.healthTick_total h, fun g out ht q => ?_⟩
  have hl := HealthMgr.work_as_loop _ h g out ht
  have hq := HealthMgr.workLoop_ticks _ _ h g out hnd hl q
  constructor
  · intro hc
    have hc' : q ∈ h.Work.map Prod.snd ++ h.Back ∧ h.ticking q := ⟨hc.1, hc.2⟩
    rw [if_pos hc'] at hq
    refine ⟨hq, fun h1 h2 => ?_, fun h3 => ?_⟩
    · rw [hq, wrapInt32_succ _ h1 h2]
    · rw [hq, h3]
      decide
  · intro hc
    have hc' : ¬ (q ∈ h.Work.map Prod.snd ++ h.Back ∧ h.ticking q) := fun hh => hc ⟨hh.1, hh.2⟩
    rw [if_neg hc'] at hq
    exact hq

theorem tick_step_counts_once_witness :
    ((scenario1 5).Work.map Prod.snd ++ (scenario1 5).Back).Nodup
    ∧ ((scenario1 5).tickState.mem 0).Tick = ((scenario1 5).mem 0).Tick + 1
    ∧ ((scenario1 5).tickState.mem 4).Tick = ((scenario1 5).mem 4).Tick :=
  ⟨by decide,
    (((tick_step_counts_once (scenario1 5) (by decide)).2 (scenario1 5).tickState
      (scenario1 5).tickSent rfl 0).1 (by decide)).2.1 (by decide) (by decide),
    ((tick_step_counts_once (scenario1 5) (by decide)).2 (scenario1 5).tickState
      (scenario1 5).tickSent rfl 4).2 (by decide)⟩

/-- C27 as stated fails: the working record A of Scenario 1 is Used, not fixed and not the local
node, working and backup are disjoint, and with A at tick `2^31 - 1` the tick step leaves its
tick at `-2^31` instead of increasing it by 1.  It also fails when a record sits twice in backup
(working is empty, so the two collections are disjoint): the step counts it twice, from 50 to
52. -/
theorem tick_step_wraps_counterexample :
    ((scenario1 2147483647).Work.map Prod.snd ++ (scenario1 2147483647).Back).Nodup
    ∧ (0 : Ptr) ∈ (scenario1 2147483647).Work.map Prod.snd
    ∧ ((scenario1 2147483647).mem 0).State = StateUsedFlag
    ∧ ((scenario1 2147483647).mem 0).HType ≠ TypeFixed
    ∧ ((scenario1 2147483647).mem 0).Self = false
    ∧ ((scenario1 2147483647).mem 0).Tick = 2147483647
    ∧ (scenario1 2147483647).healthTick.map (fun x => ((x.1.mem 0).Tick, x.2)) =
        some (-2147483648, [])
    ∧ ((scenario1 2147483647).tickState.mem 0).Tick ≠ ((scenario1 2147483647).mem 0).Tick + 1
    ∧ dupBackRoster.Work = [] ∧ dupBackRoster.Back = [0, 0]
    ∧ List.Disjoint (dupBackRoster.Work.map Prod.snd) dupBackRoster.Back
    ∧ (dupBackRoster.mem 0).State = StateUsedFlag
    ∧ (dupBackRoster.mem 0).Tick = 50
    ∧ dupBackRoster.healthTick.map (fun x => ((x.1.mem 0).Tick, x.2)) = some (52, []) := by
  refine ⟨by decide, by decide, by decide, by decide, by decide, by decide, by decide, by decide,
    by decide, by decide, ?_, by decide, by decide, by decide⟩
  intro x hx
  cases hx

/-! ## Invariants of the roster over sequences of calls -/

theorem guardedRun_inv (ok : HealthMgr → Op → Bool) (address : List Nat → List Nat)
    (Inv : HealthMgr → Prop)
    (hstep : ∀ h op g out, Inv h → ok h op = true → step address h op = some (g, out) → Inv g) :
    ∀ (ops : List Op) (h g : HealthMgr) (out : List SwitchValidator), Inv h →
      guardedRun ok address h ops = true → run address h ops = some (g, out) → Inv g := by
  intro ops
  induction ops with
  | nil =>
    intro h g out hi _ hr
    simp only [run, Option.some.injEq, Prod.mk.injEq] at hr
    rw [← hr.1]
    exact hi
  | cons op ops ih =>
    intro h g out hi hg hr
    obtain ⟨h1, o1, o2, hc, hl, _⟩ := run_cons_some address h op ops g out hr
    unfold guardedRun at hg
    rw [hc] at hg
    simp only [Bool.and_eq_true] at hg
    exact ih h1 g o2 (hstep h op h1 o1 hi hg.1 hc) hg.2 hl

namespace HealthMgr

theorem sameRoster_afterPending (h : HealthMgr) (res : SwitchValidator) :
    SameRoster h (afterPending h res) := by
  refine ⟨by simp, by simp, by simp, ?_, fun _ => by simp, fun _ => by simp, fun _ => by simp,
    fun _ => by simp⟩
  unfold afterPending
  split <;> [split; skip] <;> simp

theorem sameRoster_applyResult (h : HealthMgr) (remove add : Option Ptr) :
    SameRoster h (applyResult h remove add) := by
  unfold applyResult
  have h2 : SameRoster h (match remove with
      | some r => (h.storeState r StateRemovedFlag).storeTick r 0
      | none => h) := by
    cases remove with
    | none => exact sameRoster_refl h
    | some r => exact sameRoster_trans (sameRoster_storeState h r _) (sameRoster_storeTick _ r _)
  cases add with
  | none => exact h2
  | some a =>
    exact sameRoster_trans h2
      (sameRoster_trans (sameRoster_storeState _ a _) (sameRoster_storeTick _ a _))

theorem sameRoster_switchResult (h g : HealthMgr) (res : SwitchValidator)
    (hs : h.switchResult res = some g) : SameRoster h g := by
  rw [switchResult_eq] at hs
  have ha := sameRoster_afterPending h res
  split at hs
  · split at hs
    · cases hs
    · split at hs
      · split at hs
        · cases hs
          exact sameRoster_trans ha (sameRoster_applyResult _ _ _)
        · cases hs; exact ha
      · cases hs; exact ha
  · cases hs; exact ha

theorem sameRoster_Update (h : HealthMgr) (id : String) : SameRoster h (h.Update id) := by
  rcases Update_cases h id with e | ⟨v, _, e⟩
  · rw [e]; exact sameRoster_refl h
  · rw [e]; exact sameRoster_storeTick h v 0

theorem sameRoster_UpdateFromCommittee (address : List Nat → List Nat) (h : HealthMgr)
    (member backMember : List CommitteeMember) :
    SameRoster h (h.UpdateFromCommittee address member backMember) := by
  rw [UpdateFromCommittee_eq]
  have hs := (sameButStates_committeeStores address h member backMember).roster
  exact sameRoster_trans hs
    ⟨rfl, rfl, rfl, rfl, fun _ => rfl, fun _ => rfl, fun _ => rfl, fun _ => rfl⟩

end HealthMgr

/-- What a call does to the roster: the two bootstrap calls and `UpdataHealthInfo` apart, it
keeps the three collections and the identity of every record. -/
theorem step_roster (address : List Nat → List Nat) (h g : HealthMgr) (op : Op)
    (out : List SwitchValidator) (hs : step address h op = some (g, out)) :
    (∃ he, op = Op.putWorkHealth he ∧ g = h.PutWorkHealth he)
    ∨ (∃ he, op = Op.putBackHealth he ∧ g = h.PutBackHealth he)
    ∨ (∃ id ip port pk, op = Op.updataHealthInfo id ip port pk
        ∧ g = h.UpdataHealthInfo id ip port pk)
    ∨ SameRoster h g := by
  cases op with
  | tick => exact Or.inr (Or.inr (Or.inr (HealthMgr.healthTick_tickRel h g out hs).roster))
  | result res =>
    simp only [step] at hs
    cases hr : h.switchResult res with
    | none => rw [hr] at hs; cases hs
    | some g' =>
      rw [hr] at hs
      simp only [Option.map_some', Option.some.injEq, Prod.mk.injEq] at hs
      rw [← hs.1]
      exact Or.inr (Or.inr (Or.inr (HealthMgr.sameRoster_switchResult h g' res hr)))
  | updateFromCommittee member backMember =>
    simp only [step, Option.some.injEq, Prod.mk.injEq] at hs
    rw [← hs.1]
    exact Or.inr (Or.inr (Or.inr (HealthMgr.sameRoster_UpdateFromCommittee address h _ _)))
  | update id =>
    simp only [step, Option.some.injEq, Prod.mk.injEq] at hs
    rw [← hs.1]
    exact Or.inr (Or.inr (Or.inr (HealthMgr.sameRoster_Update h id)))
  | verifySwitch sv =>
    simp only [step, Option.some.injEq, Prod.mk.injEq] at hs
    rw [← hs.1]
    exact Or.inr (Or.inr (Or.inr (sameRoster_refl h)))
  | putWorkHealth he =>
    simp only [step, Option.some.injEq, Prod.mk.injEq] at hs
    exact Or.inl ⟨he, rfl, hs.1.symm⟩
  | putBackHealth he =>
    simp only [step, Option.some.injEq, Prod.mk.injEq] at hs
    exact Or.inr (Or.inl ⟨he, rfl, hs.1.symm⟩)
  | updataHealthInfo id ip port pk =>
    simp only [step, Option.some.injEq, Prod.mk.injEq] at hs
    exact Or.inr (Or.inr (Or.inl ⟨id, ip, port, pk, rfl, hs.1.symm⟩))

namespace HealthMgr

theorem rosterKeys_sameRoster {h g : HealthMgr} (hs : SameRoster h g) :
    g.roster = h.roster ∧ g.rosterKeys = h.rosterKeys := by
  have hr : g.roster = h.roster := by
    unfold roster
    rw [hs.work, hs.back, hs.seed]
  refine ⟨hr, ?_⟩
  unfold rosterKeys
  rw [hr]
  apply List.map_congr_left
  intro q _
  rw [hs.val q]

theorem UpdataHealthInfo_Val (h : HealthMgr) (id ip : String) (port : Nat) (pk : List Nat)
    (q : Ptr) : ((h.UpdataHealthInfo id ip port pk).mem q).Val = (h.mem q).Val := by
  unfold UpdataHealthInfo
  split
  · rename_i enter _
    split
    · by_cases hq : q = enter
      · subst hq; simp
      · simp [Function.update_noteq hq]
    · rfl
  · rfl

theorem UpdataHealthInfo_roster (h : HealthMgr) (id ip : String) (port : Nat) (pk : List Nat) :
    (h.UpdataHealthInfo id ip port pk).Work = h.Work
    ∧ (h.UpdataHealthInfo id ip port pk).Back = h.Back
    ∧ (h.UpdataHealthInfo id ip port pk).seed = h.seed := by
  unfold UpdataHealthInfo
  split
  · split
    · exact ⟨rfl, rfl, rfl⟩
    · exact ⟨rfl, rfl, rfl⟩
  · exact ⟨rfl, rfl, rfl⟩

theorem rosterKeys_UpdataHealthInfo (h : HealthMgr) (id ip : String) (port : Nat)
    (pk : List Nat) :
    (h.UpdataHealthInfo id ip port pk).roster = h.roster
    ∧ (h.UpdataHealthInfo id ip port pk).rosterKeys = h.rosterKeys := by
  obtain ⟨a, b, c⟩ := UpdataHealthInfo_roster h id ip port pk
  have hr : (h.UpdataHealthInfo id ip port pk).roster = h.roster := by
    unfold roster
    rw [a, b, c]
  refine ⟨hr, ?_⟩
  unfold rosterKeys
  rw [hr]
  apply List.map_congr_left
  intro q _
  rw [UpdataHealthInfo_Val]

theorem mem_mapStore (m : List (String × Ptr)) (k : String) (p : Ptr) (e : String × Ptr)
    (he : e ∈ mapStore m k p) : e = (k, p) ∨ e ∈ m := by
  induction m with
  | nil =>
    simp only [mapStore, List.mem_singleton] at he
    exact Or.inl he
  | cons x xs ih =>
    obtain ⟨k', p'⟩ := x
    unfold mapStore at he
    split at he
    · rcases List.mem_cons.mp he with he | he
      · exact Or.inl he
      · exact Or.inr (List.mem_cons_of_mem _ he)
    · rcases List.mem_cons.mp he with he | he
      · exact Or.inr (by rw [he]; exact List.mem_cons_self _ _)
      · rcases ih he with h1 | h1
        · exact Or.inl h1
        · exact Or.inr (List.mem_cons_of_mem _ h1)

theorem mapStore_mem_self (m : List (String × Ptr)) (k : String) (p : Ptr) :
    (k, p) ∈ mapStore m k p := by
  induction m with
  | nil => simp [mapStore]
  | cons x xs ih =>
    obtain ⟨k', p'⟩ := x
    unfold mapStore
    split
    · exact List.mem_cons_self _ _
    · exact List.mem_cons_of_mem _ ih

/-- Storing a record with a fresh key image keeps the images of the map's records, followed by
a list `T`, pairwise distinct. -/
theorem mapStore_nodup {β : Type} (f : Ptr → β) (T : List β) (k : String) (p : Ptr) :
    ∀ m : List (String × Ptr), ((m.map (fun e => f e.2)) ++ T).Nodup →
      f p ∉ (m.map (fun e => f e.2)) ++ T →
      (((mapStore m k p).map (fun e => f e.2)) ++ T).Nodup := by
  intro m
  induction m with
  | nil =>
    intro hnd hp
    simp only [mapStore, List.map_cons, List.map_nil, List.singleton_append, List.nodup_cons]
    exact ⟨by simpa using hp, by simpa using hnd⟩
  | cons x xs ih =>
    obtain ⟨k', p'⟩ := x
    intro hnd hp
    simp only [List.map_cons, List.cons_append, List.nodup_cons, List.mem_cons, not_or] at hnd hp
    unfold mapStore
    split
    · simp only [List.map_cons, List.cons_append, List.nodup_cons]
      exact ⟨hp.2, hnd.2⟩
    · simp only [List.map_cons, List.cons_append, List.nodup_cons]
      refine ⟨?_, ih hnd.2 hp.2⟩
      intro hin
      rcases List.mem_append.mp hin with hin | hin
      · obtain ⟨e, he, hfe⟩ := List.mem_map.mp hin
        rcases mem_mapStore xs k p e he with h1 | h1
        · rw [h1] at hfe
          exact hp.1 hfe
        · exact hnd.1 (List.mem_append_left _ (by rw [← hfe]; exact List.mem_map_of_mem _ h1))
      · exact hnd.1 (List.mem_append_right _ hin)

theorem mapStore_keys_nodup (k : String) (p : Ptr) :
    ∀ m : List (String × Ptr), (m.map Prod.fst).Nodup → ((mapStore m k p).map Prod.fst).Nodup := by
  intro m
  induction m with
  | nil => intro _; simp [mapStore]
  | cons x xs ih =>
    obtain ⟨k', p'⟩ := x
    intro hnd
    simp only [List.map_cons, List.nodup_cons] at hnd
    unfold mapStore
    split
    · rename_i hk
      simp only [List.map_cons, List.nodup_cons]
      rw [← hk]
      exact hnd
    · rename_i hk
      simp only [List.map_cons, List.nodup_cons]
      refine ⟨?_, ih hnd.2⟩
      intro hin
      obtain ⟨e, he, hfe⟩ := List.mem_map.mp hin
      rcases mem_mapStore xs k p e he with h1 | h1
      · rw [h1] at hfe
        exact hk hfe.symm
      · exact hnd.1 (by rw [← hfe]; exact List.mem_map_of_mem _ h1)

theorem rosterKeys_PutWorkHealth (h : HealthMgr) (he : Ptr) (hnd : h.rosterKeys.Nodup)
    (hfresh : (h.mem he).Val.PubKey ∉ h.rosterKeys) : (h.PutWorkHealth he).rosterKeys.Nodup := by
  have hshape : ∀ W : List (String × Ptr),
      ((W.map Prod.snd ++ h.Back ++ h.seed).map (fun q => (h.mem q).Val.PubKey)) =
      (W.map (fun e => (h.mem e.2).Val.PubKey)) ++
        (h.Back ++ h.seed).map (fun q => (h.mem q).Val.PubKey) := by
    intro W
    simp [List.map_append, List.map_map, Function.comp]
  unfold rosterKeys roster at hnd hfresh ⊢
  simp only [PutWorkHealth]
  rw [hshape] at hnd hfresh ⊢
  exact mapStore_nodup (fun q => (h.mem q).Val.PubKey) _ _ he h.Work hnd hfresh

theorem rosterKeys_PutBackHealth (h : HealthMgr) (he : Ptr) (hnd : h.rosterKeys.Nodup)
    (hfresh : (h.mem he).Val.PubKey ∉ h.rosterKeys) :
    (h.PutBackHealth (some he)).rosterKeys.Nodup := by
  have hcons : ((h.mem he).Val.PubKey :: h.rosterKeys).Nodup := List.nodup_cons.mpr ⟨hfresh, hnd⟩
  unfold rosterKeys roster at hcons ⊢
  unfold PutBackHealth
  simp only []
  split
  · simp only [List.map_append, List.map_cons, List.map_nil] at hcons ⊢
    rw [← List.append_assoc, List.nodup_middle, List.append_nil]
    exact hcons
  · simp only [List.map_append, List.map_cons, List.map_nil, List.append_assoc,
      List.singleton_append] at hcons ⊢
    rw [← List.append_assoc, List.nodup_middle, List.append_assoc]
    exact hcons

/-- Each call with a fresh key at the bootstrap calls keeps the public keys of the roster
pairwise distinct. -/
theorem step_rosterKeys (address : List Nat → List Nat) (h g : HealthMgr) (op : Op)
    (out : List SwitchValidator) (hi : h.rosterKeys.Nodup) (hok : h.freshPut op = true)
    (hs : step address h op = some (g, out)) : g.rosterKeys.Nodup := by
  rcases step_roster address h g op out hs with ⟨he, e1, e2⟩ | ⟨he, e1, e2⟩ |
    ⟨id, ip, port, pk, _, e2⟩ | hsame
  · rw [e1] at hok
    rw [e2]
    exact rosterKeys_PutWorkHealth h he hi (by simpa [freshPut] using hok)
  · rw [e1] at hok
    rw [e2]
    cases he with
    | none => exact hi
    | some p => exact rosterKeys_PutBackHealth h p hi (by simpa [freshPut] using hok)
  · rw [e2, (rosterKeys_UpdataHealthInfo h id ip port pk).2]
    exact hi
  · rw [(rosterKeys_sameRoster hsame).2]
    exact hi

end HealthMgr

/-- C22 (amended): `PutWorkHealth` and `PutBackHealth` check nothing, and every other call keeps
the three collections and every record's public key.  So in a state reached from `NewHealthMgr`
by calls in which every record put has a public key that no roster record has at that moment, no
two roster records share a public key, no record occurs twice, and working, backup and seed are
pairwise disjoint. -/
theorem roster_keys_distinct_when_puts_fresh (address : List Nat → List Nat) :
    (∀ (mem : Ptr → Health) (cid : Nat) (ops : List Op) (g : HealthMgr)
        (out : List SwitchValidator),
        run address (NewHealthMgr mem cid) ops = some (g, out) →
        guardedRun HealthMgr.freshPut address (NewHealthMgr mem cid) ops = true →
        g.rosterKeys.Nodup ∧ g.roster.Nodup
          ∧ List.Disjoint (g.Work.map Prod.snd) g.Back
          ∧ List.Disjoint (g.Work.map Prod.snd) g.seed
          ∧ List.Disjoint g.Back g.seed)
    ∧ (∀ (h g : HealthMgr) (op : Op) (out : List SwitchValidator),
        step address h op = some (g, out) →
        (∀ he, op ≠ Op.putWorkHealth he) → (∀ he, op ≠ Op.putBackHealth he) →
        g.roster = h.roster ∧ g.rosterKeys = h.rosterKeys) := by
  constructor
  · intro mem cid ops g out hrun hfresh
    have hk : g.rosterKeys.Nodup :=
      guardedRun_inv HealthMgr.freshPut address (fun h => h.rosterKeys.Nodup)
        (fun h op g out hi hok hs => HealthMgr.step_rosterKeys address h g op out hi hok hs)
        ops _ g out (by simp [HealthMgr.rosterKeys, HealthMgr.roster, NewHealthMgr]) hfresh hrun
    have hr : g.roster.Nodup := List.Nodup.of_map _ hk
    refine ⟨hk, hr, ?_, ?_, ?_⟩
    · unfold HealthMgr.roster at hr
      exact (List.nodup_append.mp (List.nodup_append.mp hr).1).2.2
    · unfold HealthMgr.roster at hr
      intro x hx hs
      exact (List.nodup_append.mp hr).2.2 (List.mem_append_left _ hx) hs
    · unfold HealthMgr.roster at hr
      intro x hx hs
      exact (List.nodup_append.mp hr).2.2 (List.mem_append_right _ hx) hs
  · intro h g op out hs h1 h2
    rcases step_roster address h g op out hs with ⟨he, e1, _⟩ | ⟨he, e1, _⟩ |
      ⟨id, ip, port, pk, _, e2⟩ | hsame
    · exact absurd e1 (h1 he)
    · exact absurd e1 (h2 he)
    · rw [e2]
      exact HealthMgr.rosterKeys_UpdataHealthInfo h id ip port pk
    · exact HealthMgr.rosterKeys_sameRoster hsame

theorem roster_keys_distinct_when_puts_fresh_witness :
    guardedRun HealthMgr.freshPut id (NewHealthMgr (scenario1Mem 180) 7) scenario1Ops = true
    ∧ scenario1Switched.rosterKeys.Nodup ∧ scenario1Switched.roster.Nodup
    ∧ List.Disjoint (scenario1Switched.Work.map Prod.snd) scenario1Switched.Back
    ∧ List.Disjoint (scenario1Switched.Work.map Prod.snd) scenario1Switched.seed
    ∧ List.Disjoint scenario1Switched.Back scenario1Switched.seed :=
  ⟨by decide,
    (roster_keys_distinct_when_puts_fresh id).1 (scenario1Mem 180) 7 scenario1Ops
      scenario1Switched (scenario1 180).tickSent rfl (by decide)⟩

/-- C22 as stated fails: the state reached from `NewHealthMgr` by `PutWorkHealth(A)` and
`PutBackHealth(A)` has the record A both in working and in backup, so the two collections are
not disjoint and A's public key occurs twice in the roster. -/
theorem roster_not_disjoint_counterexample :
    Reachable aliasRoster
    ∧ run id (NewHealthMgr aliasMem 7) aliasOps = some (aliasRoster, [])
    ∧ (0 : Ptr) ∈ aliasRoster.Work.map Prod.snd ∧ (0 : Ptr) ∈ aliasRoster.Back
    ∧ ¬ List.Disjoint (aliasRoster.Work.map Prod.snd) aliasRoster.Back
    ∧ aliasRoster.rosterKeys = [[10], [10]]
    ∧ ¬ aliasRoster.rosterKeys.Nodup :=
  ⟨⟨id, aliasMem, 7, aliasOps, [], rfl⟩, rfl, by decide, by decide,
    (fun hd => hd (by decide : (0 : Ptr) ∈ aliasRoster.Work.map Prod.snd) (by decide)),
    by decide, by decide⟩

/-! ## The keys of the working map -/

namespace HealthMgr

theorem lookup_of_mem (k : String) (v : Ptr) :
    ∀ l : List (String × Ptr), (l.map Prod.fst).Nodup → (k, v) ∈ l → l.lookup k = some v := by
  intro l
  induction l with
  | nil => intro _ hm; cases hm
  | cons x xs ih =>
    obtain ⟨k', p'⟩ := x
    intro hnd hm
    simp only [List.map_cons, List.nodup_cons] at hnd
    rcases List.mem_cons.mp hm with hm | hm
    · cases hm
      simp [List.lookup]
    · have hne : k ≠ k' := by
        intro e
        apply hnd.1
        rw [← e]
        exact List.mem_map_of_mem Prod.fst hm
      have hb : (k == k') = false := by simpa using hne
      simp only [List.lookup, hb]
      exact ih hnd.2 hm

theorem workKeyed_sameRoster {h g : HealthMgr} (hs : SameRoster h g) (hw : h.WorkKeyed) :
    g.WorkKeyed := by
  refine ⟨fun e he => ?_, by rw [hs.work]; exact hw.2⟩
  rw [hs.work] at he
  rw [hs.id e.2]
  exact hw.1 e he

theorem workKeyed_PutWorkHealth (h : HealthMgr) (he : Ptr) (hw : h.WorkKeyed) :
    (h.PutWorkHealth he).WorkKeyed := by
  refine ⟨fun e hm => ?_, mapStore_keys_nodup _ _ _ hw.2⟩
  rcases mem_mapStore h.Work (h.mem he).ID he e hm with h1 | h1
  · rw [h1]
    rfl
  · exact hw.1 e h1

theorem workKeyed_PutBackHealth (h : HealthMgr) (he : Option Ptr) (hw : h.WorkKeyed) :
    (h.PutBackHealth he).WorkKeyed := by
  unfold PutBackHealth
  split
  · split <;> exact hw
  · exact hw

theorem workKeyed_UpdataHealthInfo (h : HealthMgr) (id ip : String) (port : Nat) (pk : List Nat)
    (hw : h.WorkKeyed) (hok : h.keepsId (Op.updataHealthInfo id ip port pk) = true) :
    (h.UpdataHealthInfo id ip port pk).WorkKeyed := by
  have hok' : (match h.GetHealth pk with
      | some e => decide ((h.mem e).ID = "" ∨ id = (h.mem e).ID ∨ e ∉ h.Work.map Prod.snd)
      | none => true) = true := hok
  unfold UpdataHealthInfo
  cases hg : h.GetHealth pk with
  | none => exact hw
  | some enter =>
    rw [hg] at hok'
    have hok : (h.mem enter).ID = "" ∨ id = (h.mem enter).ID ∨ enter ∉ h.Work.map Prod.snd := by
      simpa using hok'
    simp only []
    split
    · rename_i hne
      refine ⟨fun e he => ?_, hw.2⟩
      have he' : e ∈ h.Work := he
      show e.1 = (Function.update h.mem enter
        { h.mem enter with ID := id, IP := ip, Port := port } e.2).ID
      by_cases hq : e.2 = enter
      · rw [hq, Function.update_same]
        rcases hok with h1 | h1 | h1
        · exact absurd h1 hne
        · rw [hw.1 e he', hq]
          exact h1.symm
        · exact absurd (by rw [← hq]; exact List.mem_map_of_mem Prod.snd he') h1
      · rw [Function.update_noteq hq]
        exact hw.1 e he'
    · exact hw

/-- Each call that hands no working record a new peer id keeps the working map keyed by the
records' peer ids. -/
theorem step_workKeyed (address : List Nat → List Nat) (h g : HealthMgr) (op : Op)
    (out : List SwitchValidator) (hi : h.WorkKeyed) (hok : h.keepsId op = true)
    (hs : step address h op = some (g, out)) : g.WorkKeyed := by
  rcases step_roster address h g op out hs with ⟨he, _, e2⟩ | ⟨he, _, e2⟩ |
    ⟨id, ip, port, pk, e1, e2⟩ | hsame
  · rw [e2]
    exact workKeyed_PutWorkHealth h he hi
  · rw [e2]
    exact workKeyed_PutBackHealth h he hi
  · rw [e1] at hok
    rw [e2]
    exact workKeyed_UpdataHealthInfo h id ip port pk hi hok
  · exact workKeyed_sameRoster hsame hi

end HealthMgr

/-- C28 (amended): `PutWorkHealth` stores a record under its current peer id, and every call
keeps each working entry under its record's peer id, except `UpdataHealthInfo` when it gives a
working record a new peer id: the map is not re-keyed.  So in a state reached from `NewHealthMgr`
by calls in which `UpdataHealthInfo` hands no working record a peer id other than its own, every
working entry is stored under its record's current peer id, and `Update(record.ID)` finds that
record and, unless it is Fixed, resets its tick. -/
theorem work_keyed_by_peer_id (address : List Nat → List Nat) :
    (∀ (h : HealthMgr) (he : Ptr), ((h.mem he).ID, he) ∈ (h.PutWorkHealth he).Work)
    ∧ (∀ (mem : Ptr → Health) (cid : Nat) (ops : List Op) (g : HealthMgr)
        (out : List SwitchValidator),
        run address (NewHealthMgr mem cid) ops = some (g, out) →
        guardedRun HealthMgr.keepsId address (NewHealthMgr mem cid) ops = true →
        ∀ e ∈ g.Work, e.1 = (g.mem e.2).ID
          ∧ g.Work.lookup (g.mem e.2).ID = some e.2
          ∧ ((g.mem e.2).HType ≠ TypeFixed → ((g.Update (g.mem e.2).ID).mem e.2).Tick = 0)) := by
  refine ⟨fun h he => HealthMgr.mapStore_mem_self _ _ _, ?_⟩
  intro mem cid ops g out hrun hkeep e he
  have hw : g.WorkKeyed :=
    guardedRun_inv HealthMgr.keepsId address HealthMgr.WorkKeyed
      (fun h op g out hi hok hs => HealthMgr.step_workKeyed address h g op out hi hok hs)
      ops _ g out (by simp [HealthMgr.WorkKeyed, NewHealthMgr]) hkeep hrun
  have hkey := hw.1 e he
  have hl : g.Work.lookup (g.mem e.2).ID = some e.2 := by
    rw [← hkey]
    exact HealthMgr.lookup_of_mem e.1 e.2 g.Work hw.2 he
  exact ⟨hkey, hl, fun hnf => (HealthMgr.Update_work_hit g _ e.2 hl hnf).2⟩

theorem work_keyed_by_peer_id_witness :
    guardedRun HealthMgr.keepsId id (NewHealthMgr (scenario1Mem 180) 7) scenario1Ops = true
    ∧ ("A", 0) ∈ scenario1Switched.Work
    ∧ (scenario1Switched.mem 0).ID = "A"
    ∧ scenario1Switched.Work.lookup (scenario1Switched.mem 0).ID = some 0
    ∧ ((scenario1Switched.Update (scenario1Switched.mem 0).ID).mem 0).Tick = 0 :=
  ⟨by decide, by decide,
    (((work_keyed_by_peer_id id).2 (scenario1Mem 180) 7 scenario1Ops scenario1Switched
      (scenario1 180).tickSent rfl (by decide) ("A", 0) (by decide)).1).symm,
    ((work_keyed_by_peer_id id).2 (scenario1Mem 180) 7 scenario1Ops scenario1Switched
      (scenario1 180).tickSent rfl (by decide) ("A", 0) (by decide)).2.1,
    ((work_keyed_by_peer_id id).2 (scenario1Mem 180) 7 scenario1Ops scenario1Switched
      (scenario1 180).tickSent rfl (by decide) ("A", 0) (by decide)).2.2 (by decide)⟩

/-- C28 as stated fails: after `UpdataHealthInfo` gave the working record A the peer id "Z",
the record is still stored under the key "A", and `Update("Z")` finds no record and leaves A's
tick at 50.  And a Fixed working record stored under its peer id keeps its tick under
`Update`. -/
theorem work_key_stale_counterexample :
    Reachable scenario1Renamed
    ∧ run id (NewHealthMgr (scenario1Mem 50) 7) scenario1RenameOps = some (scenario1Renamed, [])
    ∧ ("A", 0) ∈ scenario1Renamed.Work
    ∧ (scenario1Renamed.mem 0).ID = "Z"
    ∧ scenario1Renamed.Work.lookup "Z" = none
    ∧ (scenario1Renamed.mem 0).HType ≠ TypeFixed
    ∧ ((scenario1Renamed.Update (scenario1Renamed.mem 0).ID).mem 0).Tick = 50
    ∧ ((scenario1Renamed.Update "A").mem 0).Tick = 0
    ∧ fixedWorkRoster.Work = [("F", 0)] ∧ (fixedWorkRoster.mem 0).ID = "F"
    ∧ ((fixedWorkRoster.Update "F").mem 0).Tick = 5 :=
  ⟨⟨id, scenario1Mem 50, 7, scenario1RenameOps, [], rfl⟩, rfl, by decide, by decide, by decide,
    by decide, by decide, by decide, by decide, by decide, by decide⟩

/-! ## The members list of a built proposal -/

namespace HealthMgr

theorem equal_congr (m n : Ptr → Health) (hid : ∀ q, (n q).ID = (m q).ID)
    (hval : ∀ q, (n q).Val = (m q).Val) (x y : Option Ptr) :
    Health.Equal n x y = Health.Equal m x y := by
  cases x <;> cases y <;> simp [Health.Equal, hid, hval]

/-- The list the three loops build starts with the leading entries. -/
theorem listedMembers_split (h : HealthMgr) (r : Ptr) (add : Option Ptr) :
    ∃ rest, listedMembers h r add = leadMembers h r add ++ rest := by
  unfold listedMembers
  rw [List.append_assoc]
  exact ⟨_, rfl⟩

/-- When no `Used` working record equals `add`, the list the three loops build is the list with
`add` excluded everywhere. -/
theorem listedMembers_eq_stated (h : HealthMgr) (r : Ptr) (add : Option Ptr)
    (hw : ∀ v ∈ h.Work.map Prod.snd, (h.mem v).State = StateUsedFlag →
      Health.Equal h.mem (some v) add = false) :
    listedMembers h r add = statedMembers h r add := by
  unfold listedMembers statedMembers
  simp only [List.filter_append, List.map_append, List.append_assoc]
  congr 2
  apply congrArg
  apply List.filter_congr
  intro v hv
  by_cases h1 : (h.mem v).State = StateUsedFlag
  · simp [hw v hv h1]
  · simp [h1]

/-- The stated list depends on the roster, the identities, the keys and on which records are
`Used` only. -/
theorem statedMembers_congr (h g : HealthMgr) (r : Ptr) (add : Option Ptr)
    (hsr : SameRoster h g)
    (hst : ∀ q, (g.mem q).State = StateUsedFlag ↔ (h.mem q).State = StateUsedFlag) :
    statedMembers g r add = statedMembers h r add := by
  have heq : ∀ x y, Health.Equal g.mem x y = Health.Equal h.mem x y :=
    equal_congr h.mem g.mem hsr.id hsr.val
  have hlead : leadMembers g r add = leadMembers h r add := by
    cases add <;> simp [leadMembers, hsr.val]
  unfold statedMembers
  rw [hlead, hsr.work, hsr.back, hsr.seed]
  congr 1
  have hf : (fun v => ({ Pk := (g.mem v).Val.PubKey, Flag := StateUsedFlag } : SwitchEnter)) =
      (fun v => ({ Pk := (h.mem v).Val.PubKey, Flag := StateUsedFlag } : SwitchEnter)) :=
    funext fun v => by rw [hsr.val]
  rw [hf]
  apply congrArg
  apply List.filter_congr
  intro q _
  rw [heq, heq]
  by_cases hs : (h.mem q).State = StateUsedFlag
  · simp [hs, (hst q).mpr hs]
  · have hg : ¬ (g.mem q).State = StateUsedFlag := fun hh => hs ((hst q).mp hh)
    simp [hs, hg]


/-- The proposal the switch path builds in a state `h0` that differs by ticks only from the
start `h` of the pass lists the members as stated, read in `h`, as soon as the roster
identities are pairwise distinct. -/
theorem switchProposal_stated (h h0 : HealthMgr) (v : Ptr) (hq : Quiet h h0)
    (hnd : (h.roster.map h.identity).Nodup) :
    (h0.switchProposal v).Infos =
      some { CID := h.cid, Vals := statedMembers h v (h0.switchProposal v).Add } := by
  have hpk := pickUnuseValidator_snd (h0.bumped v)
  have hfst := pickUnuseValidator_fst (h0.bumped v)
  have hsr : SameRoster h (h0.bumped v).pickUnuseValidator.2 :=
    ⟨by simp [bumped, hq.same.roster.work], by simp [bumped, hq.same.roster.back],
      by simp [bumped, hq.same.roster.seed], by simp [bumped, hq.same.roster.cid],
      fun q => by simp [bumped, hq.same.roster.htype],
      fun q => by simp [bumped, hq.same.roster.self],
      fun q => by simp [bumped, hq.same.roster.id],
      fun q => by simp [bumped, hq.same.roster.val]⟩
  have hro : (h0.bumped v).pickUnuseValidator.2.roster = h.roster := by
    unfold roster
    rw [hsr.work, hsr.back, hsr.seed]
  have hid : (h0.bumped v).pickUnuseValidator.2.identity = h.identity :=
    funext fun q => by unfold identity; rw [hsr.id, hsr.val]
  have hnd2 : ((h0.bumped v).pickUnuseValidator.2.roster.map
      (h0.bumped v).pickUnuseValidator.2.identity).Nodup := by
    rw [hro, hid]
    exact hnd
  have hstate0 : ∀ q, ((h0.bumped v).mem q).State = (h.mem q).State := by
    intro q
    simp [bumped, hq.same.state]
  have hst : ∀ q, ((h0.bumped v).pickUnuseValidator.2.mem q).State = StateUsedFlag ↔
      (h.mem q).State = StateUsedFlag := by
    intro q
    cases hadd : (h0.bumped v).pickUnuseValidator.1 with
    | none =>
      rw [hadd] at hpk
      rw [hpk, hstate0]
    | some a =>
      have hun := pickUnuseValidator_unused (h0.bumped v) a hadd
      rw [hadd] at hpk
      rw [hpk, storeState_State]
      by_cases hqa : q = a
      · subst hqa
        rw [hstate0] at hun
        simp [hun, StateSwitchingFlag, StateUsedFlag, StateUnusedFlag]
      · simp [hqa, hstate0]
  have hw : ∀ q ∈ (h0.bumped v).pickUnuseValidator.2.Work.map Prod.snd,
      ((h0.bumped v).pickUnuseValidator.2.mem q).State = StateUsedFlag →
      Health.Equal (h0.bumped v).pickUnuseValidator.2.mem (some q)
        (h0.bumped v).pickUnuseValidator.1 = false := by
    intro q hqm hqs
    cases hadd : (h0.bumped v).pickUnuseValidator.1 with
    | none => rfl
    | some a =>
      rw [hadd] at hpk hfst
      by_contra hne
      have heq : Health.Equal (h0.bumped v).pickUnuseValidator.2.mem (some q) (some a) = true := by
        simpa using hne
      rw [equal_iff_identity] at heq
      have hain : a ∈ (h0.bumped v).Back ++ (h0.bumped v).seed := by
        cases hb : (h0.bumped v).Back.find?
            (fun v_1 => decide (((h0.bumped v).mem v_1).State = StateUnusedFlag)) with
        | some w =>
          rw [hb] at hfst
          cases hfst
          exact List.mem_append_left _ (List.mem_of_find?_eq_some hb)
        | none =>
          rw [hb] at hfst
          exact List.mem_append_right _ (List.mem_of_find?_eq_some hfst.symm)
      have hqr : q ∈ (h0.bumped v).pickUnuseValidator.2.roster := by
        unfold roster
        exact List.mem_append_left _ (List.mem_append_left _ hqm)
      have har : a ∈ (h0.bumped v).pickUnuseValidator.2.roster := by
        unfold roster
        rw [List.append_assoc]
        exact List.mem_append_right _ (by simpa using hain)
      have hqa : q = a := List.inj_on_of_nodup_map hnd2 hqr har heq
      rw [hqa, hpk] at hqs
      simp [StateSwitchingFlag, StateUsedFlag] at hqs
  have h1 := listedMembers_eq_stated (h0.bumped v).pickUnuseValidator.2 v
    (h0.bumped v).pickUnuseValidator.1 hw
  have h2 := statedMembers_congr h (h0.bumped v).pickUnuseValidator.2 v
    (h0.bumped v).pickUnuseValidator.1 hsr hst
  have h3 : (h0.switchProposal v).Infos =
      some ⟨h0.cid, listedMembers (h0.bumped v).pickUnuseValidator.2 v
        (h0.bumped v).pickUnuseValidator.1⟩ := rfl
  rw [h3, h1, h2, hq.same.roster.cid]
  rfl

/-- A direction-0 proposal sent by a tick step over a roster with pairwise distinct identities
lists the members as stated. -/
theorem healthTick_stated (h g : HealthMgr) (out : List SwitchValidator)
    (hnd : (h.roster.map h.identity).Nodup) (ht : h.healthTick = some (g, out))
    (p : SwitchValidator) (hp : p ∈ out) (hf : p.From = 0) :
    ∃ v, p.Remove = some v ∧
      p.Infos = some { CID := h.cid, Vals := statedMembers h v p.Add } := by
  obtain ⟨_, h0, v, q1, _, _, _, q5, _⟩ :=
    passShape_built (healthTick_passShape h g out ht) p hp hf
  rw [q5]
  exact ⟨v, rfl, switchProposal_stated h h0 v q1 hnd⟩

theorem mem_of_lookup (k : String) (v : Ptr) :
    ∀ l : List (String × Ptr), l.lookup k = some v → (k, v) ∈ l := by
  intro l
  induction l with
  | nil => intro hl; cases hl
  | cons x xs ih =>
    obtain ⟨k1, p1⟩ := x
    intro hl
    rw [List.lookup_cons] at hl
    by_cases hk : (k == k1) = true
    · rw [hk] at hl
      cases hl
      rw [eq_of_beq hk]
      exact List.mem_cons_self _ _
    · have hk1 : (k == k1) = false := by simpa using hk
      rw [hk1] at hl
      exact List.mem_cons_of_mem _ (ih hl)

/-- Scenario 1 whatever the order in which the working map is iterated: the tick step at which
A crosses the threshold sends one proposal whose members are E (Append), A (Removed) and then
B, C, D (Used) in the order of the iteration. -/
theorem scenario1_any_order (W : List (String × Ptr)) (hW : W.Perm (scenario1 180).Work) :
    ∃ g p, ((scenario1 180).reordered W).healthTick = some (g, [p]) ∧ p.Remove = some 0 ∧
      p.Add = some 4 ∧
      p.Infos = some
        { CID := 7,
          Vals := ⟨[14], StateAppendFlag⟩ :: ⟨[10], StateRemovedFlag⟩ ::
            ((W.map Prod.snd).filter (fun v => decide (v ≠ 0))).map
              (fun v => ⟨(scenario1Mem 180 v).Val.PubKey, StateUsedFlag⟩) } ∧
      (((W.map Prod.snd).filter (fun v => decide (v ≠ 0))).map
          (fun v => (⟨(scenario1Mem 180 v).Val.PubKey, StateUsedFlag⟩ : SwitchEnter))).Perm
        [⟨[11], StateUsedFlag⟩, ⟨[12], StateUsedFlag⟩, ⟨[13], StateUsedFlag⟩] := by
  have hW0 : (scenario1 180).Work = [("A", 0), ("B", 1), ("C", 2), ("D", 3)] := rfl
  rw [hW0] at hW
  have hP : (W.map Prod.snd).Perm [0, 1, 2, 3] := hW.map Prod.snd
  have hmem : ∀ v ∈ W.map Prod.snd, v = 0 ∨ v = 1 ∨ v = 2 ∨ v = 3 := by
    intro v hv
    have := hP.mem_iff.mp hv
    simpa using this
  have hshape : Scenario1Shape ((scenario1 180).reordered W) 0 4 "A" 180 := by
    refine ⟨hP.nodup_iff.mpr (by decide), ?_, hP.mem_iff.mpr (by decide), ?_, ?_, rfl, rfl, ?_,
      rfl, rfl, rfl⟩
    · show 3 ≤ W.length
      rw [hW.length_eq]
      decide
    · intro id hid
      have hm : (id, 0) ∈ W := mem_of_lookup id 0 W hid
      have := hW.mem_iff.mp hm
      simp at this
      exact this
    · intro v hv
      rcases hmem v hv with rfl | rfl | rfl | rfl <;>
        exact ⟨rfl, fun hc => absurd (show TypeWorked = TypeFixed from hc) (by decide), rfl⟩
    · intro hv
      exact absurd (hmem 4 hv) (by decide)
  have hbelow : OthersBelow ((scenario1 180).reordered W) 0 := by
    intro v hv hne
    rcases hmem v hv with rfl | rfl | rfl | rfl
    · exact absurd rfl hne
    · exact (by decide : -2 ^ 31 ≤ (scenario1Mem 180 1).Tick ∧ (scenario1Mem 180 1).Tick < HealthOut)
    · exact (by decide : -2 ^ 31 ≤ (scenario1Mem 180 2).Tick ∧ (scenario1Mem 180 2).Tick < HealthOut)
    · exact (by decide : -2 ^ 31 ≤ (scenario1Mem 180 3).Tick ∧ (scenario1Mem 180 3).Tick < HealthOut)
  have hnd : (((scenario1 180).reordered W).roster.map
      ((scenario1 180).reordered W).identity).Nodup := by
    have hperm : ((scenario1 180).reordered W).roster.Perm [0, 1, 2, 3, 4] := by
      show (W.map Prod.snd ++ [4] ++ []).Perm [0, 1, 2, 3, 4]
      rw [List.append_nil]
      exact hP.append_right [4]
    have hidm : ((scenario1 180).reordered W).identity = (scenario1 180).identity := rfl
    rw [hidm]
    exact (hperm.map _).nodup_iff.mpr (by decide)
  obtain ⟨g, p, ht, hf, hrem, hadd, _⟩ := healthTick_trigger _ 0 4 "A" hshape hbelow
  obtain ⟨v, hv, hinfo⟩ := healthTick_stated _ g [p] hnd ht p (List.mem_singleton.mpr rfl) hf
  rw [hrem] at hv
  cases hv
  rw [hadd] at hinfo
  have hfilter : (W.map Prod.snd).filter
      (fun v => decide ((scenario1Mem 180 v).State = StateUsedFlag)
        && !Health.Equal (scenario1Mem 180) (some v) (some 0)
        && !Health.Equal (scenario1Mem 180) (some v) (some 4)) =
      (W.map Prod.snd).filter (fun v => decide (v ≠ 0)) := by
    apply List.filter_congr
    intro v hv
    rcases hmem v hv with rfl | rfl | rfl | rfl <;> decide
  have hstated : statedMembers ((scenario1 180).reordered W) 0 (some 4) =
      ⟨[14], StateAppendFlag⟩ :: ⟨[10], StateRemovedFlag⟩ ::
        ((W.map Prod.snd).filter (fun v => decide (v ≠ 0))).map
          (fun v => ⟨(scenario1Mem 180 v).Val.PubKey, StateUsedFlag⟩) := by
    show [(⟨[14], StateAppendFlag⟩ : SwitchEnter), ⟨[10], StateRemovedFlag⟩] ++
      ((W.map Prod.snd ++ [4] ++ []).filter
        (fun v => decide ((scenario1Mem 180 v).State = StateUsedFlag)
          && !Health.Equal (scenario1Mem 180) (some v) (some 0)
          && !Health.Equal (scenario1Mem 180) (some v) (some 4))).map
        (fun v => ⟨(scenario1Mem 180 v).Val.PubKey, StateUsedFlag⟩) = _
    rw [List.append_nil, List.filter_append, hfilter]
    have h4 : ([4] : List Ptr).filter
        (fun v => decide ((scenario1Mem 180 v).State = StateUsedFlag)
          && !Health.Equal (scenario1Mem 180) (some v) (some 0)
          && !Health.Equal (scenario1Mem 180) (some v) (some 4)) = [] := by decide
    rw [h4, List.append_nil]
    rfl
  rw [hstated] at hinfo
  refine ⟨g, p, ht, hrem, hadd, hinfo, ?_⟩
  exact ((hP.filter _).map _)

end HealthMgr

/-- C4 (amended): `makeSwitchValidators` with a non-nil `remove` returns a proposal whose members
start with `add` (flag Append) when it is present and then `remove` (flag Removed); when `add` is
nil or equals no `Used` working record, the remaining entries are exactly the records of working,
backup and seed, in that order, whose state is `Used` and that equal neither `remove` nor `add`,
each with flag `Used`.  Every direction-0 proposal a tick step sends over a roster with pairwise
distinct identities is such a list.  The working map is iterated in no fixed order: Scenario 1
yields E (Append), A (Removed) and then B, C, D (Used) in the order of that iteration. -/
theorem makeSwitchValidators_members :
    (∀ (h : HealthMgr) (r : Ptr) (add : Option Ptr) (resion : String) (frm : Int),
      ∃ sv h' rest, h.makeSwitchValidators (some r) add resion frm = some (sv, h') ∧
        sv.Infos = some { CID := h.cid, Vals := HealthMgr.leadMembers h r add ++ rest } ∧
        ((∀ v ∈ h.Work.map Prod.snd, (h.mem v).State = StateUsedFlag →
            Health.Equal h.mem (some v) add = false) →
          HealthMgr.leadMembers h r add ++ rest = HealthMgr.statedMembers h r add))
    ∧ (∀ (h g : HealthMgr) (out : List SwitchValidator),
        (h.roster.map h.identity).Nodup → h.healthTick = some (g, out) →
        ∀ p ∈ out, p.From = 0 →
          ∃ v, p.Remove = some v ∧
            p.Infos = some { CID := h.cid, Vals := HealthMgr.statedMembers h v p.Add })
    ∧ (∀ W : List (String × Ptr), W.Perm (scenario1 180).Work →
        ∃ g p, ((scenario1 180).reordered W).healthTick = some (g, [p]) ∧ p.Remove = some 0 ∧
          p.Add = some 4 ∧
          p.Infos = some
            { CID := 7,
              Vals := ⟨[14], StateAppendFlag⟩ :: ⟨[10], StateRemovedFlag⟩ ::
                ((W.map Prod.snd).filter (fun v => decide (v ≠ 0))).map
                  (fun v => ⟨(scenario1Mem 180 v).Val.PubKey, StateUsedFlag⟩) } ∧
          (((W.map Prod.snd).filter (fun v => decide (v ≠ 0))).map
              (fun v => (⟨(scenario1Mem 180 v).Val.PubKey, StateUsedFlag⟩ : SwitchEnter))).Perm
            [⟨[11], StateUsedFlag⟩, ⟨[12], StateUsedFlag⟩, ⟨[13], StateUsedFlag⟩]) := by
  refine ⟨fun h r add resion frm => ?_, fun h g out hnd ht p hp hf =>
    HealthMgr.healthTick_stated h g out hnd ht p hp hf,
    fun W hW => HealthMgr.scenario1_any_order W hW⟩
  obtain ⟨rest, hl⟩ := HealthMgr.listedMembers_split h r add
  refine ⟨_, _, rest, HealthMgr.makeSwitchValidators_eq h r add resion frm, ?_, fun hw => ?_⟩
  · exact congrArg (fun l => some (⟨h.cid, l⟩ : SwitchInfos)) hl
  · rw [← hl]
    exact HealthMgr.listedMembers_eq_stated h r add hw

theorem makeSwitchValidators_members_witness :
    (∃ sv h' rest, (scenario1 181).makeSwitchValidators (some 0) (some 4) "Switch" 0 =
        some (sv, h') ∧
      sv.Infos = some { CID := (scenario1 181).cid,
                        Vals := HealthMgr.leadMembers (scenario1 181) 0 (some 4) ++ rest } ∧
      HealthMgr.leadMembers (scenario1 181) 0 (some 4) ++ rest =
        HealthMgr.statedMembers (scenario1 181) 0 (some 4))
    ∧ HealthMgr.statedMembers (scenario1 181) 0 (some 4) =
        [⟨[14], StateAppendFlag⟩, ⟨[10], StateRemovedFlag⟩, ⟨[11], StateUsedFlag⟩,
          ⟨[12], StateUsedFlag⟩, ⟨[13], StateUsedFlag⟩]
    ∧ scenario1Proposal ∈ (scenario1 180).tickSent
    ∧ (∃ v, scenario1Proposal.Remove = some v ∧
        scenario1Proposal.Infos =
          some { CID := (scenario1 180).cid,
                 Vals := HealthMgr.statedMembers (scenario1 180) v scenario1Proposal.Add })
    ∧ (∃ g p, ((scenario1 180).reordered [("A", 0), ("C", 2), ("B", 1), ("D", 3)]).healthTick =
          some (g, [p]) ∧ p.Remove = some 0 ∧ p.Add = some 4 ∧
        p.Infos = some
          { CID := 7,
            Vals := ⟨[14], StateAppendFlag⟩ :: ⟨[10], StateRemovedFlag⟩ ::
              ((([("A", 0), ("C", 2), ("B", 1), ("D", 3)] : List (String × Ptr)).map
                Prod.snd).filter (fun v => decide (v ≠ 0))).map
                  (fun v => ⟨(scenario1Mem 180 v).Val.PubKey, StateUsedFlag⟩) } ∧
        ((((([("A", 0), ("C", 2), ("B", 1), ("D", 3)] : List (String × Ptr)).map
              Prod.snd).filter (fun v => decide (v ≠ 0))).map
            (fun v => (⟨(scenario1Mem 180 v).Val.PubKey, StateUsedFlag⟩ : SwitchEnter))).Perm
          [⟨[11], StateUsedFlag⟩, ⟨[12], StateUsedFlag⟩, ⟨[13], StateUsedFlag⟩])) :=
  ⟨by
      obtain ⟨sv, h', rest, a, b, c⟩ :=
        makeSwitchValidators_members.1 (scenario1 181) 0 (some 4) "Switch" 0
      exact ⟨sv, h', rest, a, b, c (by decide)⟩,
    by decide, by decide,
    makeSwitchValidators_members.2.1 (scenario1 180) scenario1Switched (scenario1 180).tickSent
      (by decide) rfl scenario1Proposal (by decide) rfl,
    makeSwitchValidators_members.2.2 [("A", 0), ("C", 2), ("B", 1), ("D", 3)] (by decide)⟩

/-- C4 as stated fails.  Scenario 1 built with the working records put in the order A, C, B, D
is the same roster, and the proposal of its tick step lists `[E:Append, A:Removed, C:Used,
B:Used, D:Used]`, not the list the claim gives.  And in a committee built through the bootstrap
calls in which a `Used` working record carries the peer id and public key of the backup E, the
proposal of the tick step (remove A, add E) lists that record after the leading entries although
it equals `add`; the stated list leaves it out. -/
theorem makeSwitchValidators_members_counterexample :
    scenario1Shuffled.Work.Perm (scenario1 180).Work
    ∧ scenario1Shuffled.Back = (scenario1 180).Back
    ∧ scenario1Shuffled.tickSent.map (fun p => p.Infos) =
        [some { CID := 7,
                Vals := [⟨[14], StateAppendFlag⟩, ⟨[10], StateRemovedFlag⟩, ⟨[12], StateUsedFlag⟩,
                  ⟨[11], StateUsedFlag⟩, ⟨[13], StateUsedFlag⟩] }]
    ∧ scenario1Shuffled.tickSent.map (fun p => p.Infos) ≠
        [some { CID := 7,
                Vals := [⟨[14], StateAppendFlag⟩, ⟨[10], StateRemovedFlag⟩, ⟨[11], StateUsedFlag⟩,
                  ⟨[12], StateUsedFlag⟩, ⟨[13], StateUsedFlag⟩] }]
    ∧ scenarioTwin.tickSent.map (fun p => (p.From, p.Remove, p.Add, p.Infos)) =
        [(0, some 0, some 4,
          some { CID := 7,
                 Vals := [⟨[14], StateAppendFlag⟩, ⟨[10], StateRemovedFlag⟩,
                   ⟨[11], StateUsedFlag⟩, ⟨[12], StateUsedFlag⟩, ⟨[14], StateUsedFlag⟩] })]
    ∧ Health.Equal scenarioTwin.mem (some 3) (some 4) = true
    ∧ HealthMgr.statedMembers scenarioTwin 0 (some 4) =
        [⟨[14], StateAppendFlag⟩, ⟨[10], StateRemovedFlag⟩, ⟨[11], StateUsedFlag⟩,
          ⟨[12], StateUsedFlag⟩] := by
  decide

end Tbft
